import Mathlib

/-!
# Asset marketplace chaincode (guoger/ibp-workshop)

A shallow embedding of `chaincode.go`, `asset/asset.go` and `balance/balance.go`,
followed by theorems about the marketplace operations.

Modelling conventions.

* Go `string` and `[]byte` values are Lean `String`s, i.e. well-formed UTF-8 text
  (the form in which names and organisation identifiers reach the handlers).
* `uint64` values are `Nat`s; the one place where the source can wrap
  (`sellerBalance += ast.Price`) reduces modulo `2 ^ 64` explicitly.
* The chaincode stub is a value: the caller identity carried by the proposal and the
  world state as a list of key/value entries.  A handler returns its response together
  with the stub after its writes, applied in program order.
* The host ledger is reliable: a composite key can be refused (malformed attribute) and
  `PutState` refuses the empty key, but a read, a write or a scan of an existing key does
  not fail by itself.  The error branches of the source after those calls are kept.
* `fmt.Printf` calls (console logging) have no effect on the ledger and are omitted.
* Library routines used by the source (`strconv`, `strings`, `encoding/json`, the Fabric
  `shim`) are embedded as far as the source exercises them; every such definition says
  what it stands for.
-/

set_option autoImplicit false

/-! ## Go errors and responses -/

/-- A Go `error` value.  The two sentinels created with `errors.New` are compared by
identity in the source (`err == ErrFundNotExist`), so they are constructors of their own;
every other error is an `errors.Errorf` value (or a host error) carrying its message. -/
inductive GoError where
  | fundNotExist
  | assetNotExist
  | errorf (msg : String)
  deriving DecidableEq, Repr

/-- The text of an error, `err.Error()`, as printed by the `%s` verb. -/
def GoError.Error : GoError → String
  | .fundNotExist => "fund not exists"
  | .assetNotExist => "asset not exists"
  | .errorf msg => msg

deriving instance DecidableEq for Except

/-- The `pb.Response` message returned by every handler. -/
structure Response where
  Status : Nat
  Message : String
  Payload : String
  deriving DecidableEq, Repr

/-! ## `strconv`: decimal formatting and parsing of unsigned integers -/

namespace strconv

/-- The decimal digit character of a number below ten, `byte(48 + u)`. -/
def digit (u : Nat) : Char := Char.ofNat (48 + u % 10)

/-- The digit loop of `formatBits` for base ten: peel off the least significant digit
while `u >= 10`, then write the last digit.  The first argument bounds the number of
iterations. -/
def formatBits : Nat → Nat → List Char → List Char
  | 0, _, acc => acc
  | fuel + 1, u, acc =>
    if 10 ≤ u then formatBits fuel (u / 10) (digit (u % 10) :: acc) else digit u :: acc

/-- The function `strconv.FormatUint(i, 10)`; also the rendering of the `%d` verb. -/
def FormatUint (i : Nat) : String := ⟨formatBits (i + 1) i []⟩

/-- The two failures of `strconv.ParseUint`. -/
inductive NumError where
  | ErrSyntax
  | ErrRange
  deriving DecidableEq, Repr

/-- The size in bits of `uint` on the 64-bit platforms the chaincode runs on
(`strconv.IntSize`), used when `bitSize` is 0. -/
def IntSize : Nat := 64

/-- The constant `maxUint64/10 + 1`: the smallest number whose tenfold exceeds
`maxUint64`. -/
def cutoff : Nat := (2 ^ 64 - 1) / 10 + 1

/-- The scanning loop of `ParseUint` for base ten.  `n` is the `uint64` accumulator,
`maxVal` is `1<<bitSize - 1`. -/
def parseLoop (maxVal : Nat) : List Char → Nat → Except NumError Nat
  | [], n => .ok n
  | c :: cs, n =>
    if 48 ≤ c.toNat ∧ c.toNat ≤ 57 then
      if cutoff ≤ n then .error .ErrRange
      else
        let n10 := n * 10
        let n1 := (n10 + (c.toNat - 48)) % 2 ^ 64
        if n1 < n10 ∨ maxVal < n1 then .error .ErrRange else parseLoop maxVal cs n1
    else .error .ErrSyntax

/-- The function `strconv.ParseUint(s, 10, bitSize)`: the empty string and any character
that is not a decimal digit (a sign included) are syntax errors, a value that does not fit
`bitSize` bits is a range error. -/
def ParseUint (s : String) (bitSize : Nat) : Except NumError Nat :=
  if s.data = [] then .error .ErrSyntax
  else parseLoop (2 ^ (if bitSize = 0 then IntSize else bitSize) - 1) s.data 0

/-- The text of a `*strconv.NumError` returned by `ParseUint` on input `s`
(the input is shown between plain double quotes). -/
def NumError.Error (e : NumError) (s : String) : String :=
  "strconv.ParseUint: parsing \"" ++ s ++ "\": " ++
    (match e with
     | .ErrSyntax => "invalid syntax"
     | .ErrRange => "value out of range")

end strconv

/-! ## `strings.ToLower` -/

namespace strings

/-- Lower-casing of one rune.  ASCII letters are handled arithmetically as in the source
of `strings.ToLower`; for the other runes the case table of Go's `unicode` package is the
parameter `tbl`. -/
def lowerRune (tbl : Char → Char) (c : Char) : Char :=
  if c.toNat < 128 then
    (if 65 ≤ c.toNat ∧ c.toNat ≤ 90 then Char.ofNat (c.toNat + 32) else c)
  else tbl c

/-- The function `strings.ToLower`, rune by rune. -/
def ToLower (tbl : Char → Char) (s : String) : String := ⟨s.data.map (lowerRune tbl)⟩

end strings

/-! ## The Fabric chaincode stub -/

/-- The chaincode stub of one invocation: `creator` is what `GetCreator` followed by
`proto.Unmarshal` into a `SerializedIdentity` yields (the MSP id of the caller, or the
error of either step), `state` is the world state. -/
structure Stub where
  creator : Except GoError String
  state : List (String × String)
  deriving DecidableEq

namespace shim

/-- Status code of `shim.Success`. -/
def OK : Nat := 200

/-- Status code of `shim.Error`. -/
def ERROR : Nat := 500

/-- The function `shim.Success(payload)`. -/
def Success (payload : String) : Response := ⟨OK, "", payload⟩

/-- The function `shim.Error(msg)`. -/
def Error (msg : String) : Response := ⟨ERROR, msg, ""⟩

/-- The rune U+0000, separator of composite keys. -/
def minUnicodeRuneValue : Char := Char.ofNat 0

/-- The rune U+10FFFF, upper end of composite-key range scans. -/
def maxUnicodeRuneValue : Char := Char.ofNat 1114111

/-- The check `validateCompositeKeyAttribute`: an attribute must not contain U+0000 or
U+10FFFF (validity as UTF-8 holds for every `String`). -/
def validateCompositeKeyAttribute (str : String) : Except GoError Unit :=
  if str.data.any (fun r => r = minUnicodeRuneValue ∨ r = maxUnicodeRuneValue) then
    .error (.errorf ("input contain unicode U+0000 or U+10FFFF: " ++ str))
  else .ok ()

/-- The loop of `createCompositeKey` over the attributes: each one is validated and
appended to the key followed by U+0000. -/
def appendAttributes : List String → String → Except GoError String
  | [], ck => .ok ck
  | att :: rest, ck =>
    match validateCompositeKeyAttribute att with
    | .error err => .error err
    | .ok _ => appendAttributes rest (ck ++ att ++ String.singleton minUnicodeRuneValue)

/-- The function `stub.CreateCompositeKey(objectType, attributes)`: the key is
U+0000, the object type, U+0000, then every attribute followed by U+0000. -/
def CreateCompositeKey (objectType : String) (attributes : List String) :
    Except GoError String :=
  match validateCompositeKeyAttribute objectType with
  | .error err => .error err
  | .ok _ =>
    appendAttributes attributes
      (String.singleton minUnicodeRuneValue ++ objectType ++
        String.singleton minUnicodeRuneValue)

/-- Point lookup in the world state. -/
def lookup (key : String) : List (String × String) → Option String
  | [] => none
  | kv :: rest => if kv.1 = key then some kv.2 else lookup key rest

/-- Upsert into the world state: an existing entry is overwritten in place, a new key is
appended. -/
def upsert (key value : String) : List (String × String) → List (String × String)
  | [] => [(key, value)]
  | kv :: rest => if kv.1 = key then (key, value) :: rest else kv :: upsert key value rest

/-- The function `stub.GetState(key)`: `none` stands for the `nil` returned for an absent
key. -/
def GetState (stub : Stub) (key : String) : Except GoError (Option String) :=
  .ok (lookup key stub.state)

/-- The function `stub.PutState(key, value)`: the shim refuses the empty key, otherwise
the entry is written. -/
def PutState (stub : Stub) (key value : String) : Except GoError Stub :=
  if key = "" then .error (.errorf "key must not be an empty string")
  else .ok ⟨stub.creator, upsert key value stub.state⟩

/-- Membership of a key in the range scanned for a partial composite key `pck`: from
`pck` inclusive to `pck` followed by U+10FFFF exclusive, that is, the keys that extend
`pck` by something not starting with U+10FFFF. -/
def inPartialRange (pck key : String) : Bool :=
  pck.data.isPrefixOf key.data &&
    decide ((key.data.drop pck.data.length).head? ≠ some maxUnicodeRuneValue)

/-- The function `stub.GetStateByPartialCompositeKey(objectType, attributes)` together
with the draining of its iterator: the entries of the range, in the order of the
store. -/
def GetStateByPartialCompositeKey (stub : Stub) (objectType : String)
    (attributes : List String) : Except GoError (List (String × String)) :=
  match CreateCompositeKey objectType attributes with
  | .error err => .error err
  | .ok pck => .ok (stub.state.filter (fun kv => inPartialRange pck kv.1))

end shim

/-! ## `encoding/json` -/

namespace asset

/-- The record type `asset.Asset`. -/
structure Asset where
  Name : String
  Owner : String
  Creator : String
  Price : Nat
  deriving DecidableEq, Repr

end asset

namespace json

/-- The lower-case hexadecimal digit of a number below sixteen (the table `hex`). -/
def hex (n : Nat) : Char := if n < 10 then Char.ofNat (48 + n) else Char.ofNat (87 + n)

/-- The encoding of one rune inside a string literal by `encodeState.string` with HTML
escaping on, as `json.Marshal` does: runes below U+0020, the double quote, the backslash
and the characters less-than, greater-than and ampersand are escaped, as are U+2028 and
U+2029; every other rune is copied.  (Later Go releases write two more short escapes,
for U+0008 and U+000C; the decoder below reads both forms.) -/
def encodeRune (c : Char) : List Char :=
  if c.toNat < 128 then
    if 32 ≤ c.toNat ∧ c ≠ '"' ∧ c ≠ '\\' ∧ c ≠ '<' ∧ c ≠ '>' ∧ c ≠ '&' then [c]
    else if c = '\\' ∨ c = '"' then ['\\', c]
    else if c = '\n' then ['\\', 'n']
    else if c = '\r' then ['\\', 'r']
    else if c = '\t' then ['\\', 't']
    else ['\\', 'u', '0', '0', hex (c.toNat / 16), hex (c.toNat % 16)]
  else if c.toNat = 8232 ∨ c.toNat = 8233 then ['\\', 'u', '2', '0', '2', hex (c.toNat % 16)]
  else [c]

/-- A Go string as a JSON string literal. -/
def encodeString (s : String) : List Char :=
  '"' :: (s.data.flatMap encodeRune ++ ['"'])

/-- The value of a hexadecimal digit, in either case. -/
def hexVal (c : Char) : Option Nat :=
  if 48 ≤ c.toNat ∧ c.toNat ≤ 57 then some (c.toNat - 48)
  else if 97 ≤ c.toNat ∧ c.toNat ≤ 102 then some (c.toNat - 87)
  else if 65 ≤ c.toNat ∧ c.toNat ≤ 70 then some (c.toNat - 55)
  else none

/-- The function `getu4` on the four characters after a backslash and the letter u. -/
def getu4 (a b c d : Char) : Option Nat :=
  match hexVal a, hexVal b, hexVal c, hexVal d with
  | some x, some y, some z, some w => some (((x * 16 + y) * 16 + z) * 16 + w)
  | _, _, _, _ => none

/-- The Unicode replacement character U+FFFD. -/
def replacementChar : Char := Char.ofNat 65533

/-- The test `utf16.IsSurrogate`. -/
def isSurrogate (r : Nat) : Bool := 55296 ≤ r && r < 57344

/-- The function `utf16.DecodeRune`: the rune of a surrogate pair, if it is one. -/
def decodeSurrogates (r1 r2 : Nat) : Option Char :=
  if 55296 ≤ r1 ∧ r1 < 56320 ∧ 56320 ≤ r2 ∧ r2 < 57344 then
    some (Char.ofNat ((r1 - 55296) * 1024 + (r2 - 56320) + 65536))
  else none

/-- The character denoted by a one-letter escape. -/
def simpleEscape (e : Char) : Option Char :=
  if e = '"' then some '"'
  else if e = '\\' then some '\\'
  else if e = '/' then some '/'
  else if e = 'b' then some (Char.ofNat 8)
  else if e = 'f' then some (Char.ofNat 12)
  else if e = 'n' then some '\n'
  else if e = 'r' then some '\r'
  else if e = 't' then some '\t'
  else none

/-- Prepend a decoded rune to the result of decoding the remaining literal. -/
def consRune (c : Char) (r : Option (List Char × List Char)) : Option (List Char × List Char) :=
  r.map (fun p => (c :: p.1, p.2))

/-- The rune of a surrogate pair whose first half is `rr`, when the input continues with
the escape of a matching second half. -/
def pairRune (rr : Nat) : List Char → Option Char
  | b1 :: u1 :: a2 :: b2 :: c3 :: d2 :: _ =>
    if b1 = '\\' ∧ u1 = 'u' then (getu4 a2 b2 c3 d2).bind (decodeSurrogates rr) else none
  | _ => none

/-- One step of scanning and unquoting a string literal: at the closing quote the input
after it (`some (none, rest)`), otherwise the next decoded rune and the input after its
encoding.  A raw rune below U+0020, an unknown escape or a truncated escape is a syntax
error (`none`); an unpaired surrogate escape decodes to U+FFFD. -/
def unquoteStep : List Char → Option (Option Char × List Char)
  | [] => none
  | c :: rest =>
    if c = '"' then some (none, rest)
    else if c = '\\' then
      match rest with
      | [] => none
      | e :: rest1 =>
        if e = 'u' then
          match rest1 with
          | a :: b :: c2 :: d :: rest2 =>
            match getu4 a b c2 d with
            | none => none
            | some rr =>
              if isSurrogate rr then
                match pairRune rr rest2 with
                | some dec => some (some dec, rest2.drop 6)
                | none => some (some replacementChar, rest2)
              else some (some (Char.ofNat rr), rest2)
          | _ => none
        else
          match simpleEscape e with
          | none => none
          | some x => some (some x, rest1)
    else if c.toNat < 32 then none
    else some (some c, rest)

/-- Scanning and unquoting of a string literal, started right after its opening quote:
the decoded text and the input after the closing quote, `none` for a syntax error or a
literal that is not closed.  The first argument bounds the number of steps; the length of
the input is always enough. -/
def unquoteLoop : Nat → List Char → Option (List Char × List Char)
  | 0, _ => none
  | fuel + 1, s =>
    match unquoteStep s with
    | none => none
    | some (none, rest) => some ([], rest)
    | some (some c, rest) => consRune c (unquoteLoop fuel rest)

/-- Scanning and unquoting of a string literal, started right after its opening quote. -/
def unquote (s : List Char) : Option (List Char × List Char) := unquoteLoop s.length s

/-- White space between JSON tokens. -/
def isSpace (c : Char) : Bool := c = ' ' || c = '\t' || c = '\r' || c = '\n'

/-- Drop leading white space. -/
def skipSpace : List Char → List Char
  | [] => []
  | c :: cs => if isSpace c then skipSpace cs else c :: cs

/-- A decimal digit. -/
def isDigit (c : Char) : Bool := 48 ≤ c.toNat && c.toNat ≤ 57

/-- The longest run of digits at the front of the input, and what follows it. -/
def digits : List Char → List Char × List Char
  | [] => ([], [])
  | c :: cs => if isDigit c then ((c :: (digits cs).1), (digits cs).2) else ([], c :: cs)

/-- The integer part of a number: a single zero, or a non-zero digit and more digits. -/
def scanInt : List Char → Option (List Char × List Char)
  | [] => none
  | c :: cs =>
    if c = '0' then some (['0'], cs)
    else if isDigit c then some (c :: (digits cs).1, (digits cs).2)
    else none

/-- The optional fraction of a number: a dot and at least one digit. -/
def scanFrac : List Char → Option (List Char × List Char)
  | [] => some ([], [])
  | c :: cs =>
    if c = '.' then
      (if (digits cs).1 = [] then none else some (c :: (digits cs).1, (digits cs).2))
    else some ([], c :: cs)

/-- An optional sign in an exponent. -/
def scanSign : List Char → List Char × List Char
  | [] => ([], [])
  | c :: cs => if c = '+' ∨ c = '-' then ([c], cs) else ([], c :: cs)

/-- The optional exponent of a number: the letter e, an optional sign, at least one
digit. -/
def scanExp : List Char → Option (List Char × List Char)
  | [] => some ([], [])
  | c :: cs =>
    if c = 'e' ∨ c = 'E' then
      (if (digits (scanSign cs).2).1 = [] then none
       else some (c :: ((scanSign cs).1 ++ (digits (scanSign cs).2).1),
                  (digits (scanSign cs).2).2))
    else some ([], c :: cs)

/-- A number literal (the input starts at its first character): the literal and the input
after it. -/
def scanNumber (s : List Char) : Option (List Char × List Char) :=
  let signed : List Char × List Char :=
    match s with
    | [] => ([], [])
    | c :: cs => if c = '-' then ([c], cs) else ([], c :: cs)
  match scanInt signed.2 with
  | none => none
  | some (i, s2) =>
    match scanFrac s2 with
    | none => none
    | some (fr, s3) =>
      match scanExp s3 with
      | none => none
      | some (ex, s4) => some (signed.1 ++ i ++ fr ++ ex, s4)

/-- Consume the given characters from the front of the input. -/
def expect : List Char → List Char → Option (List Char)
  | [], s => some s
  | _ :: _, [] => none
  | x :: xs, c :: cs => if x = c then expect xs cs else none

/-- What the decoder sees of a JSON value: literals with their content, arrays and
objects only by their kind (the decoder of `Asset` skips them). -/
inductive Token where
  | null
  | bool (b : Bool)
  | string (s : String)
  | number (lit : String)
  | array
  | object
  deriving DecidableEq, Repr

mutual

/-- One JSON value at the front of the input (white space already skipped) and the input
after it.  The first argument bounds the number of nested calls; the length of the input
plus one is always enough. -/
def value : Nat → List Char → Option (Token × List Char)
  | 0, _ => none
  | _ + 1, [] => none
  | fuel + 1, c :: r =>
    if c = '{' then
      match skipSpace r with
      | [] => none
      | c1 :: r1 =>
        if c1 = '}' then some (.object, r1)
        else (pairs fuel (c1 :: r1)).map (fun p => (Token.object, p.2))
    else if c = '[' then
      match skipSpace r with
      | [] => none
      | c1 :: r1 =>
        if c1 = ']' then some (.array, r1)
        else (elements fuel (c1 :: r1)).map (fun rest => (Token.array, rest))
    else if c = '"' then (unquote r).map (fun p => (Token.string ⟨p.1⟩, p.2))
    else if c = 't' then (expect ['r', 'u', 'e'] r).map (fun rest => (Token.bool true, rest))
    else if c = 'f' then
      (expect ['a', 'l', 's', 'e'] r).map (fun rest => (Token.bool false, rest))
    else if c = 'n' then (expect ['u', 'l', 'l'] r).map (fun rest => (Token.null, rest))
    else (scanNumber (c :: r)).map (fun p => (Token.number ⟨p.1⟩, p.2))

/-- The members of an object from its first key on, up to and including the closing
brace: the decoded keys with their values, and the input after the brace. -/
def pairs : Nat → List Char → Option (List (String × Token) × List Char)
  | 0, _ => none
  | _ + 1, [] => none
  | fuel + 1, q :: r =>
    if q = '"' then
      match unquote r with
      | none => none
      | some (key, r1) =>
        match skipSpace r1 with
        | [] => none
        | col :: r2 =>
          if col = ':' then
            match value fuel (skipSpace r2) with
            | none => none
            | some (tok, r3) =>
              match skipSpace r3 with
              | [] => none
              | sep :: r4 =>
                if sep = ',' then
                  (pairs fuel (skipSpace r4)).map (fun p => ((⟨key⟩, tok) :: p.1, p.2))
                else if sep = '}' then some ([(⟨key⟩, tok)], r4)
                else none
          else none
    else none

/-- The elements of an array from its first element on, up to and including the closing
bracket: the input after the bracket. -/
def elements : Nat → List Char → Option (List Char)
  | 0, _ => none
  | fuel + 1, s =>
    match value fuel s with
    | none => none
    | some (_, r1) =>
      match skipSpace r1 with
      | [] => none
      | sep :: r2 =>
        if sep = ',' then elements fuel (skipSpace r2)
        else if sep = ']' then some r2
        else none

end

/-- The bytes `json.Marshal` produces for an `Asset`: an object with the four exported
fields in declaration order.  Marshalling this type cannot fail. -/
def Marshal (a : asset.Asset) : Except GoError String :=
  .ok ⟨"\x7b\"Name\":".data ++ encodeString a.Name ++ ",\"Owner\":".data ++
      encodeString a.Owner ++ ",\"Creator\":".data ++ encodeString a.Creator ++
      ",\"Price\":".data ++ (strconv.FormatUint a.Price).data ++ "\x7d".data⟩

/-- The members of a marshalled record, as characters after the opening brace. -/
def body (n o c : List Char) (u : Nat) : List Char :=
  '"' :: (['N', 'a', 'm', 'e'] ++ '"' :: ':' :: '"' :: (n.flatMap encodeRune ++ '"' :: ',' ::
  '"' :: (['O', 'w', 'n', 'e', 'r'] ++ '"' :: ':' :: '"' :: (o.flatMap encodeRune ++ '"' :: ',' ::
  '"' :: (['C', 'r', 'e', 'a', 't', 'o', 'r'] ++ '"' :: ':' :: '"' ::
    (c.flatMap encodeRune ++ '"' :: ',' ::
  '"' :: (['P', 'r', 'i', 'c', 'e'] ++ '"' :: ':' ::
    ((strconv.FormatUint u).data ++ ['}']))))))))

/-- The elements of a marshalled slice, separated by commas. -/
def joinAssets : List asset.Asset → String
  | [] => ""
  | [a] => (match Marshal a with
            | .ok bytes => bytes
            | .error _ => "")
  | a :: b :: rest =>
    (match Marshal a with
     | .ok bytes => bytes
     | .error _ => "") ++ "," ++ joinAssets (b :: rest)

/-- The bytes `json.Marshal` produces for a `[]Asset`.  The empty list stands for the
`nil` slice (the only empty slice `asset.List` can return), which Go renders as `null`. -/
def MarshalList (assets : List asset.Asset) : Except GoError String :=
  match assets with
  | [] => .ok "null"
  | a :: rest => .ok ("[" ++ joinAssets (a :: rest) ++ "]")

/-- Upper-casing of an ASCII letter. -/
def upperAscii (c : Char) : Char :=
  if 97 ≤ c.toNat ∧ c.toNat ≤ 122 then Char.ofNat (c.toNat - 32) else c

/-- Matching of an object key against a field name: exact or differing in the case of
ASCII letters only (none of the four field names contains a letter with a non-ASCII case
variant). -/
def equalFold (field key : String) : Bool :=
  decide (field.data.map upperAscii = key.data.map upperAscii)

/-- The `*json.UnmarshalTypeError` for a JSON value of the wrong kind. -/
def typeError (value field ty : String) : GoError :=
  .errorf ("json: cannot unmarshal " ++ value ++ " into Go struct field Asset." ++ field ++
    " of type " ++ ty)

/-- The name of the kind of a JSON value in a type error. -/
def Token.kind : Token → String
  | .null => "null"
  | .bool _ => "bool"
  | .string _ => "string"
  | .number _ => "number"
  | .array => "array"
  | .object => "object"

/-- Storing a JSON value into a field of type `string`: a string is stored, `null` leaves
the field as it is, anything else is a type error. -/
def storeString (field : String) (tok : Token) : Except GoError (Option String) :=
  match tok with
  | .string s => .ok (some s)
  | .null => .ok none
  | t => .error (typeError t.kind field "string")

/-- Storing a JSON value into a field of type `uint64`: a number that `ParseUint` accepts
for 64 bits is stored, `null` leaves the field as it is, anything else is a type error. -/
def storeUint (field : String) (tok : Token) : Except GoError (Option Nat) :=
  match tok with
  | .number lit =>
    (match strconv.ParseUint lit 64 with
     | .ok n => .ok (some n)
     | .error _ => .error (typeError ("number " ++ lit) field "uint64"))
  | .null => .ok none
  | t => .error (typeError t.kind field "uint64")

/-- Storing one object member into the record: the key selects the field, a key that
matches no field is ignored. -/
def storeMember (a : asset.Asset) (key : String) (tok : Token) : Except GoError asset.Asset :=
  if equalFold "Name" key then
    (match storeString "Name" tok with
     | .error err => .error err
     | .ok v => .ok ⟨v.getD a.Name, a.Owner, a.Creator, a.Price⟩)
  else if equalFold "Owner" key then
    (match storeString "Owner" tok with
     | .error err => .error err
     | .ok v => .ok ⟨a.Name, v.getD a.Owner, a.Creator, a.Price⟩)
  else if equalFold "Creator" key then
    (match storeString "Creator" tok with
     | .error err => .error err
     | .ok v => .ok ⟨a.Name, a.Owner, v.getD a.Creator, a.Price⟩)
  else if equalFold "Price" key then
    (match storeUint "Price" tok with
     | .error err => .error err
     | .ok v => .ok ⟨a.Name, a.Owner, a.Creator, v.getD a.Price⟩)
  else .ok a

/-- Storing the members of an object in input order (a later duplicate overwrites).  The
first type error is the error of the whole decoding; since the caller drops the record on
error, the loop stops there. -/
def storeMembers : List (String × Token) → asset.Asset → Except GoError asset.Asset
  | [], a => .ok a
  | (key, tok) :: rest, a =>
    match storeMember a key tok with
    | .error err => .error err
    | .ok a1 => storeMembers rest a1

/-- The `*json.SyntaxError` of an input that is not one JSON value (the text of the error
is not reproduced). -/
def syntaxError : GoError := .errorf "invalid character or unexpected end of JSON input"

/-- The function `json.Unmarshal(data, &a)` for `a` a zero `Asset`: the input must be
exactly one JSON value surrounded by optional white space; an object fills the fields its
keys name, `null` leaves the zero record, any other value is a type error. -/
def Unmarshal (data : String) : Except GoError asset.Asset :=
  match skipSpace data.data with
  | [] => .error syntaxError
  | c :: r =>
    if c = '{' then
      match skipSpace r with
      | [] => .error syntaxError
      | c1 :: r1 =>
        match (if c1 = '}' then some ([], r1) else pairs (data.data.length + 1) (c1 :: r1)) with
        | none => .error syntaxError
        | some (members, rest) =>
          if skipSpace rest = [] then storeMembers members ⟨"", "", "", 0⟩
          else .error syntaxError
    else
      match value (data.data.length + 1) (c :: r) with
      | none => .error syntaxError
      | some (tok, rest) =>
        if skipSpace rest = [] then
          (match tok with
           | .null => .ok ⟨"", "", "", 0⟩
           | t => .error (.errorf ("json: cannot unmarshal " ++ t.kind ++
                    " into Go value of type asset.Asset")))
        else .error syntaxError

end json

/-! ## JSON objects as stored bytes -/

namespace json

/-- A JSON value without nesting: a string, an unsigned integer, `true`, `false` or
`null`. -/
inductive Scalar where
  | str (s : String)
  | num (n : Nat)
  | bool (b : Bool)
  | null
  deriving DecidableEq, Repr

/-- The text of a scalar as `encoding/json` writes it. -/
def Scalar.render : Scalar → List Char
  | .str s => encodeString s
  | .num n => (strconv.FormatUint n).data
  | .bool true => ['t', 'r', 'u', 'e']
  | .bool false => ['f', 'a', 'l', 's', 'e']
  | .null => ['n', 'u', 'l', 'l']

/-- What the decoder sees of a scalar. -/
def Scalar.token : Scalar → Token
  | .str s => .string s
  | .num n => .number (strconv.FormatUint n)
  | .bool b => .bool b
  | .null => .null

/-- The text of one object member: the quoted key, a colon, the value. -/
def renderMember (m : String × Scalar) : List Char :=
  encodeString m.1 ++ ':' :: m.2.render

/-- The text of the members of an object, separated by commas, up to and including the
closing brace. -/
def renderMembers : List (String × Scalar) → List Char
  | [] => ['}']
  | [m] => renderMember m ++ ['}']
  | m :: m2 :: rest => renderMember m ++ ',' :: renderMembers (m2 :: rest)

/-- The text of a JSON object with the given members in the given order, written without
white space as `encoding/json` writes objects. -/
def renderObject (ms : List (String × Scalar)) : String := ⟨'{' :: renderMembers ms⟩

/-- A member that names one of the four fields of `Asset` holds a value that the field
accepts: a string or `null` for `Name`, `Owner` and `Creator`, an unsigned 64-bit integer
or `null` for `Price`.  A member that names no field may hold anything. -/
def fieldKindOk (m : String × Scalar) : Bool :=
  if equalFold "Name" m.1 || equalFold "Owner" m.1 || equalFold "Creator" m.1 then
    (match m.2 with
     | .str _ => true
     | .null => true
     | _ => false)
  else if equalFold "Price" m.1 then
    (match m.2 with
     | .num n => decide (n < 2 ^ 64)
     | .null => true
     | _ => false)
  else true

/-- The key of a member names one of the four fields of `Asset`. -/
def namesField (key : String) : Bool :=
  equalFold "Name" key || equalFold "Owner" key || equalFold "Creator" key ||
    equalFold "Price" key

end json

/-! ## Package `balance` -/

namespace balance

/-- The constant `INITIAL_FUND`. -/
def INITIAL_FUND : Nat := 10000

/-- The constant `FUND_PREFIX`. -/
def FUND_PREFIX : String := "fund"

/-- The sentinel `ErrFundNotExist`. -/
def ErrFundNotExist : GoError := .fundNotExist

/-- The function `balance.Put`. -/
def Put (mspid : String) (value : Nat) (stub : Stub) : Except GoError Stub :=
  match shim.CreateCompositeKey FUND_PREFIX [mspid] with
  | .error err => .error (.errorf ("failed to create composite key: " ++ err.Error))
  | .ok fundkey => shim.PutState stub fundkey (strconv.FormatUint value)

/-- The function `balance.Get`. -/
def Get (mspid : String) (stub : Stub) : Except GoError Nat :=
  match shim.CreateCompositeKey FUND_PREFIX [mspid] with
  | .error err => .error (.errorf ("failed to create composite key: " ++ err.Error))
  | .ok fundkey =>
    match shim.GetState stub fundkey with
    | .error err => .error (.errorf ("failed to read balance from ledger: " ++ err.Error))
    | .ok none => .error ErrFundNotExist
    | .ok (some balance) =>
      match strconv.ParseUint balance 0 with
      | .error err =>
        .error (.errorf ("balance for org '" ++ err.Error balance ++ "' is ill-formed"))
      | .ok bal => .ok bal

/-- The function `balance.Init`. -/
def Init (mspid : String) (stub : Stub) : Except GoError Stub :=
  match Get mspid stub with
  | .error err =>
    if err = ErrFundNotExist then Put mspid INITIAL_FUND stub
    else .error (.errorf ("failed to read data from ledger: " ++ err.Error))
  | .ok _ => .error (.errorf ("balance for '" ++ mspid ++ "' already initialized"))

end balance

/-! ## Package `asset` -/

namespace asset

/-- The constant `ASSET_PREFIX`. -/
def ASSET_PREFIX : String := "asset"

/-- The sentinel `ErrAssetNotExist`. -/
def ErrAssetNotExist : GoError := .assetNotExist

/-- The function `asset.Put`. -/
def Put (asset : Asset) (stub : Stub) : Except GoError Stub :=
  match shim.CreateCompositeKey ASSET_PREFIX [asset.Name] with
  | .error _ => .error (.errorf "failed to create composite key")
  | .ok key =>
    match json.Marshal asset with
    | .error err => .error (.errorf ("failed to marshal asset object: " ++ err.Error))
    | .ok bytes =>
      match shim.PutState stub key bytes with
      | .error err => .error (.errorf ("failed to store asset to ledger: " ++ err.Error))
      | .ok stub1 => .ok stub1

/-- The function `asset.Unmarshal`. -/
def Unmarshal (data : String) : Except GoError Asset :=
  match json.Unmarshal data with
  | .error err => .error (.errorf ("failed to unmarshal asset: " ++ err.Error))
  | .ok a => .ok a

/-- The function `asset.Get`. -/
def Get (name : String) (stub : Stub) : Except GoError Asset :=
  match shim.CreateCompositeKey ASSET_PREFIX [name] with
  | .error _ => .error (.errorf "failed to create composite key")
  | .ok key =>
    match shim.GetState stub key with
    | .error err => .error err
    | .ok none => .error ErrAssetNotExist
    | .ok (some res) => Unmarshal res

/-- The function `asset.Exist`. -/
def Exist (name : String) (stub : Stub) : Except GoError Bool :=
  match Get name stub with
  | .error err => if err = ErrAssetNotExist then .ok false else .error err
  | .ok _ => .ok true

end asset

/-- The loop of `asset.List` over the entries the iterator yields: each value is decoded
and appended; the first entry that does not decode ends the listing with an error naming
its key. -/
def asset.listLoop :
    List (String × String) → List asset.Asset → Except GoError (List asset.Asset)
  | [], assets => .ok assets
  | kv :: rest, assets =>
    match json.Unmarshal kv.2 with
    | .error err =>
      .error (.errorf ("failed to unmarshal asset '" ++ kv.1 ++ "': " ++ err.Error))
    | .ok a => asset.listLoop rest (assets ++ [a])

/-- The function `asset.List`. -/
def asset.List (stub : Stub) : Except GoError (List asset.Asset) :=
  match shim.GetStateByPartialCompositeKey stub asset.ASSET_PREFIX [] with
  | .error err =>
    .error (.errorf ("failed to read by partial composite key: " ++ err.Error))
  | .ok entries => asset.listLoop entries []

/-! ## The chaincode (`chaincode.go`) -/

namespace AssetChaincode

/-- The method `Init` of the chaincode. -/
def Init (stub : Stub) : Response × Stub := (shim.Success "", stub)

/-- The function `getMspID`: the MSP id in the creator field of the proposal. -/
def getMspID (stub : Stub) : Except GoError String := stub.creator

/-- The handler `initFund`. -/
def initFund (stub : Stub) (args : List String) : Response × Stub :=
  if args.length ≠ 0 then
    (shim.Error ("got " ++ strconv.FormatUint args.length ++ " args, expect 0"), stub)
  else
    match getMspID stub with
    | .error err => (shim.Error ("failed to get MSP ID: " ++ err.Error), stub)
    | .ok mspid =>
      match balance.Init mspid stub with
      | .error err =>
        (shim.Error ("failed to initialize fund for org '" ++ mspid ++ "': " ++ err.Error),
          stub)
      | .ok stub1 =>
        (shim.Success ("Balance for org '" ++ mspid ++ "' initialized to " ++
          strconv.FormatUint balance.INITIAL_FUND), stub1)

/-- The handler `getBalance`. -/
def getBalance (stub : Stub) (args : List String) : Response × Stub :=
  if args.length ≠ 0 then
    (shim.Error ("got " ++ strconv.FormatUint args.length ++ " args, expect 0"), stub)
  else
    match getMspID stub with
    | .error err => (shim.Error ("failed to get MSP ID: " ++ err.Error), stub)
    | .ok mspid =>
      match balance.Get mspid stub with
      | .error err =>
        (shim.Error ("failed to get balance for org '" ++ mspid ++ "': " ++ err.Error), stub)
      | .ok bal =>
        (shim.Success ("Current balance for org " ++ mspid ++ " is: " ++
          strconv.FormatUint bal), stub)

/-- The handler `createAsset`. -/
def createAsset (tbl : Char → Char) (stub : Stub) (args : List String) : Response × Stub :=
  match args with
  | [arg0, arg1] =>
    let name := strings.ToLower tbl arg0
    match strconv.ParseUint arg1 0 with
    | .error err =>
      (shim.Error ("failed to extract price from arg '" ++ arg1 ++ "': " ++ err.Error arg1),
        stub)
    | .ok price =>
      match getMspID stub with
      | .error err => (shim.Error ("failed to get MSP ID: " ++ err.Error), stub)
      | .ok mspid =>
        match asset.Exist name stub with
        | .error err =>
          (shim.Error ("failed to read asset from ledger: " ++ err.Error), stub)
        | .ok exist =>
          if exist then (shim.Error ("asset '" ++ name ++ "' already exists"), stub)
          else
            match asset.Put ⟨name, mspid, mspid, price⟩ stub with
            | .error err => (shim.Error ("failed to create asset: " ++ err.Error), stub)
            | .ok stub1 => (shim.Success ("Asset '" ++ name ++ "' created"), stub1)
  | _ => (shim.Error ("got " ++ strconv.FormatUint args.length ++ " args, expecting 2"), stub)

/-- The handler `buyAsset`.  The subtraction is guarded by the comparison before it; the
addition to the seller balance is a `uint64` addition. -/
def buyAsset (tbl : Char → Char) (stub : Stub) (args : List String) : Response × Stub :=
  match args with
  | [arg0] =>
    let name := strings.ToLower tbl arg0
    match asset.Get name stub with
    | .error err => (shim.Error ("failed to read asset from ledger: " ++ err.Error), stub)
    | .ok ast =>
      match getMspID stub with
      | .error err => (shim.Error ("failed to get MSP ID: " ++ err.Error), stub)
      | .ok mspid =>
        if ast.Owner = mspid then
          (shim.Error ("you already own asset '" ++ name ++ "'"), stub)
        else
          match balance.Get mspid stub with
          | .error err => (shim.Error ("failed to get buyer balance: " ++ err.Error), stub)
          | .ok buyerBalance =>
            if buyerBalance < ast.Price then
              (shim.Error ("balance insufficient, have " ++ strconv.FormatUint buyerBalance ++
                ", need " ++ strconv.FormatUint ast.Price), stub)
            else
              match balance.Get ast.Owner stub with
              | .error err =>
                (shim.Error ("failed to get seller balance: " ++ err.Error), stub)
              | .ok sellerBalance =>
                match balance.Put mspid (buyerBalance - ast.Price) stub with
                | .error err =>
                  (shim.Error ("failed to update buyer balance: " ++ err.Error), stub)
                | .ok stub1 =>
                  match balance.Put ast.Owner ((sellerBalance + ast.Price) % 2 ^ 64) stub1 with
                  | .error err =>
                    (shim.Error ("failed to update seller balance: " ++ err.Error), stub1)
                  | .ok stub2 =>
                    match asset.Put ⟨ast.Name, mspid, ast.Creator, ast.Price⟩ stub2 with
                    | .error err =>
                      (shim.Error ("failed to update asset: " ++ err.Error), stub2)
                    | .ok stub3 =>
                      (shim.Success ("Purchase is completed, now you own " ++ name ++ "!"),
                        stub3)
  | _ => (shim.Error ("expect 1 arg, got " ++ strconv.FormatUint args.length), stub)

/-- The handler `listAsset`. -/
def listAsset (stub : Stub) (args : List String) : Response × Stub :=
  if args.length ≠ 0 then
    (shim.Error ("expect no arg, got " ++ strconv.FormatUint args.length), stub)
  else
    match asset.List stub with
    | .error err => (shim.Error ("failed to retrieve asset list: " ++ err.Error), stub)
    | .ok res =>
      match json.MarshalList res with
      | .error err => (shim.Error ("failed to marshal asset list: " ++ err.Error), stub)
      | .ok bytes => (shim.Success bytes, stub)

/-- The method `Invoke`: dispatch on the function name of the proposal. -/
def Invoke (tbl : Char → Char) (stub : Stub) (function : String) (args : List String) :
    Response × Stub :=
  if function = "InitFund" then initFund stub args
  else if function = "GetBalance" then getBalance stub args
  else if function = "CreateAsset" then createAsset tbl stub args
  else if function = "ListAsset" then listAsset stub args
  else if function = "BuyAsset" then buyAsset tbl stub args
  else
    (shim.Error ("unknown func: " ++ function ++
      ", expecting: [InitFund, GetBalance, CreateAsset, ListAsset, BuyAsset]"), stub)

end AssetChaincode

/-! ## Decimal numerals -/

namespace strconv

/-- The number a string of decimal digits denotes, most significant digit first. -/
def decimalValue (cs : List Char) : Nat :=
  cs.foldl (fun n c => n * 10 + (c.toNat - 48)) 0

/-- Stated from the specification: a text that parses as a non-negative decimal integer of
the unsigned 64-bit type is not empty, consists of decimal digits only (no sign, no other
character) and denotes a value below `2 ^ 64`. -/
def IsUintDecimal (s : String) : Prop :=
  s.data ≠ [] ∧ (∀ c ∈ s.data, 48 ≤ c.toNat ∧ c.toNat ≤ 57) ∧ decimalValue s.data < 2 ^ 64

instance (s : String) : Decidable (IsUintDecimal s) := by
  unfold IsUintDecimal; infer_instance

end strconv

/-! ## Reachable ledger states -/

/-- The history of purchases: the names bought so far, extended by an invocation when it is
a successful `BuyAsset`. -/
def purchased (tbl : Char → Char) (stub : Stub) (function : String) (args : List String)
    (bought : List String) : List String :=
  if function = "BuyAsset" ∧ (AssetChaincode.Invoke tbl stub function args).1.Status = shim.OK
  then
    match args with
    | [m] => strings.ToLower tbl m :: bought
    | _ => bought
  else bought

/-- The ledger states reachable from the empty ledger, each with the names of the assets
bought on the way: every invocation of the chaincode, by any caller, with any function name
and any arguments, leads from a reachable state to a reachable state (the state it leaves
behind, whether it reports success or not). -/
inductive Reachable (tbl : Char → Char) : List (String × String) → List String → Prop
  | empty : Reachable tbl [] []
  | invoke (st : List (String × String)) (bought : List String)
      (creator : Except GoError String) (function : String) (args : List String) :
      Reachable tbl st bought →
      Reachable tbl (AssetChaincode.Invoke tbl ⟨creator, st⟩ function args).2.state
        (purchased tbl ⟨creator, st⟩ function args bought)

/-- The ledger invariant: no key occurs twice, and every entry under the asset prefix
decodes to a record that is stored under the key of its own Name, the Name satisfying
`P`. -/
def LedgerInv (P : String → Prop) (st : List (String × String)) : Prop :=
  (st.map Prod.fst).Nodup ∧
  ∀ kv ∈ st, shim.inPartialRange "\x00asset\x00" kv.1 = true →
    ∃ a, json.Unmarshal kv.2 = .ok a ∧
      shim.CreateCompositeKey asset.ASSET_PREFIX [a.Name] = .ok kv.1 ∧ P a.Name

/-! ## Scenario ledgers used by the concrete evaluations -/

/-- The stored bytes of the asset `car`, created and owned by organisation `A`. -/
def carOfA (price : Nat) : String :=
  "\x7b\"Name\":\"car\",\"Owner\":\"A\",\"Creator\":\"A\",\"Price\":" ++
    strconv.FormatUint price ++ "\x7d"

/-- A ledger holding the asset `car` of `A` and nothing else, seen by caller `A`. -/
def carOnlyStub : Stub := ⟨.ok "A", [("\x00asset\x00car\x00", carOfA 500)]⟩

/-- A ledger holding the asset `car` of `A` priced 500 and a balance of 100 for `B`, seen
by caller `B`. -/
def poorBuyerStub : Stub :=
  ⟨.ok "B", [("\x00asset\x00car\x00", carOfA 500), ("\x00fund\x00B\x00", "100")]⟩

/-- A ledger in which the seller `A` holds the largest `uint64` balance: the asset `car`
of `A` priced 1, balance 18446744073709551615 for `A`, balance 1 for `B`; seen by caller
`B`. -/
def overflowStub : Stub :=
  ⟨.ok "B", [("\x00asset\x00car\x00", carOfA 1),
    ("\x00fund\x00A\x00", "18446744073709551615"), ("\x00fund\x00B\x00", "1")]⟩

/-- The scenario ledger: `A` has initialized its fund and created `car` priced 500, `B`
has initialized its fund; seen by caller `B`. -/
def scenarioStub : Stub :=
  ⟨.ok "B", [("\x00fund\x00A\x00", "10000"), ("\x00asset\x00car\x00", carOfA 500),
    ("\x00fund\x00B\x00", "10000")]⟩

/-- The scenario ledger after `B` bought `car`, seen by caller `A`. -/
def scenarioSoldStub : Stub :=
  ⟨.ok "A", [("\x00fund\x00A\x00", "10500"),
    ("\x00asset\x00car\x00",
      "\x7b\"Name\":\"car\",\"Owner\":\"B\",\"Creator\":\"A\",\"Price\":500\x7d"),
    ("\x00fund\x00B\x00", "9500")]⟩

/-- A ledger with three entries under the asset prefix, of which the middle one (key of
`boat`) holds bytes that are not JSON while the entries before and after it decode; seen by
caller `A`. -/
def corruptEntryStub : Stub :=
  ⟨.ok "A", [("\x00asset\x00car\x00", carOfA 500), ("\x00asset\x00boat\x00", "oops"),
    ("\x00asset\x00bike\x00", carOfA 7), ("\x00fund\x00A\x00", "10000")]⟩

/-- A ledger in which the balance record of `A` exists but does not hold an amount; seen by
caller `A`. -/
def unreadableFundStub : Stub := ⟨.ok "A", [("\x00fund\x00A\x00", "oops")]⟩

/-- A ledger in which the record stored under the key of `car` carries the Name `boat`,
next to a record `boat` of organisation `Z` stored under its own key; `A` and `B` hold
10000 each; seen by caller `B`. -/
def misKeyedStub : Stub :=
  ⟨.ok "B", [("\x00asset\x00car\x00",
      "\x7b\"Name\":\"boat\",\"Owner\":\"A\",\"Creator\":\"A\",\"Price\":5\x7d"),
    ("\x00asset\x00boat\x00",
      "\x7b\"Name\":\"boat\",\"Owner\":\"Z\",\"Creator\":\"Z\",\"Price\":999\x7d"),
    ("\x00fund\x00A\x00", "10000"), ("\x00fund\x00B\x00", "10000")]⟩

/-! ## The world state as a map -/

namespace shim

theorem lookup_upsert_self (key value : String) (l : List (String × String)) :
    lookup key (upsert key value l) = some value := by
  induction l with
  | nil => simp [upsert, lookup]
  | cons kv rest ih =>
    by_cases h : kv.1 = key
    · simp [upsert, lookup, h]
    · simp [upsert, lookup, h, ih]

theorem lookup_upsert_ne (key value k : String) (l : List (String × String)) (hk : k ≠ key) :
    lookup k (upsert key value l) = lookup k l := by
  induction l with
  | nil => simp [upsert, lookup, Ne.symm hk]
  | cons kv rest ih =>
    by_cases h : kv.1 = key
    · have h2 : ¬ kv.1 = k := fun e => hk (e ▸ h)
      simp [upsert, lookup, h, h2, Ne.symm hk]
    · simp [upsert, lookup, h, ih]

/-- A composite key with one attribute is the separator, the object type, the separator,
the attribute and the separator. -/
theorem CreateCompositeKey_single (objectType att key : String)
    (h : CreateCompositeKey objectType [att] = .ok key) :
    key = String.singleton minUnicodeRuneValue ++ objectType ++
      String.singleton minUnicodeRuneValue ++ att ++ String.singleton minUnicodeRuneValue := by
  unfold CreateCompositeKey at h
  cases h1 : validateCompositeKeyAttribute objectType with
  | error e => simp [h1] at h
  | ok u =>
    cases h2 : validateCompositeKeyAttribute att with
    | error e => simp [h1, h2, appendAttributes] at h
    | ok u2 =>
      simp [h1, h2, appendAttributes] at h
      exact h.symm

theorem CreateCompositeKey_single_ne_empty (objectType att key : String)
    (h : CreateCompositeKey objectType [att] = .ok key) : key ≠ "" := by
  rw [CreateCompositeKey_single objectType att key h]
  intro hk
  have h2 := congrArg String.data hk
  simp only [String.data_append, String.singleton] at h2
  cases h2

end shim

/-! ## Decimal formatting and parsing are inverse -/

namespace strconv

theorem digit_toNat (u : Nat) (h : u < 10) : (digit u).toNat = 48 + u := by
  unfold digit
  rw [Nat.mod_eq_of_lt h]
  interval_cases u <;> rfl

/-- Unfolding of the digit loop once the bound exceeds the number. -/
theorem formatBits_eq (u : Nat) : ∀ (fuel : Nat) (acc : List Char), u < fuel →
    formatBits fuel u acc =
      if 10 ≤ u then formatBits (u / 10 + 1) (u / 10) [] ++ (digit (u % 10) :: acc)
      else digit u :: acc := by
  induction u using Nat.strong_induction_on with
  | _ u ih =>
    intro fuel acc hlt
    cases fuel with
    | zero => omega
    | succ f =>
      by_cases h10 : 10 ≤ u
      · have hdiv : u / 10 < u := by omega
        have hf : u / 10 < f := by omega
        have e1 : formatBits (f + 1) u acc = formatBits f (u / 10) (digit (u % 10) :: acc) := by
          simp [formatBits, h10]
        rw [e1, if_pos h10, ih (u / 10) hdiv f _ hf, ih (u / 10) hdiv (u / 10 + 1) [] (by omega)]
        by_cases h100 : 10 ≤ u / 10
        · simp [h100]
        · simp [h100]
      · simp [formatBits, h10]

theorem FormatUint_data (u : Nat) :
    (FormatUint u).data =
      if 10 ≤ u then (FormatUint (u / 10)).data ++ [digit (u % 10)] else [digit u] := by
  unfold FormatUint
  simp only
  rw [formatBits_eq u (u + 1) [] (by omega)]

theorem parseLoop_append (maxVal : Nat) (xs ys : List Char) : ∀ n,
    parseLoop maxVal (xs ++ ys) n =
      match parseLoop maxVal xs n with
      | .ok m => parseLoop maxVal ys m
      | .error e => .error e := by
  induction xs with
  | nil => intro n; simp [parseLoop]
  | cons c cs ih =>
    intro n
    simp only [List.cons_append, parseLoop]
    split_ifs <;> simp [ih]

theorem parseLoop_FormatUint (u : Nat) (hu : u < 2 ^ 64) :
    parseLoop (2 ^ 64 - 1) (FormatUint u).data 0 = .ok u := by
  induction u using Nat.strong_induction_on with
  | _ u ih =>
    rw [FormatUint_data]
    norm_num at hu
    by_cases h10 : 10 ≤ u
    · have hd := digit_toNat (u % 10) (Nat.mod_lt _ (by norm_num))
      have h1 : (u / 10 * 10 + u % 10) % 18446744073709551616 = u := by omega
      simp only [h10, if_true, parseLoop_append, ih (u / 10) (by omega) (by omega)]
      simp only [parseLoop, hd, cutoff]
      norm_num
      rw [h1, if_pos (by omega), if_neg (by omega), if_neg (by omega)]
    · have hd := digit_toNat u (by omega)
      simp only [h10, if_false, parseLoop, hd, cutoff]
      norm_num
      have h1 : u % 18446744073709551616 = u := by omega
      rw [h1, if_pos (by omega), if_neg (by omega)]

theorem FormatUint_data_ne_nil (u : Nat) : (FormatUint u).data ≠ [] := by
  rw [FormatUint_data]
  split_ifs <;> simp

theorem ParseUint_FormatUint (u bitSize : Nat) (hu : u < 2 ^ 64)
    (hb : bitSize = 0 ∨ bitSize = 64) :
    ParseUint (FormatUint u) bitSize = .ok u := by
  unfold ParseUint
  rw [if_neg (FormatUint_data_ne_nil u)]
  have h := parseLoop_FormatUint u hu
  rcases hb with hb | hb <;> simpa [hb, IntSize] using h

end strconv

/-! ## A marshalled record decodes to itself -/

namespace json

theorem char_eq_iff (c d : Char) : c = d ↔ c.toNat = d.toNat := by
  constructor
  · intro h; rw [h]
  · intro h
    have := congrArg Char.ofNat h
    simpa using this

theorem isDigit_digit (u : Nat) : isDigit (strconv.digit u) = true := by
  have h := strconv.digit_toNat (u % 10) (Nat.mod_lt _ (by norm_num))
  have e : strconv.digit (u % 10) = strconv.digit u := by simp [strconv.digit]
  rw [e] at h
  have h2 : u % 10 < 10 := Nat.mod_lt _ (by norm_num)
  simp only [isDigit, h, Bool.and_eq_true, decide_eq_true_eq]
  omega

theorem FormatUint_all_digits (u : Nat) : ∀ c ∈ (strconv.FormatUint u).data, isDigit c = true := by
  induction u using Nat.strong_induction_on with
  | _ u ih =>
    rw [strconv.FormatUint_data]
    by_cases h10 : 10 ≤ u
    · simp only [h10, if_true, List.mem_append, List.mem_singleton]
      rintro c (hc | hc)
      · exact ih (u / 10) (by omega) c hc
      · rw [hc]; exact isDigit_digit _
    · simp only [h10, if_false, List.mem_singleton]
      rintro c hc
      rw [hc]; exact isDigit_digit _

theorem FormatUint_head (u : Nat) (hu : 1 ≤ u) :
    ∃ c rest, (strconv.FormatUint u).data = c :: rest ∧ c.toNat ≠ 48 := by
  induction u using Nat.strong_induction_on with
  | _ u ih =>
    rw [strconv.FormatUint_data]
    by_cases h10 : 10 ≤ u
    · obtain ⟨c, rest, hc, hne⟩ := ih (u / 10) (by omega) (by omega)
      exact ⟨c, rest ++ [strconv.digit (u % 10)], by simp [h10, hc], hne⟩
    · refine ⟨strconv.digit u, [], by simp [h10], ?_⟩
      rw [strconv.digit_toNat u (by omega)]
      omega

theorem digits_append (xs : List Char) (c : Char) (r : List Char)
    (hx : ∀ x ∈ xs, isDigit x = true) (hc : isDigit c = false) :
    digits (xs ++ c :: r) = (xs, c :: r) := by
  induction xs with
  | nil => simp [digits, hc]
  | cons x xs ih =>
    have hx1 : isDigit x = true := hx x (by simp)
    have ih2 := ih (fun y hy => hx y (by simp [hy]))
    simp [digits, hx1, ih2]

theorem scanNumber_FormatUint (u : Nat) (r : List Char) :
    scanNumber ((strconv.FormatUint u).data ++ '}' :: r) =
      some ((strconv.FormatUint u).data, '}' :: r) := by
  have hall := FormatUint_all_digits u
  have hbrace : isDigit '}' = false := by decide
  by_cases hu : 1 ≤ u
  · obtain ⟨c, rest, hc, hne⟩ := FormatUint_head u hu
    rw [hc] at hall ⊢
    have hcd : isDigit c = true := hall c (by simp)
    have hrest := digits_append rest '}' r (fun y hy => hall y (by simp [hy])) hbrace
    have h1 : c ≠ '-' := by
      intro h; rw [h] at hcd; exact absurd hcd (by decide)
    have h2 : c ≠ '0' := by
      intro h; rw [h] at hne; exact hne (by decide)
    simp [scanNumber, scanInt, scanFrac, scanExp, h1, h2, hcd, hrest]
  · have h0 : u = 0 := by omega
    subst h0
    have : (strconv.FormatUint 0).data = ['0'] := by decide
    rw [this]
    simp [scanNumber, scanInt, scanFrac, scanExp]

theorem getu4_hex : ∀ n, n < 128 →
    getu4 '0' '0' (hex (n / 16)) (hex (n % 16)) = some n := by
  decide

theorem unquoteStep_encodeRune (c : Char) (t : List Char) :
    unquoteStep (encodeRune c ++ t) = some (some c, t) := by
  unfold encodeRune
  split_ifs with h1 h2 h3 h4 h5 h6 h7
  · obtain ⟨h32, hq, hb, -, -, -⟩ := h2
    have : ¬ c.toNat < 32 := by omega
    simp [unquoteStep, hq, hb, this]
  · rcases h3 with h | h
    · subst h; simp [unquoteStep, simpleEscape]
    · subst h; simp [unquoteStep, simpleEscape]
  · subst h4; simp [unquoteStep, simpleEscape]
  · subst h5; simp [unquoteStep, simpleEscape]
  · subst h6; simp [unquoteStep, simpleEscape]
  · have hs : isSurrogate c.toNat = false := by
      simp only [isSurrogate, Bool.and_eq_false_iff, decide_eq_false_iff_not]
      left; omega
    simp [unquoteStep, getu4_hex c.toNat h1, hs]
  · have hc : c = Char.ofNat 8232 ∨ c = Char.ofNat 8233 := by
      rcases h7 with h | h
      · left; rw [char_eq_iff, h]; rfl
      · right; rw [char_eq_iff, h]; rfl
    rcases hc with h | h
    · subst h
      have : getu4 '2' '0' '2' (hex 8) = some 8232 := by decide
      simp [unquoteStep, this, isSurrogate]
    · subst h
      have : getu4 '2' '0' '2' (hex 9) = some 8233 := by decide
      simp [unquoteStep, this, isSurrogate]
  · have hq : c ≠ '"' := by
      intro h; rw [h] at h1; exact h1 (by decide)
    have hb : c ≠ '\\' := by
      intro h; rw [h] at h1; exact h1 (by decide)
    have : ¬ c.toNat < 32 := by omega
    simp [unquoteStep, hq, hb, this]

theorem unquoteLoop_encode (s rest : List Char) : ∀ fuel, s.length + 1 ≤ fuel →
    unquoteLoop fuel (s.flatMap encodeRune ++ '"' :: rest) = some (s, rest) := by
  induction s with
  | nil =>
    intro fuel hf
    cases fuel with
    | zero => omega
    | succ f => simp [unquoteLoop, unquoteStep]
  | cons c s ih =>
    intro fuel hf
    cases fuel with
    | zero => omega
    | succ f =>
      have hs := ih f (by simpa using hf)
      simp only [List.flatMap_cons, List.append_assoc, unquoteLoop, unquoteStep_encodeRune, hs,
        consRune, Option.map_some']

theorem encodeRune_length (c : Char) : 1 ≤ (encodeRune c).length := by
  unfold encodeRune
  split_ifs <;> simp

theorem length_le_flatMap_encodeRune (s : List Char) :
    s.length ≤ (s.flatMap encodeRune).length := by
  induction s with
  | nil => simp
  | cons c s ih =>
    have := encodeRune_length c
    simp only [List.flatMap_cons, List.length_append, List.length_cons]
    omega

theorem unquote_encode (s rest : List Char) :
    unquote (s.flatMap encodeRune ++ '"' :: rest) = some (s, rest) := by
  unfold unquote
  apply unquoteLoop_encode
  have := length_le_flatMap_encodeRune s
  simp only [List.length_append, List.length_cons]
  omega

theorem skipSpace_cons (c : Char) (r : List Char) (h : isSpace c = false) :
    skipSpace (c :: r) = c :: r := by
  simp [skipSpace, h]

theorem unquote_key (k rest : List Char) (hk : k.flatMap encodeRune = k) :
    unquote (k ++ '"' :: rest) = some (k, rest) := by
  have h := unquote_encode k rest
  rwa [hk] at h

theorem value_string (f : Nat) (s rest : List Char) :
    value (f + 1) ('"' :: (s.flatMap encodeRune ++ '"' :: rest)) =
      some (Token.string ⟨s⟩, rest) := by
  rw [value]
  simp [unquote_encode]

theorem value_number (f u : Nat) (r : List Char) :
    value (f + 1) ((strconv.FormatUint u).data ++ '}' :: r) =
      some (Token.number (strconv.FormatUint u), '}' :: r) := by
  have hscan := scanNumber_FormatUint u r
  have hall := FormatUint_all_digits u
  cases hd : (strconv.FormatUint u).data with
  | nil => exact absurd hd (strconv.FormatUint_data_ne_nil u)
  | cons c rest =>
    rw [hd] at hscan hall
    have hc : isDigit c = true := hall c (by simp)
    have hne : ∀ x : Char, isDigit x = false → c ≠ x := by
      intro x hx h; rw [h, hx] at hc; exact absurd hc (by decide)
    have h1 := hne '{' (by decide)
    have h2 := hne '[' (by decide)
    have h3 := hne '"' (by decide)
    have h4 := hne 't' (by decide)
    have h5 := hne 'f' (by decide)
    have h6 := hne 'n' (by decide)
    have hstr : strconv.FormatUint u = ⟨c :: rest⟩ := by
      rw [← hd]
    rw [List.cons_append, value]
    rw [List.cons_append] at hscan
    simp [h1, h2, h3, h4, h5, h6, hscan, hstr]

theorem pairs_more (f : Nat) (r key r1 r3 r4 rest : List Char) (tok : Token)
    (ms : List (String × Token))
    (hkey : unquote r = some (key, ':' :: r1))
    (hval : value f (skipSpace r1) = some (tok, r3))
    (hsep : skipSpace r3 = ',' :: r4)
    (hrest : pairs f (skipSpace r4) = some (ms, rest)) :
    pairs (f + 1) ('"' :: r) = some ((⟨key⟩, tok) :: ms, rest) := by
  rw [pairs]
  simp [hkey, skipSpace, isSpace, hval, hsep, hrest]

theorem pairs_last (f : Nat) (r key r1 r3 r4 : List Char) (tok : Token)
    (hkey : unquote r = some (key, ':' :: r1))
    (hval : value f (skipSpace r1) = some (tok, r3))
    (hsep : skipSpace r3 = '}' :: r4) :
    pairs (f + 1) ('"' :: r) = some ([(⟨key⟩, tok)], r4) := by
  rw [pairs]
  simp [hkey, skipSpace, isSpace, hval, hsep]

theorem isSpace_digit (x : Char) (hx : isDigit x = true) : isSpace x = false := by
  simp only [isDigit, Bool.and_eq_true, decide_eq_true_eq] at hx
  have e : ∀ y : Char, isSpace y = true → y.toNat < 48 := by
    intro y hy
    simp only [isSpace, Bool.or_eq_true, decide_eq_true_eq] at hy
    rcases hy with ((h | h) | h) | h <;> subst h <;> decide
  by_contra hsp
  have := e x (by simpa using hsp)
  omega

theorem pairs_string_member (f : Nat) (k s tail rest : List Char) (ms : List (String × Token))
    (hk : k.flatMap encodeRune = k)
    (htail : pairs f ('"' :: tail) = some (ms, rest)) :
    pairs (f + 1)
        ('"' :: (k ++ '"' :: ':' :: '"' :: (s.flatMap encodeRune ++ '"' :: ',' :: '"' :: tail))) =
      some ((⟨k⟩, Token.string ⟨s⟩) :: ms, rest) := by
  have hq : isSpace '"' = false := by decide
  cases f with
  | zero => simp [pairs] at htail
  | succ f =>
    exact pairs_more (f + 1)
      (k ++ '"' :: ':' :: '"' :: (s.flatMap encodeRune ++ '"' :: ',' :: '"' :: tail)) k
      ('"' :: (s.flatMap encodeRune ++ '"' :: ',' :: '"' :: tail)) (',' :: '"' :: tail)
      ('"' :: tail) rest (Token.string ⟨s⟩) ms
      (unquote_key _ _ hk)
      (by rw [skipSpace_cons _ _ hq]; exact value_string _ _ _)
      (skipSpace_cons ',' _ (by decide))
      (by rw [skipSpace_cons _ _ hq]; exact htail)

theorem pairs_number_member (f u : Nat) (k : List Char) (hk : k.flatMap encodeRune = k) :
    pairs (f + 2) ('"' :: (k ++ '"' :: ':' :: ((strconv.FormatUint u).data ++ ['}']))) =
      some ([(⟨k⟩, Token.number (strconv.FormatUint u))], []) := by
  have hsk : skipSpace ((strconv.FormatUint u).data ++ ['}']) =
      (strconv.FormatUint u).data ++ ['}'] := by
    cases hd : (strconv.FormatUint u).data with
    | nil => exact absurd hd (strconv.FormatUint_data_ne_nil u)
    | cons x rest =>
      have hx : isDigit x = true := FormatUint_all_digits u x (by simp [hd])
      exact skipSpace_cons _ _ (isSpace_digit x hx)
  exact pairs_last (f + 1)
    (k ++ '"' :: ':' :: ((strconv.FormatUint u).data ++ ['}'])) k
    ((strconv.FormatUint u).data ++ ['}']) ['}'] [] (Token.number (strconv.FormatUint u))
    (unquote_key _ _ hk)
    (by rw [hsk]; exact value_number f u [])
    (skipSpace_cons '}' _ (by decide))

theorem pairs_body (f : Nat) (n o c : List Char) (u : Nat) :
    pairs (f + 5) (body n o c u) =
      some ([("Name", Token.string ⟨n⟩), ("Owner", Token.string ⟨o⟩),
        ("Creator", Token.string ⟨c⟩), ("Price", Token.number (strconv.FormatUint u))], []) := by
  unfold body
  exact pairs_string_member (f + 4) _ n _ _ _ (by decide)
    (pairs_string_member (f + 3) _ o _ _ _ (by decide)
      (pairs_string_member (f + 2) _ c _ _ _ (by decide)
        (pairs_number_member f u _ (by decide))))

theorem Marshal_data (a : asset.Asset) :
    Marshal a = .ok ⟨'{' :: body a.Name.data a.Owner.data a.Creator.data a.Price⟩ := by
  simp [Marshal, body, encodeString]

theorem body_shape (n o c : List Char) (u : Nat) :
    ∃ t, body n o c u = '"' :: t ∧ 3 ≤ t.length := by
  refine ⟨_, rfl, ?_⟩
  simp

theorem storeMembers_body (a : asset.Asset) (hp : a.Price < 2 ^ 64) :
    storeMembers [("Name", Token.string ⟨a.Name.data⟩), ("Owner", Token.string ⟨a.Owner.data⟩),
        ("Creator", Token.string ⟨a.Creator.data⟩),
        ("Price", Token.number (strconv.FormatUint a.Price))] ⟨"", "", "", 0⟩ = .ok a := by
  have hparse := strconv.ParseUint_FormatUint a.Price 64 hp (Or.inr rfl)
  have hN : equalFold "Name" "Name" = true := by decide
  have hO1 : equalFold "Name" "Owner" = false := by decide
  have hO2 : equalFold "Owner" "Owner" = true := by decide
  have hC1 : equalFold "Name" "Creator" = false := by decide
  have hC2 : equalFold "Owner" "Creator" = false := by decide
  have hC3 : equalFold "Creator" "Creator" = true := by decide
  have hP1 : equalFold "Name" "Price" = false := by decide
  have hP2 : equalFold "Owner" "Price" = false := by decide
  have hP3 : equalFold "Creator" "Price" = false := by decide
  have hP4 : equalFold "Price" "Price" = true := by decide
  simp [storeMembers, storeMember, storeString, storeUint, hN, hO1, hO2,
    hC1, hC2, hC3, hP1, hP2, hP3, hP4, hparse]

theorem Unmarshal_body (a : asset.Asset) (hp : a.Price < 2 ^ 64) :
    Unmarshal ⟨'{' :: body a.Name.data a.Owner.data a.Creator.data a.Price⟩ = .ok a := by
  have hstore := storeMembers_body a hp
  obtain ⟨t, ht, hlen⟩ := body_shape a.Name.data a.Owner.data a.Creator.data a.Price
  obtain ⟨f, hf⟩ : ∃ f, t.length + 1 + 1 + 1 = f + 5 := ⟨t.length - 2, by omega⟩
  have hpairs := pairs_body f a.Name.data a.Owner.data a.Creator.data a.Price
  rw [ht, ← hf] at hpairs
  rw [ht]
  have hq : isSpace '"' = false := by decide
  have hbr : isSpace '{' = false := by decide
  have hne : ('"' : Char) ≠ '}' := by decide
  simp only [Unmarshal, skipSpace, hq, hbr, List.length_cons, if_true, Bool.false_eq_true,
    if_false, if_neg hne, hpairs, hstore]

theorem Unmarshal_Marshal (a : asset.Asset) (bytes : String) (hp : a.Price < 2 ^ 64)
    (h : Marshal a = .ok bytes) : Unmarshal bytes = .ok a := by
  rw [Marshal_data] at h
  cases h
  exact Unmarshal_body a hp

end json

/-! ## Keys, stored balances and stored records -/

namespace shim

theorem CreateCompositeKey_single_inj (objectType a b key : String)
    (ha : CreateCompositeKey objectType [a] = .ok key)
    (hb : CreateCompositeKey objectType [b] = .ok key) : a = b := by
  have h1 := CreateCompositeKey_single _ _ _ ha
  have h2 := CreateCompositeKey_single _ _ _ hb
  rw [h1] at h2
  have h3 := congrArg String.data h2
  simp only [String.data_append, List.append_assoc] at h3
  have h4 := List.append_cancel_left (List.append_cancel_left (List.append_cancel_left h3))
  have h5 := List.append_cancel_right h4
  exact String.ext h5

theorem fund_key_ne_asset_key (a b k1 k2 : String)
    (h1 : CreateCompositeKey "fund" [a] = .ok k1)
    (h2 : CreateCompositeKey "asset" [b] = .ok k2) : k1 ≠ k2 := by
  have e1 := CreateCompositeKey_single _ _ _ h1
  have e2 := CreateCompositeKey_single _ _ _ h2
  intro h
  rw [e1, e2] at h
  have h3 := congrArg String.data h
  simp [String.singleton] at h3

end shim

namespace strconv

theorem parseLoop_lt (maxVal : Nat) (cs : List Char) : ∀ n m, n < 2 ^ 64 →
    parseLoop maxVal cs n = .ok m → m < 2 ^ 64 := by
  induction cs with
  | nil =>
    intro n m hn h
    simp [parseLoop] at h
    omega
  | cons c cs ih =>
    intro n m hn h
    simp only [parseLoop] at h
    split_ifs at h with h1 h2 h3
    exact ih _ m (Nat.mod_lt _ (by norm_num)) h

theorem ParseUint_lt (s : String) (bitSize n : Nat) (h : ParseUint s bitSize = .ok n) :
    n < 2 ^ 64 := by
  unfold ParseUint at h
  split_ifs at h <;> exact parseLoop_lt _ _ 0 n (by norm_num) h

end strconv

namespace balance

theorem Get_key (org : String) (stub : Stub) (v : Nat) (h : Get org stub = .ok v) :
    ∃ k, shim.CreateCompositeKey FUND_PREFIX [org] = .ok k := by
  unfold Get at h
  cases hk : shim.CreateCompositeKey FUND_PREFIX [org] with
  | error e => simp [hk] at h
  | ok k => exact ⟨k, rfl⟩

theorem Get_lt (org : String) (stub : Stub) (v : Nat) (h : Get org stub = .ok v) :
    v < 2 ^ 64 := by
  unfold Get at h
  cases hk : shim.CreateCompositeKey FUND_PREFIX [org] with
  | error e => simp [hk] at h
  | ok k =>
    cases hl : shim.lookup k stub.state with
    | none => simp [hk, shim.GetState, hl] at h
    | some b =>
      cases hp : strconv.ParseUint b 0 with
      | error e => simp [hk, shim.GetState, hl, hp] at h
      | ok n =>
        simp [hk, shim.GetState, hl, hp] at h
        subst h
        exact strconv.ParseUint_lt _ _ _ hp

theorem Put_eq (org k : String) (v : Nat) (stub : Stub)
    (hk : shim.CreateCompositeKey FUND_PREFIX [org] = .ok k) :
    Put org v stub = .ok ⟨stub.creator, shim.upsert k (strconv.FormatUint v) stub.state⟩ := by
  have hne := shim.CreateCompositeKey_single_ne_empty _ _ _ hk
  simp [Put, hk, shim.PutState, hne]

theorem Get_upsert_self (org k : String) (v : Nat) (c : Except GoError String)
    (st : List (String × String)) (hv : v < 2 ^ 64)
    (hk : shim.CreateCompositeKey FUND_PREFIX [org] = .ok k) :
    Get org ⟨c, shim.upsert k (strconv.FormatUint v) st⟩ = .ok v := by
  simp [Get, hk, shim.GetState, shim.lookup_upsert_self,
    strconv.ParseUint_FormatUint v 0 hv (Or.inl rfl)]

theorem Get_upsert_ne (org k k2 value : String) (c : Except GoError String) (stub : Stub)
    (hk : shim.CreateCompositeKey FUND_PREFIX [org] = .ok k) (hne : k ≠ k2) :
    Get org ⟨c, shim.upsert k2 value stub.state⟩ = Get org stub := by
  simp [Get, hk, shim.GetState, shim.lookup_upsert_ne _ _ _ _ hne]

end balance

namespace asset

theorem Get_record_key (name : String) (stub : Stub) (a : Asset) (h : Get name stub = .ok a) :
    ∃ k, shim.CreateCompositeKey ASSET_PREFIX [name] = .ok k := by
  unfold Get at h
  cases hk : shim.CreateCompositeKey ASSET_PREFIX [name] with
  | error e => simp [hk] at h
  | ok k => exact ⟨k, rfl⟩

theorem Put_record_eq (a : Asset) (k : String) (stub : Stub)
    (hk : shim.CreateCompositeKey ASSET_PREFIX [a.Name] = .ok k) :
    ∃ bytes, json.Marshal a = .ok bytes ∧
      Put a stub = .ok ⟨stub.creator, shim.upsert k bytes stub.state⟩ := by
  have hne := shim.CreateCompositeKey_single_ne_empty _ _ _ hk
  refine ⟨_, json.Marshal_data a, ?_⟩
  simp [Put, hk, json.Marshal_data, shim.PutState, hne]

theorem Get_record_upsert_ne (name k k2 value : String) (c : Except GoError String) (stub : Stub)
    (hk : shim.CreateCompositeKey ASSET_PREFIX [name] = .ok k) (hne : k ≠ k2) :
    Get name ⟨c, shim.upsert k2 value stub.state⟩ = Get name stub := by
  simp [Get, hk, shim.GetState, shim.lookup_upsert_ne _ _ _ _ hne]

end asset

/-! ## Successful purchases -/

namespace AssetChaincode

/-- The outcome of a purchase whose checks all pass: the response and, on the resulting
ledger, the two balances and the asset record. -/
theorem buyAsset_succeeds (tbl : Char → Char) (stub : Stub) (name buyer ka : String)
    (ast : asset.Asset) (bb sb : Nat)
    (hget : asset.Get (strings.ToLower tbl name) stub = .ok ast)
    (hka : shim.CreateCompositeKey asset.ASSET_PREFIX [ast.Name] = .ok ka)
    (hid : getMspID stub = .ok buyer)
    (hown : ast.Owner ≠ buyer)
    (hbb : balance.Get buyer stub = .ok bb)
    (hfunds : ast.Price ≤ bb)
    (hsb : balance.Get ast.Owner stub = .ok sb) :
    (buyAsset tbl stub [name]).1 =
      shim.Success ("Purchase is completed, now you own " ++ strings.ToLower tbl name ++ "!") ∧
    (buyAsset tbl stub [name]).2.creator = stub.creator ∧
    balance.Get buyer (buyAsset tbl stub [name]).2 = .ok (bb - ast.Price) ∧
    balance.Get ast.Owner (buyAsset tbl stub [name]).2 = .ok ((sb + ast.Price) % 2 ^ 64) ∧
    asset.Get ast.Name (buyAsset tbl stub [name]).2 =
      .ok ⟨ast.Name, buyer, ast.Creator, ast.Price⟩ := by
  obtain ⟨kb, hkb⟩ := balance.Get_key _ _ _ hbb
  obtain ⟨ks, hks⟩ := balance.Get_key _ _ _ hsb
  have hbblt := balance.Get_lt _ _ _ hbb
  have hplt : ast.Price < 2 ^ 64 := lt_of_le_of_lt hfunds hbblt
  have hkbs : kb ≠ ks := fun h =>
    hown (shim.CreateCompositeKey_single_inj _ _ _ _ hks (h ▸ hkb))
  have hkba : kb ≠ ka := shim.fund_key_ne_asset_key _ _ _ _ hkb hka
  have hksa : ks ≠ ka := shim.fund_key_ne_asset_key _ _ _ _ hks hka
  have hput1 := balance.Put_eq buyer kb (bb - ast.Price) stub hkb
  have hput2 := balance.Put_eq ast.Owner ks ((sb + ast.Price) % 2 ^ 64)
    ⟨stub.creator, shim.upsert kb (strconv.FormatUint (bb - ast.Price)) stub.state⟩ hks
  obtain ⟨bytes, hm, hput3⟩ := asset.Put_record_eq ⟨ast.Name, buyer, ast.Creator, ast.Price⟩ ka
    ⟨stub.creator, shim.upsert ks (strconv.FormatUint ((sb + ast.Price) % 2 ^ 64))
      (shim.upsert kb (strconv.FormatUint (bb - ast.Price)) stub.state)⟩ hka
  have hun := json.Unmarshal_Marshal ⟨ast.Name, buyer, ast.Creator, ast.Price⟩ bytes hplt hm
  dsimp only at hput2 hput3
  have hrun : buyAsset tbl stub [name] =
      (shim.Success ("Purchase is completed, now you own " ++ strings.ToLower tbl name ++ "!"),
        ⟨stub.creator, shim.upsert ka bytes
          (shim.upsert ks (strconv.FormatUint ((sb + ast.Price) % 2 ^ 64))
            (shim.upsert kb (strconv.FormatUint (bb - ast.Price)) stub.state))⟩) := by
    have hnlt : ¬ bb < ast.Price := by omega
    simp only [Nat.reducePow] at hput2 hput3
    simp [buyAsset, hget, hid, hown, hbb, hnlt, hsb, hput1, hput2, hput3]
  rw [hrun]
  refine ⟨rfl, rfl, ?_, ?_, ?_⟩
  · rw [balance.Get_upsert_ne buyer kb ka bytes stub.creator ⟨stub.creator, _⟩ hkb hkba]
    rw [balance.Get_upsert_ne buyer kb ks _ stub.creator ⟨stub.creator, _⟩ hkb hkbs]
    exact balance.Get_upsert_self buyer kb _ _ _ (by omega) hkb
  · rw [balance.Get_upsert_ne ast.Owner ks ka bytes stub.creator ⟨stub.creator, _⟩ hks hksa]
    exact balance.Get_upsert_self ast.Owner ks _ _ _ (Nat.mod_lt _ (by norm_num)) hks
  · simp [asset.Get, hka, shim.GetState, shim.lookup_upsert_self, asset.Unmarshal, hun]

/-- What a successful purchase presupposes: the asset and both balances were read, the
funds suffice, the owner is not the caller and the key of the record's own name exists. -/
theorem buyAsset_ok_inv (tbl : Char → Char) (stub : Stub) (name buyer : String)
    (hid : getMspID stub = .ok buyer)
    (hok : (buyAsset tbl stub [name]).1.Status = shim.OK) :
    ∃ ast bb sb ka, asset.Get (strings.ToLower tbl name) stub = .ok ast ∧
      shim.CreateCompositeKey asset.ASSET_PREFIX [ast.Name] = .ok ka ∧
      ast.Owner ≠ buyer ∧ balance.Get buyer stub = .ok bb ∧ ast.Price ≤ bb ∧
      balance.Get ast.Owner stub = .ok sb := by
  have herr : shim.ERROR ≠ shim.OK := by decide
  cases hget : asset.Get (strings.ToLower tbl name) stub with
  | error e => simp [buyAsset, hget, shim.Error, herr] at hok
  | ok ast =>
    by_cases hown : ast.Owner = buyer
    · simp [buyAsset, hget, hid, hown, shim.Error, herr] at hok
    · cases hbb : balance.Get buyer stub with
      | error e => simp [buyAsset, hget, hid, hown, hbb, shim.Error, herr] at hok
      | ok bb =>
        by_cases hlt : bb < ast.Price
        · simp [buyAsset, hget, hid, hown, hbb, hlt, shim.Error, herr] at hok
        · cases hsb : balance.Get ast.Owner stub with
          | error e => simp [buyAsset, hget, hid, hown, hbb, hlt, hsb, shim.Error, herr] at hok
          | ok sb =>
            cases hka : shim.CreateCompositeKey asset.ASSET_PREFIX [ast.Name] with
            | ok ka => exact ⟨ast, bb, sb, ka, rfl, hka, hown, rfl, by omega, hsb⟩
            | error e =>
              exfalso
              have hput : ∀ o st, asset.Put ⟨ast.Name, o, ast.Creator, ast.Price⟩ st =
                  .error (.errorf "failed to create composite key") := by
                intro o st
                simp [asset.Put, hka]
              simp only [buyAsset, hget, hid, hown, hbb, hlt, hsb, hput, if_false] at hok
              split at hok
              · simp [shim.Error, herr] at hok
              · split at hok <;> simp [shim.Error, herr] at hok

/-- Conservation whenever the seller's new balance fits 64 bits: after any successful
purchase the buyer holds the old balance minus the price and the seller the old balance
plus the price modulo `2 ^ 64`, so the sum is kept unless that addition wraps. -/
theorem buyAsset_conserves_unless_wrap (tbl : Char → Char) (stub : Stub) (name buyer : String)
    (hid : getMspID stub = .ok buyer)
    (hok : (buyAsset tbl stub [name]).1.Status = shim.OK) :
    ∃ ast bb sb, asset.Get (strings.ToLower tbl name) stub = .ok ast ∧
      balance.Get buyer stub = .ok bb ∧ balance.Get ast.Owner stub = .ok sb ∧
      balance.Get buyer (buyAsset tbl stub [name]).2 = .ok (bb - ast.Price) ∧
      balance.Get ast.Owner (buyAsset tbl stub [name]).2 = .ok ((sb + ast.Price) % 2 ^ 64) ∧
      (sb + ast.Price < 2 ^ 64 →
        (bb - ast.Price) + (sb + ast.Price) % 2 ^ 64 = bb + sb) := by
  obtain ⟨ast, bb, sb, ka, hget, hka, hown, hbb, hfunds, hsb⟩ :=
    buyAsset_ok_inv tbl stub name buyer hid hok
  obtain ⟨-, -, h3, h4, -⟩ :=
    buyAsset_succeeds tbl stub name buyer ka ast bb sb hget hka hid hown hbb hfunds hsb
  refine ⟨ast, bb, sb, hget, hbb, hsb, h3, h4, ?_⟩
  intro hno
  rw [Nat.mod_eq_of_lt hno]
  omega

/-- The purchase is undone by the seller buying back, whenever the seller's balance plus
the price fits 64 bits: the second purchase succeeds, both balances are as before the
first purchase and the record is the original one. -/
theorem buyAsset_buy_back (tbl : Char → Char) (stub : Stub) (name buyer : String)
    (ast : asset.Asset) (bb sb : Nat)
    (hget : asset.Get (strings.ToLower tbl name) stub = .ok ast)
    (hname : ast.Name = strings.ToLower tbl name)
    (hid : getMspID stub = .ok buyer)
    (hown : ast.Owner ≠ buyer)
    (hbb : balance.Get buyer stub = .ok bb)
    (hfunds : ast.Price ≤ bb)
    (hsb : balance.Get ast.Owner stub = .ok sb)
    (hno : sb + ast.Price < 2 ^ 64) :
    (buyAsset tbl ⟨.ok ast.Owner, (buyAsset tbl stub [name]).2.state⟩ [name]).1 =
      shim.Success ("Purchase is completed, now you own " ++ strings.ToLower tbl name ++ "!") ∧
    balance.Get buyer
      (buyAsset tbl ⟨.ok ast.Owner, (buyAsset tbl stub [name]).2.state⟩ [name]).2 = .ok bb ∧
    balance.Get ast.Owner
      (buyAsset tbl ⟨.ok ast.Owner, (buyAsset tbl stub [name]).2.state⟩ [name]).2 = .ok sb ∧
    asset.Get (strings.ToLower tbl name)
      (buyAsset tbl ⟨.ok ast.Owner, (buyAsset tbl stub [name]).2.state⟩ [name]).2 = .ok ast := by
  obtain ⟨ka, hka⟩ := asset.Get_record_key _ _ _ hget
  rw [← hname] at hka
  obtain ⟨-, -, h3, h4, h5⟩ :=
    buyAsset_succeeds tbl stub name buyer ka ast bb sb hget hka hid hown hbb hfunds hsb
  have hbblt := balance.Get_lt _ _ _ hbb
  rw [Nat.mod_eq_of_lt hno] at h4
  have h5b : asset.Get (strings.ToLower tbl name)
      ⟨.ok ast.Owner, (buyAsset tbl stub [name]).2.state⟩ =
      .ok ⟨ast.Name, buyer, ast.Creator, ast.Price⟩ := by
    rw [← hname]; exact h5
  have hle : ast.Price ≤ sb + ast.Price := by omega
  have hback := buyAsset_succeeds tbl
    ⟨.ok ast.Owner, (buyAsset tbl stub [name]).2.state⟩ name ast.Owner ka
    ⟨ast.Name, buyer, ast.Creator, ast.Price⟩ (sb + ast.Price) (bb - ast.Price)
    h5b hka rfl (Ne.symm hown) h4 hle h3
  obtain ⟨g1, -, g3, g4, g5⟩ := hback
  dsimp only at g3 g4 g5
  refine ⟨g1, ?_, ?_, ?_⟩
  · rw [g4]
    have : (bb - ast.Price + ast.Price) % 2 ^ 64 = bb := by
      rw [Nat.sub_add_cancel hfunds]; exact Nat.mod_eq_of_lt hbblt
    rw [this]
  · rw [g3]
    simp
  · rw [← hname, g5]

end AssetChaincode

/-! ## What each operation writes -/

namespace AssetChaincode

theorem status_Error (msg : String) : (shim.Error msg).Status ≠ shim.OK := by
  simp [shim.Error, shim.ERROR, shim.OK]

/-- What `initFund` does to the ledger: nothing (and it fails), or it succeeds and stores
the initial fund under the caller's fund key, where nothing was stored. -/
theorem initFund_effect (stub : Stub) (args : List String) :
    ((initFund stub args).2 = stub ∧ (initFund stub args).1.Status ≠ shim.OK) ∨
    ∃ org k, getMspID stub = .ok org ∧
      shim.CreateCompositeKey balance.FUND_PREFIX [org] = .ok k ∧
      shim.lookup k stub.state = none ∧
      (initFund stub args).1.Status = shim.OK ∧
      (initFund stub args).2 =
        ⟨stub.creator, shim.upsert k (strconv.FormatUint balance.INITIAL_FUND) stub.state⟩ := by
  unfold initFund
  by_cases hargs : args.length ≠ 0
  · left; simp [hargs, status_Error]
  · rw [if_neg hargs]
    cases hid : getMspID stub with
    | error e => left; simp [status_Error]
    | ok org =>
      cases hk : shim.CreateCompositeKey balance.FUND_PREFIX [org] with
      | error e =>
        left; simp [balance.Init, balance.Get, hk, balance.ErrFundNotExist, status_Error]
      | ok k =>
        have hne := shim.CreateCompositeKey_single_ne_empty _ _ _ hk
        cases hl : shim.lookup k stub.state with
        | none =>
          right
          refine ⟨org, k, rfl, hk, hl, ?_, ?_⟩ <;>
            simp [balance.Init, balance.Get, hk, shim.GetState, hl, balance.ErrFundNotExist,
              balance.Put, shim.PutState, hne, shim.Success]
        | some b =>
          left
          cases hp : strconv.ParseUint b 0 with
          | error e =>
            simp [balance.Init, balance.Get, hk, shim.GetState, hl, hp, balance.ErrFundNotExist,
              status_Error]
          | ok v => simp [balance.Init, balance.Get, hk, shim.GetState, hl, hp, status_Error]

theorem getBalance_effect (stub : Stub) (args : List String) :
    (getBalance stub args).2 = stub := by
  unfold getBalance
  split_ifs
  · rfl
  · cases h1 : getMspID stub with
    | error e => simp
    | ok org => cases h2 : balance.Get org stub <;> simp [h2]

theorem listAsset_effect (stub : Stub) (args : List String) :
    (listAsset stub args).2 = stub := by
  unfold listAsset
  split_ifs
  · rfl
  · cases h1 : asset.List stub with
    | error e => simp
    | ok res => cases h2 : json.MarshalList res <;> simp [h2]

/-- What `createAsset` does to the ledger: nothing (and it fails), or it succeeds and
stores the new record under the key of the lower-cased name, where nothing was stored. -/
theorem createAsset_effect (tbl : Char → Char) (stub : Stub) (args : List String) :
    ((createAsset tbl stub args).2 = stub ∧ (createAsset tbl stub args).1.Status ≠ shim.OK) ∨
    ∃ m p price caller ka bytes, args = [m, p] ∧ strconv.ParseUint p 0 = .ok price ∧
      getMspID stub = .ok caller ∧
      shim.CreateCompositeKey asset.ASSET_PREFIX [strings.ToLower tbl m] = .ok ka ∧
      shim.lookup ka stub.state = none ∧
      json.Marshal ⟨strings.ToLower tbl m, caller, caller, price⟩ = .ok bytes ∧
      (createAsset tbl stub args).1 =
        shim.Success ("Asset '" ++ strings.ToLower tbl m ++ "' created") ∧
      (createAsset tbl stub args).2 = ⟨stub.creator, shim.upsert ka bytes stub.state⟩ := by
  unfold createAsset
  split
  · rename_i m p
    cases hp : strconv.ParseUint p 0 with
    | error e => left; simp [status_Error]
    | ok price =>
      cases hid : getMspID stub with
      | error e => left; simp [status_Error]
      | ok caller =>
        cases hk : shim.CreateCompositeKey asset.ASSET_PREFIX [strings.ToLower tbl m] with
        | error e => left; simp [asset.Exist, asset.Get, hk, asset.ErrAssetNotExist, status_Error]
        | ok ka =>
          have hne := shim.CreateCompositeKey_single_ne_empty _ _ _ hk
          cases hl : shim.lookup ka stub.state with
          | some b =>
            left
            cases hu : json.Unmarshal b with
            | error e =>
              simp [asset.Exist, asset.Get, hk, shim.GetState, hl, asset.Unmarshal, hu,
                asset.ErrAssetNotExist, status_Error]
            | ok a =>
              simp [asset.Exist, asset.Get, hk, shim.GetState, hl, asset.Unmarshal, hu,
                status_Error]
          | none =>
            right
            refine ⟨m, p, price, caller, ka, _, rfl, hp, rfl, hk, hl, json.Marshal_data _, ?_, ?_⟩
              <;> simp [asset.Exist, asset.Get, hk, shim.GetState, hl, asset.ErrAssetNotExist,
                asset.Put, json.Marshal_data, shim.PutState, hne]
  · left; simp [status_Error]

/-- What `buyAsset` does to the ledger.  Either nothing (and it fails); or all three reads
succeeded and both balances were written, after which the record is written under the key
of its own name and the purchase succeeds, or that key cannot be built and the call
fails. -/
theorem buyAsset_effect (tbl : Char → Char) (stub : Stub) (args : List String) :
    ((buyAsset tbl stub args).2 = stub ∧ (buyAsset tbl stub args).1.Status ≠ shim.OK) ∨
    ∃ m ast buyer bb sb kb ks, args = [m] ∧
      asset.Get (strings.ToLower tbl m) stub = .ok ast ∧ getMspID stub = .ok buyer ∧
      ast.Owner ≠ buyer ∧ balance.Get buyer stub = .ok bb ∧ ast.Price ≤ bb ∧
      balance.Get ast.Owner stub = .ok sb ∧
      shim.CreateCompositeKey balance.FUND_PREFIX [buyer] = .ok kb ∧
      shim.CreateCompositeKey balance.FUND_PREFIX [ast.Owner] = .ok ks ∧
      (((∃ e, shim.CreateCompositeKey asset.ASSET_PREFIX [ast.Name] = .error e) ∧
          (buyAsset tbl stub args).1.Status ≠ shim.OK ∧
          (buyAsset tbl stub args).2 = ⟨stub.creator,
            shim.upsert ks (strconv.FormatUint ((sb + ast.Price) % 2 ^ 64))
              (shim.upsert kb (strconv.FormatUint (bb - ast.Price)) stub.state)⟩) ∨
        (∃ ka bytes, shim.CreateCompositeKey asset.ASSET_PREFIX [ast.Name] = .ok ka ∧
          json.Marshal ⟨ast.Name, buyer, ast.Creator, ast.Price⟩ = .ok bytes ∧
          (buyAsset tbl stub args).1 = shim.Success
            ("Purchase is completed, now you own " ++ strings.ToLower tbl m ++ "!") ∧
          (buyAsset tbl stub args).2 = ⟨stub.creator, shim.upsert ka bytes
            (shim.upsert ks (strconv.FormatUint ((sb + ast.Price) % 2 ^ 64))
              (shim.upsert kb (strconv.FormatUint (bb - ast.Price)) stub.state))⟩)) := by
  match args with
  | [] => left; simp [buyAsset, status_Error]
  | _ :: _ :: _ => left; simp [buyAsset, status_Error]
  | [m] =>
    cases hget : asset.Get (strings.ToLower tbl m) stub with
    | error e => left; simp [buyAsset, hget, status_Error]
    | ok ast =>
      cases hid : getMspID stub with
      | error e => left; simp [buyAsset, hget, hid, status_Error]
      | ok buyer =>
        by_cases hown : ast.Owner = buyer
        · left; simp [buyAsset, hget, hid, hown, status_Error]
        · cases hbb : balance.Get buyer stub with
          | error e => left; simp [buyAsset, hget, hid, hown, hbb, status_Error]
          | ok bb =>
            by_cases hlt : bb < ast.Price
            · left; simp [buyAsset, hget, hid, hown, hbb, hlt, status_Error]
            · cases hsb : balance.Get ast.Owner stub with
              | error e => left; simp [buyAsset, hget, hid, hown, hbb, hlt, hsb, status_Error]
              | ok sb =>
                right
                obtain ⟨kb, hkb⟩ := balance.Get_key _ _ _ hbb
                obtain ⟨ks, hks⟩ := balance.Get_key _ _ _ hsb
                have hput1 := balance.Put_eq buyer kb (bb - ast.Price) stub hkb
                have hput2 := balance.Put_eq ast.Owner ks ((sb + ast.Price) % 2 ^ 64)
                  ⟨stub.creator, shim.upsert kb (strconv.FormatUint (bb - ast.Price)) stub.state⟩
                  hks
                dsimp only at hput2
                simp only [Nat.reducePow] at hput2
                refine ⟨m, ast, buyer, bb, sb, kb, ks, rfl, hget, rfl, hown, hbb, by omega, hsb,
                  hkb, hks, ?_⟩
                cases hka : shim.CreateCompositeKey asset.ASSET_PREFIX [ast.Name] with
                | error e =>
                  left
                  have hput3 : ∀ st, asset.Put ⟨ast.Name, buyer, ast.Creator, ast.Price⟩ st =
                      .error (.errorf "failed to create composite key") := by
                    intro st; simp [asset.Put, hka]
                  refine ⟨⟨e, rfl⟩, ?_, ?_⟩ <;>
                    simp [buyAsset, hget, hid, hown, hbb, hlt, hsb, hput1, hput2, hput3,
                      status_Error]
                | ok ka =>
                  right
                  obtain ⟨bytes, hm, hput3⟩ :=
                    asset.Put_record_eq ⟨ast.Name, buyer, ast.Creator, ast.Price⟩ ka
                      ⟨stub.creator,
                        shim.upsert ks (strconv.FormatUint ((sb + ast.Price) % 2 ^ 64))
                          (shim.upsert kb (strconv.FormatUint (bb - ast.Price)) stub.state)⟩ hka
                  dsimp only at hput3
                  simp only [Nat.reducePow] at hput3
                  refine ⟨ka, bytes, rfl, hm, ?_, ?_⟩ <;>
                    simp [buyAsset, hget, hid, hown, hbb, hlt, hsb, hput1, hput2, hput3]

theorem Invoke_cases (tbl : Char → Char) (stub : Stub) (function : String)
    (args : List String) :
    (function ≠ "BuyAsset" ∧ Invoke tbl stub function args = initFund stub args) ∨
    (function ≠ "BuyAsset" ∧ Invoke tbl stub function args = createAsset tbl stub args) ∨
    (function = "BuyAsset" ∧ Invoke tbl stub function args = buyAsset tbl stub args) ∨
    (function ≠ "BuyAsset" ∧ (Invoke tbl stub function args).2 = stub) := by
  unfold Invoke
  by_cases h1 : function = "InitFund"
  · left; subst h1; exact ⟨by decide, by simp⟩
  · by_cases h2 : function = "GetBalance"
    · right; right; right
      subst h2
      exact ⟨by decide, by simpa using getBalance_effect stub args⟩
    · by_cases h3 : function = "CreateAsset"
      · right; left; subst h3; exact ⟨by decide, by simp⟩
      · by_cases h4 : function = "ListAsset"
        · right; right; right
          subst h4
          exact ⟨by decide, by simpa using listAsset_effect stub args⟩
        · by_cases h5 : function = "BuyAsset"
          · right; right; left; subst h5; exact ⟨rfl, by simp⟩
          · right; right; right; exact ⟨h5, by simp [h1, h2, h3, h4, h5]⟩

end AssetChaincode

/-! ## Entries of the world state -/

namespace shim

theorem mem_upsert (key value : String) (l : List (String × String)) (kv : String × String)
    (h : kv ∈ upsert key value l) : kv = (key, value) ∨ kv ∈ l := by
  induction l with
  | nil => simp [upsert] at h; exact Or.inl h
  | cons x rest ih =>
    by_cases hx : x.1 = key
    · simp only [upsert, hx, if_true, List.mem_cons] at h
      rcases h with h | h
      · exact Or.inl h
      · exact Or.inr (List.mem_cons_of_mem _ h)
    · simp only [upsert, hx, if_false, List.mem_cons] at h
      rcases h with h | h
      · exact Or.inr (h ▸ List.mem_cons_self _ _)
      · rcases ih h with h2 | h2
        · exact Or.inl h2
        · exact Or.inr (List.mem_cons_of_mem _ h2)

theorem upsert_keys_nodup (key value : String) (l : List (String × String))
    (h : (l.map Prod.fst).Nodup) : ((upsert key value l).map Prod.fst).Nodup := by
  induction l with
  | nil => simp [upsert]
  | cons x rest ih =>
    rw [List.map_cons, List.nodup_cons] at h
    by_cases hx : x.1 = key
    · simp only [upsert, hx, if_true, List.map_cons, List.nodup_cons]
      exact ⟨hx ▸ h.1, h.2⟩
    · simp only [upsert, hx, if_false, List.map_cons, List.nodup_cons]
      refine ⟨?_, ih h.2⟩
      intro hmem
      rw [List.mem_map] at hmem
      obtain ⟨kv, hkv, hfst⟩ := hmem
      rcases mem_upsert _ _ _ _ hkv with h2 | h2
      · rw [h2] at hfst; exact hx hfst.symm
      · exact h.1 (List.mem_map.mpr ⟨kv, h2, hfst⟩)

theorem lookup_mem (key v : String) (l : List (String × String))
    (h : lookup key l = some v) : (key, v) ∈ l := by
  induction l with
  | nil => simp [lookup] at h
  | cons x rest ih =>
    by_cases hx : x.1 = key
    · simp only [lookup, hx, if_true, Option.some.injEq] at h
      have : x = (key, v) := Prod.ext hx h
      rw [this]; exact List.mem_cons_self _ _
    · simp only [lookup, hx, if_false] at h
      exact List.mem_cons_of_mem _ (ih h)

theorem value_unique_of_nodup (l : List (String × String)) (hnd : (l.map Prod.fst).Nodup)
    (k v1 v2 : String) (h1 : (k, v1) ∈ l) (h2 : (k, v2) ∈ l) : v1 = v2 := by
  induction l with
  | nil => simp at h1
  | cons x rest ih =>
    rw [List.map_cons, List.nodup_cons] at hnd
    rw [List.mem_cons] at h1 h2
    rcases h1 with h1 | h1 <;> rcases h2 with h2 | h2
    · rw [← h1] at h2; exact (Prod.mk.inj h2).2.symm ▸ rfl
    · exact absurd (List.mem_map.mpr ⟨(k, v2), h2, by rw [← h1]⟩) hnd.1
    · exact absurd (List.mem_map.mpr ⟨(k, v1), h1, by rw [← h2]⟩) hnd.1
    · exact ih hnd.2 h1 h2

theorem fund_key_not_in_asset_range (org k : String)
    (h : CreateCompositeKey "fund" [org] = .ok k) :
    inPartialRange "\x00asset\x00" k = false := by
  rw [CreateCompositeKey_single _ _ _ h]
  simp [inPartialRange, String.singleton, minUnicodeRuneValue]

theorem validate_ok (s : String) (h : validateCompositeKeyAttribute s = .ok ()) :
    ∀ c ∈ s.data, c ≠ maxUnicodeRuneValue := by
  unfold validateCompositeKeyAttribute at h
  split_ifs at h with hany
  intro c hc hmax
  apply hany
  rw [List.any_eq_true]
  exact ⟨c, hc, by simp [hmax]⟩

theorem asset_key_in_asset_range (n k : String)
    (h : CreateCompositeKey "asset" [n] = .ok k) :
    inPartialRange "\x00asset\x00" k = true := by
  have hk := CreateCompositeKey_single _ _ _ h
  have hv : validateCompositeKeyAttribute n = .ok () := by
    unfold CreateCompositeKey at h
    cases h1 : validateCompositeKeyAttribute "asset" with
    | error e => simp [h1] at h
    | ok u =>
      cases h2 : validateCompositeKeyAttribute n with
      | error e => simp [h1, h2, appendAttributes] at h
      | ok u2 => rfl
  have hmax := validate_ok n hv
  rw [hk]
  cases hn : n.data with
  | nil =>
    simp [inPartialRange, String.singleton, minUnicodeRuneValue, maxUnicodeRuneValue, hn]
  | cons c rest =>
    have hc : c ≠ maxUnicodeRuneValue := hmax c (by simp [hn])
    simp [inPartialRange, String.singleton, minUnicodeRuneValue, hn, hc]

end shim

namespace asset

theorem Get_upsert_fund (n org kf value : String) (c : Except GoError String) (stub : Stub)
    (hkf : shim.CreateCompositeKey balance.FUND_PREFIX [org] = .ok kf) :
    Get n ⟨c, shim.upsert kf value stub.state⟩ = Get n stub := by
  cases hk : shim.CreateCompositeKey ASSET_PREFIX [n] with
  | error e => simp [Get, hk]
  | ok k =>
    have hne : k ≠ kf := fun h => shim.fund_key_ne_asset_key _ _ _ _ hkf hk h.symm
    exact Get_record_upsert_ne n k kf value c stub hk hne

theorem Get_upsert_other_name (n n2 ka value : String) (c : Except GoError String)
    (stub : Stub) (hka : shim.CreateCompositeKey ASSET_PREFIX [n2] = .ok ka) (hne : n ≠ n2) :
    Get n ⟨c, shim.upsert ka value stub.state⟩ = Get n stub := by
  cases hk : shim.CreateCompositeKey ASSET_PREFIX [n] with
  | error e => simp [Get, hk]
  | ok k =>
    have hkne : k ≠ ka := fun h =>
      hne (shim.CreateCompositeKey_single_inj _ _ _ _ hk (h ▸ hka))
    exact Get_record_upsert_ne n k ka value c stub hk hkne

theorem Get_upsert_record (a : Asset) (ka bytes : String) (c : Except GoError String)
    (stub : Stub) (hka : shim.CreateCompositeKey ASSET_PREFIX [a.Name] = .ok ka)
    (hm : json.Marshal a = .ok bytes) (hp : a.Price < 2 ^ 64) :
    Get a.Name ⟨c, shim.upsert ka bytes stub.state⟩ = .ok a := by
  simp [Get, hka, shim.GetState, shim.lookup_upsert_self, Unmarshal,
    json.Unmarshal_Marshal a bytes hp hm]

theorem Get_entry (n : String) (stub : Stub) (a : Asset) (h : Get n stub = .ok a) :
    ∃ k v, shim.CreateCompositeKey ASSET_PREFIX [n] = .ok k ∧
      shim.lookup k stub.state = some v ∧ json.Unmarshal v = .ok a := by
  unfold Get at h
  cases hk : shim.CreateCompositeKey ASSET_PREFIX [n] with
  | error e => simp [hk] at h
  | ok k =>
    cases hl : shim.lookup k stub.state with
    | none => simp [hk, shim.GetState, hl] at h
    | some v =>
      cases hu : json.Unmarshal v with
      | error e => simp [hk, shim.GetState, hl, Unmarshal, hu] at h
      | ok b =>
        simp [hk, shim.GetState, hl, Unmarshal, hu] at h
        exact ⟨k, v, rfl, hl, by rw [← h]; exact hu⟩

end asset

namespace balance

theorem Get_upsert_asset (org n ka value : String) (c : Except GoError String) (stub : Stub)
    (hka : shim.CreateCompositeKey asset.ASSET_PREFIX [n] = .ok ka) :
    Get org ⟨c, shim.upsert ka value stub.state⟩ = Get org stub := by
  cases hk : shim.CreateCompositeKey FUND_PREFIX [org] with
  | error e => simp [Get, hk]
  | ok k =>
    exact Get_upsert_ne org k ka value c stub hk (shim.fund_key_ne_asset_key _ _ _ _ hk hka)

theorem Get_upsert_other_org (org org2 kf value : String) (c : Except GoError String)
    (stub : Stub) (hkf : shim.CreateCompositeKey FUND_PREFIX [org2] = .ok kf)
    (hne : org ≠ org2) :
    Get org ⟨c, shim.upsert kf value stub.state⟩ = Get org stub := by
  cases hk : shim.CreateCompositeKey FUND_PREFIX [org] with
  | error e => simp [Get, hk]
  | ok k =>
    have hkne : k ≠ kf := fun h =>
      hne (shim.CreateCompositeKey_single_inj _ _ _ _ hk (h ▸ hkf))
    exact Get_upsert_ne org k kf value c stub hk hkne

/-- A readable balance stays readable when any balance is written. -/
theorem Get_ok_upsert_fund (org org2 kf : String) (x v : Nat) (c : Except GoError String)
    (stub : Stub) (hkf : shim.CreateCompositeKey FUND_PREFIX [org2] = .ok kf)
    (hx : x < 2 ^ 64) (h : Get org stub = .ok v) :
    ∃ w, Get org ⟨c, shim.upsert kf (strconv.FormatUint x) stub.state⟩ = .ok w := by
  by_cases hne : org = org2
  · subst hne
    exact ⟨x, Get_upsert_self org kf x c stub.state hx hkf⟩
  · exact ⟨v, by rw [Get_upsert_other_org org org2 kf _ c stub hkf hne, h]⟩

end balance

/-! ## The marketplace operations: settled claims -/

/-- C1 (evaluation at the failing input): with seller balance 18446744073709551615 and
price 1, the purchase by `B` succeeds and leaves both balances at 0, so the sum of the two
stored balances drops from 18446744073709551616 to 0: the `uint64` addition to the seller
balance wraps. -/
theorem buyAsset_overflow_breaks_conservation :
    balance.Get "B" overflowStub = .ok 1 ∧
    balance.Get "A" overflowStub = .ok 18446744073709551615 ∧
    (AssetChaincode.buyAsset id overflowStub ["car"]).1 =
      shim.Success "Purchase is completed, now you own car!" ∧
    balance.Get "B" (AssetChaincode.buyAsset id overflowStub ["car"]).2 = .ok 0 ∧
    balance.Get "A" (AssetChaincode.buyAsset id overflowStub ["car"]).2 = .ok 0 := by
  decide

/-- C2: when the asset stored under the lower-cased name is owned by the caller,
`buyAsset` returns the self-purchase error and the stub (the whole ledger) is unchanged,
whatever the price and whatever balances the ledger holds. -/
theorem buyAsset_self_purchase (tbl : Char → Char) (stub : Stub) (name caller : String)
    (ast : asset.Asset)
    (hget : asset.Get (strings.ToLower tbl name) stub = .ok ast)
    (hid : AssetChaincode.getMspID stub = .ok caller)
    (hown : ast.Owner = caller) :
    AssetChaincode.buyAsset tbl stub [name] =
      (shim.Error ("you already own asset '" ++ strings.ToLower tbl name ++ "'"), stub) := by
  simp [AssetChaincode.buyAsset, hget, hid, hown]

/-- C2 at a concrete ledger: `A` owns `car`, holds no balance record, and asks for
`CAR`. -/
theorem buyAsset_self_purchase_witness :
    AssetChaincode.buyAsset id carOnlyStub ["CAR"] =
      (shim.Error "you already own asset 'car'", carOnlyStub) :=
  buyAsset_self_purchase id carOnlyStub "CAR" "A" ⟨"car", "A", "A", 500⟩
    (by decide) (by decide) (by decide)

/-- C3 as stated fails: the balance record of `A` exists (bytes are stored under its key)
but does not hold an amount, and `initFund` by `A` fails with the failed-to-read error, not
with the already-initialized error. -/
theorem initFund_twice_fails_counterexample :
    shim.GetState unreadableFundStub "\x00fund\x00A\x00" = .ok (some "oops") ∧
    AssetChaincode.initFund unreadableFundStub [] =
      (shim.Error ("failed to initialize fund for org 'A': failed to read data from ledger: " ++
        "balance for org 'strconv.ParseUint: parsing \"oops\": invalid syntax' is ill-formed"),
        unreadableFundStub) ∧
    (AssetChaincode.initFund unreadableFundStub []).1 ≠
      shim.Error "failed to initialize fund for org 'A': balance for 'A' already initialized" := by
  decide

/-- C3 amended: when a balance record exists for the caller (bytes are stored under its fund
key), `initFund` fails and returns the stub as it was (the stored balance and the rest of
the ledger are unchanged); the error is the already-initialized error when the stored bytes
are a readable amount, in particular right after a successful `initFund`, and the
failed-to-read error when they are not. -/
theorem initFund_twice_fails (stub : Stub) (org k bytes : String)
    (hid : AssetChaincode.getMspID stub = .ok org)
    (hk : shim.CreateCompositeKey balance.FUND_PREFIX [org] = .ok k)
    (hl : shim.lookup k stub.state = some bytes) :
    (AssetChaincode.initFund stub []).2 = stub ∧
    (AssetChaincode.initFund stub []).1.Status = shim.ERROR ∧
    (∀ v, strconv.ParseUint bytes 0 = .ok v →
      AssetChaincode.initFund stub [] =
        (shim.Error ("failed to initialize fund for org '" ++ org ++ "': " ++
          ("balance for '" ++ org ++ "' already initialized")), stub)) ∧
    (∀ e, strconv.ParseUint bytes 0 = .error e →
      AssetChaincode.initFund stub [] =
        (shim.Error ("failed to initialize fund for org '" ++ org ++ "': " ++
          ("failed to read data from ledger: " ++
            ("balance for org '" ++ e.Error bytes ++ "' is ill-formed"))), stub)) ∧
    (∀ stub0 : Stub, AssetChaincode.getMspID stub0 = .ok org →
      (AssetChaincode.initFund stub0 []).1.Status = shim.OK →
      AssetChaincode.initFund (AssetChaincode.initFund stub0 []).2 [] =
        (shim.Error ("failed to initialize fund for org '" ++ org ++ "': " ++
          ("balance for '" ++ org ++ "' already initialized")),
          (AssetChaincode.initFund stub0 []).2)) := by
  have hok : ∀ v, strconv.ParseUint bytes 0 = .ok v →
      AssetChaincode.initFund stub [] =
        (shim.Error ("failed to initialize fund for org '" ++ org ++ "': " ++
          ("balance for '" ++ org ++ "' already initialized")), stub) := by
    intro v hv
    simp [AssetChaincode.initFund, hid, balance.Init, balance.Get, hk, shim.GetState, hl, hv,
      GoError.Error]
  have herr : ∀ e, strconv.ParseUint bytes 0 = .error e →
      AssetChaincode.initFund stub [] =
        (shim.Error ("failed to initialize fund for org '" ++ org ++ "': " ++
          ("failed to read data from ledger: " ++
            ("balance for org '" ++ e.Error bytes ++ "' is ill-formed"))), stub) := by
    intro e he
    simp [AssetChaincode.initFund, hid, balance.Init, balance.Get, hk, shim.GetState, hl, he,
      GoError.Error, balance.ErrFundNotExist]
  refine ⟨?_, ?_, hok, herr, ?_⟩
  · cases hp : strconv.ParseUint bytes 0 with
    | ok v => rw [hok v hp]
    | error e => rw [herr e hp]
  · cases hp : strconv.ParseUint bytes 0 with
    | ok v => rw [hok v hp]; rfl
    | error e => rw [herr e hp]; rfl
  · intro stub0 hid0 hs
    rcases AssetChaincode.initFund_effect stub0 [] with ⟨-, hfail⟩ |
      ⟨org2, k2, hid2, hk2, -, -, hst⟩
    · exact absurd hs hfail
    · have ho : org2 = org := by rw [hid0] at hid2; exact (Except.ok.inj hid2).symm
      subst ho
      have hget : balance.Get org2 (AssetChaincode.initFund stub0 []).2 =
          .ok balance.INITIAL_FUND := by
        rw [hst]
        exact balance.Get_upsert_self org2 k2 _ stub0.creator stub0.state (by decide) hk2
      have hid3 : AssetChaincode.getMspID (AssetChaincode.initFund stub0 []).2 = .ok org2 := by
        rw [hst]; exact hid0
      generalize (AssetChaincode.initFund stub0 []).2 = s1 at hget hid3 ⊢
      simp [AssetChaincode.initFund, hid3, balance.Init, hget, GoError.Error]

/-- C3 amended, right after a successful `initFund` on the empty ledger and on the ledger
whose balance record is unreadable. -/
theorem initFund_twice_fails_witness :
    (AssetChaincode.initFund ⟨.ok "A", []⟩ []).1.Status = shim.OK ∧
    AssetChaincode.initFund ⟨.ok "A", [("\x00fund\x00A\x00", "10000")]⟩ [] =
      (shim.Error "failed to initialize fund for org 'A': balance for 'A' already initialized",
        ⟨.ok "A", [("\x00fund\x00A\x00", "10000")]⟩) ∧
    (AssetChaincode.initFund unreadableFundStub []).2 = unreadableFundStub ∧
    (AssetChaincode.initFund unreadableFundStub []).1.Status = shim.ERROR :=
  ⟨by decide,
   (initFund_twice_fails ⟨.ok "A", [("\x00fund\x00A\x00", "10000")]⟩ "A"
      "\x00fund\x00A\x00" "10000" (by decide) (by decide) (by decide)).2.2.1 10000 (by decide),
   (initFund_twice_fails unreadableFundStub "A" "\x00fund\x00A\x00" "oops"
      (by decide) (by decide) (by decide)).1,
   (initFund_twice_fails unreadableFundStub "A" "\x00fund\x00A\x00" "oops"
      (by decide) (by decide) (by decide)).2.1⟩

/-- C4: when an asset record is stored under `n`, `createAsset` with any argument whose
lower-casing is `n`, any caller and any price that parses returns the already-exists error
and the stub (hence the stored record) is unchanged. -/
theorem createAsset_existing_name_fails (tbl : Char → Char) (stub : Stub)
    (n m caller priceArg : String) (price : Nat) (a : asset.Asset)
    (hrec : asset.Get n stub = .ok a)
    (hm : strings.ToLower tbl m = n)
    (hid : AssetChaincode.getMspID stub = .ok caller)
    (hprice : strconv.ParseUint priceArg 0 = .ok price) :
    AssetChaincode.createAsset tbl stub [m, priceArg] =
      (shim.Error ("asset '" ++ n ++ "' already exists"), stub) := by
  simp [AssetChaincode.createAsset, hm, hprice, hid, asset.Exist, hrec]

/-- C4 on the ledger left by `createAsset` of `car` by `A`: `B` asking for `CaR` is
refused. -/
theorem createAsset_existing_name_fails_witness :
    (AssetChaincode.createAsset id ⟨.ok "A", []⟩ ["car", "500"]).1.Status = shim.OK ∧
    AssetChaincode.createAsset id
        ⟨.ok "B", (AssetChaincode.createAsset id ⟨.ok "A", []⟩ ["car", "500"]).2.state⟩
        ["CaR", "7"] =
      (shim.Error "asset 'car' already exists",
        ⟨.ok "B", (AssetChaincode.createAsset id ⟨.ok "A", []⟩ ["car", "500"]).2.state⟩) :=
  ⟨by decide,
   createAsset_existing_name_fails id
    ⟨.ok "B", (AssetChaincode.createAsset id ⟨.ok "A", []⟩ ["car", "500"]).2.state⟩
    "car" "CaR" "B" "7" 7 ⟨"car", "A", "A", 500⟩
    (by decide) (by decide) (by decide) (by decide)⟩

/-- C6 (evaluation at the failing input): on the ledger where the seller `A` holds
18446744073709551615 and the price is 1, `B` buys `car` successfully and owns it, but the
immediately following purchase by `A` is refused for insufficient funds, because the
balance of `A` wrapped to 0. -/
theorem buyAsset_overflow_blocks_buy_back :
    (AssetChaincode.buyAsset id overflowStub ["car"]).1 =
      shim.Success "Purchase is completed, now you own car!" ∧
    asset.Get "car" (AssetChaincode.buyAsset id overflowStub ["car"]).2 =
      .ok ⟨"car", "B", "A", 1⟩ ∧
    (AssetChaincode.buyAsset id
        ⟨.ok "A", (AssetChaincode.buyAsset id overflowStub ["car"]).2.state⟩ ["car"]).1 =
      shim.Error "balance insufficient, have 0, need 1" := by
  decide

/-- C7: when the asset exists, is owned by someone else and the caller's stored balance
is below the price, `buyAsset` returns the insufficient-funds error reporting the balance
and the price, and the stub is unchanged. -/
theorem buyAsset_insufficient_funds (tbl : Char → Char) (stub : Stub) (name caller : String)
    (ast : asset.Asset) (bal : Nat)
    (hget : asset.Get (strings.ToLower tbl name) stub = .ok ast)
    (hid : AssetChaincode.getMspID stub = .ok caller)
    (hown : ast.Owner ≠ caller)
    (hbal : balance.Get caller stub = .ok bal)
    (hlt : bal < ast.Price) :
    AssetChaincode.buyAsset tbl stub [name] =
      (shim.Error ("balance insufficient, have " ++ strconv.FormatUint bal ++ ", need " ++
        strconv.FormatUint ast.Price), stub) := by
  simp [AssetChaincode.buyAsset, hget, hid, hown, hbal, hlt]

/-- C7 at balance 100 and price 500. -/
theorem buyAsset_insufficient_funds_witness :
    AssetChaincode.buyAsset id poorBuyerStub ["car"] =
      (shim.Error "balance insufficient, have 100, need 500", poorBuyerStub) :=
  buyAsset_insufficient_funds id poorBuyerStub "car" "B" ⟨"car", "A", "A", 500⟩ 100
    (by decide) (by decide) (by decide) (by decide) (by decide)

/-- C8 (counterexamples): a caller without balance record who names an asset that does
not exist gets the asset-not-found error, and one who names an asset it owns gets the
self-purchase error; neither is the buyer-balance error. -/
theorem buyAsset_no_balance_counterexample :
    balance.Get "C" ⟨.ok "C", []⟩ = .error balance.ErrFundNotExist ∧
    AssetChaincode.buyAsset id ⟨.ok "C", []⟩ ["car"] =
      (shim.Error "failed to read asset from ledger: asset not exists", ⟨.ok "C", []⟩) ∧
    balance.Get "A" carOnlyStub = .error balance.ErrFundNotExist ∧
    AssetChaincode.buyAsset id carOnlyStub ["car"] =
      (shim.Error "you already own asset 'car'", carOnlyStub) := by
  decide

/-- C8 (amended): for a caller without balance record and any asset name, `buyAsset`
fails and leaves the stub unchanged; the failure is the buyer-balance error (carrying
`fund not exists`) whenever the named asset exists and is owned by someone else. -/
theorem buyAsset_no_balance (tbl : Char → Char) (stub : Stub) (name caller : String)
    (hid : AssetChaincode.getMspID stub = .ok caller)
    (hbal : balance.Get caller stub = .error balance.ErrFundNotExist) :
    (AssetChaincode.buyAsset tbl stub [name]).1.Status = shim.ERROR ∧
    (AssetChaincode.buyAsset tbl stub [name]).2 = stub ∧
    ∀ ast, asset.Get (strings.ToLower tbl name) stub = .ok ast → ast.Owner ≠ caller →
      (AssetChaincode.buyAsset tbl stub [name]).1 =
        shim.Error "failed to get buyer balance: fund not exists" := by
  refine ⟨?_, ?_, ?_⟩
  · cases hget : asset.Get (strings.ToLower tbl name) stub with
    | error e => simp [AssetChaincode.buyAsset, hget, shim.Error]
    | ok ast =>
      by_cases hown : ast.Owner = caller
      · simp [AssetChaincode.buyAsset, hget, hid, hown, shim.Error]
      · simp [AssetChaincode.buyAsset, hget, hid, hown, hbal, shim.Error]
  · cases hget : asset.Get (strings.ToLower tbl name) stub with
    | error e => simp [AssetChaincode.buyAsset, hget]
    | ok ast =>
      by_cases hown : ast.Owner = caller
      · simp [AssetChaincode.buyAsset, hget, hid, hown]
      · simp [AssetChaincode.buyAsset, hget, hid, hown, hbal]
  · intro ast hget hown
    simp [AssetChaincode.buyAsset, hget, hid, hown, hbal, balance.ErrFundNotExist,
      GoError.Error]

/-- C8 (amended) at a concrete ledger: `C` has no balance record and asks for the `car`
of `A`. -/
theorem buyAsset_no_balance_witness :
    (AssetChaincode.buyAsset id ⟨.ok "C", carOnlyStub.state⟩ ["car"]).1 =
      shim.Error "failed to get buyer balance: fund not exists" :=
  (buyAsset_no_balance id ⟨.ok "C", carOnlyStub.state⟩ "car" "C" (by decide)
    (by decide)).2.2 ⟨"car", "A", "A", 500⟩ (by decide) (by decide)

/-- C9: on a ledger none of whose keys extends the partial composite key of the asset
prefix, `asset.List` returns the empty sequence and `listAsset` succeeds; its payload is
`json.Marshal` of that empty (nil) slice, the text `null`. -/
theorem listAsset_empty_store (stub : Stub)
    (hnone : ∀ kv ∈ stub.state, ¬ ("\x00asset\x00".data <+: kv.1.data)) :
    asset.List stub = .ok [] ∧
    AssetChaincode.listAsset stub [] = (shim.Success "null", stub) := by
  have hkey : shim.CreateCompositeKey asset.ASSET_PREFIX [] = .ok "\x00asset\x00" := by decide
  have hfilter :
      stub.state.filter (fun kv => shim.inPartialRange "\x00asset\x00" kv.1) = [] := by
    rw [List.filter_eq_nil_iff]
    intro kv hkv
    have := hnone kv hkv
    simp [shim.inPartialRange, List.isPrefixOf_iff_prefix, this]
  have hlist : asset.List stub = .ok [] := by
    simp [asset.List, shim.GetStateByPartialCompositeKey, hkey, hfilter, asset.listLoop]
  exact ⟨hlist, by simp [AssetChaincode.listAsset, hlist, json.MarshalList]⟩

/-- C9 on a ledger that holds a balance record only. -/
theorem listAsset_empty_store_witness :
    AssetChaincode.listAsset ⟨.ok "A", [("\x00fund\x00A\x00", "10000")]⟩ [] =
      (shim.Success "null", ⟨.ok "A", [("\x00fund\x00A\x00", "10000")]⟩) :=
  (listAsset_empty_store ⟨.ok "A", [("\x00fund\x00A\x00", "10000")]⟩ (by decide)).2

/-- C10: when the caller's identity and fund key are available, `initFund` succeeds
exactly when nothing is stored under the caller's fund key; after a success `balance.Get`
and `getBalance` report 10000 and every other ledger entry, and the caller identity, are
as before. -/
theorem initFund_succeeds_iff_absent (stub : Stub) (caller key : String)
    (hid : AssetChaincode.getMspID stub = .ok caller)
    (hkey : shim.CreateCompositeKey balance.FUND_PREFIX [caller] = .ok key) :
    ((AssetChaincode.initFund stub []).1.Status = shim.OK ↔
      shim.GetState stub key = .ok none) ∧
    ((AssetChaincode.initFund stub []).1.Status = shim.OK →
      balance.Get caller (AssetChaincode.initFund stub []).2 = .ok balance.INITIAL_FUND ∧
      (AssetChaincode.getBalance (AssetChaincode.initFund stub []).2 []).1 =
        shim.Success ("Current balance for org " ++ caller ++ " is: " ++ "10000") ∧
      (AssetChaincode.initFund stub []).2.creator = stub.creator ∧
      ∀ k, k ≠ key →
        shim.GetState (AssetChaincode.initFund stub []).2 k = shim.GetState stub k) := by
  have hne : key ≠ "" := shim.CreateCompositeKey_single_ne_empty _ _ _ hkey
  have hparse : strconv.ParseUint "10000" 0 = .ok 10000 := by decide
  have hfmt : strconv.FormatUint 10000 = "10000" := by decide
  cases hl : shim.lookup key stub.state with
  | none =>
    have hinit : AssetChaincode.initFund stub [] =
        (shim.Success ("Balance for org '" ++ caller ++ "' initialized to " ++
          strconv.FormatUint balance.INITIAL_FUND),
          ⟨stub.creator,
            shim.upsert key (strconv.FormatUint balance.INITIAL_FUND) stub.state⟩) := by
      simp [AssetChaincode.initFund, hid, balance.Init, balance.Get, hkey, shim.GetState, hl,
        balance.Put, shim.PutState, hne, balance.ErrFundNotExist]
    rw [hinit]
    refine ⟨by simp [shim.GetState, hl, shim.Success], fun _ => ⟨?_, ?_, rfl, ?_⟩⟩
    · simp [balance.Get, hkey, shim.GetState, shim.lookup_upsert_self, hparse, hfmt,
        balance.INITIAL_FUND]
    · have hid2 : ∀ st, AssetChaincode.getMspID (⟨stub.creator, st⟩ : Stub) = .ok caller :=
        fun _ => hid
      simp [AssetChaincode.getBalance, hid2, balance.Get, hkey, shim.GetState,
        shim.lookup_upsert_self, hparse, hfmt, balance.INITIAL_FUND]
    · intro k hk
      simp [shim.GetState, shim.lookup_upsert_ne _ _ _ _ hk]
  | some b =>
    have hfail : (AssetChaincode.initFund stub []).1.Status = shim.ERROR := by
      cases hp : strconv.ParseUint b 0 with
      | error e =>
        simp [AssetChaincode.initFund, hid, balance.Init, balance.Get, hkey, shim.GetState,
          hl, hp, balance.ErrFundNotExist, shim.Error]
      | ok v =>
        simp [AssetChaincode.initFund, hid, balance.Init, balance.Get, hkey, shim.GetState,
          hl, hp, shim.Error]
    rw [hfail]
    simp [shim.GetState, hl, shim.OK, shim.ERROR]

/-- C10 on the empty ledger: `initFund` by `A` succeeds and `getBalance` then reports
10000. -/
theorem initFund_succeeds_iff_absent_witness :
    (AssetChaincode.initFund ⟨.ok "A", []⟩ []).1.Status = shim.OK ∧
    (AssetChaincode.getBalance (AssetChaincode.initFund ⟨.ok "A", []⟩ []).2 []).1 =
      shim.Success "Current balance for org A is: 10000" :=
  ⟨(initFund_succeeds_iff_absent ⟨.ok "A", []⟩ "A" "\x00fund\x00A\x00" (by decide)
      (by decide)).1.2 (by decide),
   ((initFund_succeeds_iff_absent ⟨.ok "A", []⟩ "A" "\x00fund\x00A\x00" (by decide)
      (by decide)).2 (by decide)).2.1⟩

/-- C5: for every `Asset` record whose price is a `uint64` and every ledger, if
`asset.Put` succeeds then `asset.Get` of the record's name on the resulting ledger succeeds
and returns a record equal to the stored one in all four fields. -/
theorem asset_put_get_roundtrip (a : asset.Asset) (stub stub1 : Stub)
    (hprice : a.Price < 2 ^ 64)
    (hput : asset.Put a stub = .ok stub1) : asset.Get a.Name stub1 = .ok a := by
  unfold asset.Put at hput
  cases hk : shim.CreateCompositeKey asset.ASSET_PREFIX [a.Name] with
  | error e => simp [hk] at hput
  | ok key =>
    have hne := shim.CreateCompositeKey_single_ne_empty _ _ _ hk
    cases hm : json.Marshal a with
    | error e => simp [hk, hm] at hput
    | ok bytes =>
      have hun := json.Unmarshal_Marshal a bytes hprice hm
      simp [hk, hm, shim.PutState, hne] at hput
      subst hput
      simp [asset.Get, hk, shim.GetState, shim.lookup_upsert_self, asset.Unmarshal, hun]

/-- C5 at a record whose owner contains characters that the encoder escapes. -/
theorem asset_put_get_roundtrip_witness :
    asset.Put ⟨"car", "A \"<&>\" \\ \n", "A", 500⟩ ⟨.ok "A", []⟩ =
      .ok ⟨.ok "A", [("\x00asset\x00car\x00",
        "\x7b\"Name\":\"car\",\"Owner\":\"A \\\"\\u003c\\u0026\\u003e\\\" \\\\ \\n\",\"Creator\":\"A\",\"Price\":500\x7d")]⟩ ∧
    asset.Get "car" ⟨.ok "A", [("\x00asset\x00car\x00",
        "\x7b\"Name\":\"car\",\"Owner\":\"A \\\"\\u003c\\u0026\\u003e\\\" \\\\ \\n\",\"Creator\":\"A\",\"Price\":500\x7d")]⟩ =
      .ok ⟨"car", "A \"<&>\" \\ \n", "A", 500⟩ :=
  ⟨by decide,
   asset_put_get_roundtrip ⟨"car", "A \"<&>\" \\ \n", "A", 500⟩ ⟨.ok "A", []⟩ _ (by decide)
    (by decide)⟩

/-- The scenario ledger is the one the operations build: `initFund` by `A`, `createAsset`
of `car` priced 500 by `A`, `initFund` by `B`. -/
theorem scenario_setup :
    AssetChaincode.initFund ⟨.ok "A", []⟩ [] =
      (shim.Success "Balance for org 'A' initialized to 10000",
        ⟨.ok "A", [("\x00fund\x00A\x00", "10000")]⟩) ∧
    AssetChaincode.createAsset id ⟨.ok "A", [("\x00fund\x00A\x00", "10000")]⟩ ["car", "500"] =
      (shim.Success "Asset 'car' created",
        ⟨.ok "A", [("\x00fund\x00A\x00", "10000"), ("\x00asset\x00car\x00", carOfA 500)]⟩) ∧
    AssetChaincode.initFund
        ⟨.ok "B", [("\x00fund\x00A\x00", "10000"), ("\x00asset\x00car\x00", carOfA 500)]⟩ [] =
      (shim.Success "Balance for org 'B' initialized to 10000", scenarioStub) := by
  decide

/-- The purchase scenario of the specification, evaluated: `B` buys `car`, after which
the balances are 9500 and 10500 and `B` owns it; `A` then buys it back successfully, after
which both balances are 10000 and `A` owns it again. -/
theorem scenario_buy_and_buy_back :
    AssetChaincode.buyAsset id scenarioStub ["car"] =
      (shim.Success "Purchase is completed, now you own car!",
        ⟨.ok "B", scenarioSoldStub.state⟩) ∧
    balance.Get "B" scenarioSoldStub = .ok 9500 ∧
    balance.Get "A" scenarioSoldStub = .ok 10500 ∧
    asset.Get "car" scenarioSoldStub = .ok ⟨"car", "B", "A", 500⟩ ∧
    AssetChaincode.buyAsset id scenarioSoldStub ["car"] =
      (shim.Success "Purchase is completed, now you own car!",
        ⟨.ok "A", scenarioStub.state⟩) ∧
    balance.Get "A" scenarioStub = .ok 10000 ∧
    balance.Get "B" scenarioStub = .ok 10000 ∧
    asset.Get "car" scenarioStub = .ok ⟨"car", "A", "A", 500⟩ := by
  decide

/-! ## Decimal numerals: what `ParseUint` accepts and `FormatUint` writes -/

namespace strconv

theorem digit_eq_digitChar (u : Nat) : digit u = Nat.digitChar (u % 10) := by
  have h : u % 10 < 10 := Nat.mod_lt _ (by norm_num)
  unfold digit
  generalize u % 10 = r at h
  interval_cases r <;> rfl

theorem formatBits_eq_toDigitsCore (fuel : Nat) : ∀ (u : Nat) (acc : List Char),
    formatBits fuel u acc = Nat.toDigitsCore 10 fuel u acc := by
  induction fuel with
  | zero => intro u acc; rfl
  | succ f ih =>
    intro u acc
    simp only [formatBits, Nat.toDigitsCore]
    by_cases h10 : 10 ≤ u
    · have : ¬ u / 10 = 0 := by omega
      simp only [h10, if_true, this, if_false, ih, digit_eq_digitChar (u % 10), Nat.mod_mod]
    · have h0 : u / 10 = 0 := by omega
      have hu : u % 10 = u := by omega
      simp only [h10, if_false, h0, if_true, digit_eq_digitChar u, hu]

theorem FormatUint_eq_repr (v : Nat) : FormatUint v = Nat.repr v := by
  unfold FormatUint Nat.repr Nat.toDigits
  rw [formatBits_eq_toDigitsCore]
  rfl

theorem foldl_value_ge (cs : List Char) : ∀ n,
    n ≤ cs.foldl (fun n c => n * 10 + (c.toNat - 48)) n := by
  induction cs with
  | nil => intro n; simp
  | cons c cs ih =>
    intro n
    simp only [List.foldl_cons]
    have := ih (n * 10 + (c.toNat - 48))
    omega

/-- A successful scan has read decimal digits only and returns the number they denote. -/
theorem parseLoop_ok (cs : List Char) : ∀ n m,
    parseLoop (2 ^ 64 - 1) cs n = .ok m →
      (∀ c ∈ cs, 48 ≤ c.toNat ∧ c.toNat ≤ 57) ∧
      m = cs.foldl (fun n c => n * 10 + (c.toNat - 48)) n := by
  induction cs with
  | nil =>
    intro n m h
    simp [parseLoop] at h
    simp [h]
  | cons c cs ih =>
    intro n m h
    simp only [parseLoop, cutoff] at h
    norm_num at h
    split_ifs at h with h1 h2 h3
    obtain ⟨hd, hm⟩ := ih _ m h
    have hn1 : (n * 10 + (c.toNat - 48)) % 18446744073709551616 = n * 10 + (c.toNat - 48) := by
      omega
    rw [hn1] at hm
    refine ⟨?_, by simpa using hm⟩
    intro x hx
    rcases List.mem_cons.mp hx with hx | hx
    · rw [hx]; exact h1
    · exact hd x hx

/-- Decimal digits denoting a value that fits 64 bits are scanned successfully. -/
theorem parseLoop_of_digits (cs : List Char) : ∀ n,
    (∀ c ∈ cs, 48 ≤ c.toNat ∧ c.toNat ≤ 57) →
    cs.foldl (fun n c => n * 10 + (c.toNat - 48)) n < 2 ^ 64 →
    parseLoop (2 ^ 64 - 1) cs n = .ok (cs.foldl (fun n c => n * 10 + (c.toNat - 48)) n) := by
  induction cs with
  | nil => intro n _ _; simp [parseLoop]
  | cons c cs ih =>
    intro n hd hv
    have hc := hd c (List.mem_cons_self _ _)
    simp only [List.foldl_cons] at hv ⊢
    have hge := foldl_value_ge cs (n * 10 + (c.toNat - 48))
    have ih2 := ih (n * 10 + (c.toNat - 48)) (fun x hx => hd x (List.mem_cons_of_mem _ hx)) hv
    norm_num at hv ih2 ⊢
    have hn1 : (n * 10 + (c.toNat - 48)) % 18446744073709551616 = n * 10 + (c.toNat - 48) := by
      omega
    simp only [parseLoop, cutoff]
    norm_num
    rw [hn1, if_pos hc, if_neg (by omega), if_neg (by omega)]
    exact ih2

/-- The texts `ParseUint` accepts for the unsigned type are exactly the decimal texts of
the specification, with their value. -/
theorem ParseUint_ok_iff (s : String) (n : Nat) :
    ParseUint s 0 = .ok n ↔ IsUintDecimal s ∧ decimalValue s.data = n := by
  unfold ParseUint IsUintDecimal decimalValue
  simp only [IntSize, if_true]
  constructor
  · intro h
    split_ifs at h with he
    obtain ⟨hd, hm⟩ := parseLoop_ok _ _ _ h
    have hlt := parseLoop_lt _ _ 0 n (by norm_num) h
    exact ⟨⟨he, hd, by rw [← hm]; exact hlt⟩, hm.symm⟩
  · rintro ⟨⟨he, hd, hv⟩, hn⟩
    rw [if_neg he, ← hn]
    exact parseLoop_of_digits _ 0 hd hv

theorem ParseUint_error_of_not_decimal (s : String) (h : ¬ IsUintDecimal s) :
    ∃ e, ParseUint s 0 = .error e := by
  cases hp : ParseUint s 0 with
  | error e => exact ⟨e, rfl⟩
  | ok n => exact absurd ((ParseUint_ok_iff s n).mp hp).1 h

end strconv

/-! ## Decoding of objects with extra or missing members -/

namespace json

/-- A member whose key names none of the four fields leaves the record as it is. -/
theorem storeMember_no_field (a : asset.Asset) (key : String) (tok : Token)
    (h1 : equalFold "Name" key = false) (h2 : equalFold "Owner" key = false)
    (h3 : equalFold "Creator" key = false) (h4 : equalFold "Price" key = false) :
    storeMember a key tok = .ok a := by
  simp [storeMember, h1, h2, h3, h4]

/-- A member leaves alone every field its key does not match. -/
theorem storeMember_other_fields (a b : asset.Asset) (key : String) (tok : Token)
    (h : storeMember a key tok = .ok b) :
    (equalFold "Name" key = false → b.Name = a.Name) ∧
    (equalFold "Owner" key = false → b.Owner = a.Owner) ∧
    (equalFold "Creator" key = false → b.Creator = a.Creator) ∧
    (equalFold "Price" key = false → b.Price = a.Price) := by
  unfold storeMember at h
  split_ifs at h with hN hO hC hP
  · cases hs : storeString "Name" tok with
    | error e => simp [hs] at h
    | ok v =>
      simp [hs] at h; subst h
      refine ⟨fun hf => ?_, fun _ => rfl, fun _ => rfl, fun _ => rfl⟩
      rw [hN] at hf; cases hf
  · cases hs : storeString "Owner" tok with
    | error e => simp [hs] at h
    | ok v =>
      simp [hs] at h; subst h
      refine ⟨fun _ => rfl, fun hf => ?_, fun _ => rfl, fun _ => rfl⟩
      rw [hO] at hf; cases hf
  · cases hs : storeString "Creator" tok with
    | error e => simp [hs] at h
    | ok v =>
      simp [hs] at h; subst h
      refine ⟨fun _ => rfl, fun _ => rfl, fun hf => ?_, fun _ => rfl⟩
      rw [hC] at hf; cases hf
  · cases hs : storeUint "Price" tok with
    | error e => simp [hs] at h
    | ok v =>
      simp [hs] at h; subst h
      refine ⟨fun _ => rfl, fun _ => rfl, fun _ => rfl, fun hf => ?_⟩
      rw [hP] at hf; cases hf
  · simp at h; subst h
    exact ⟨fun _ => rfl, fun _ => rfl, fun _ => rfl, fun _ => rfl⟩

/-- Dropping the members whose key matches none of the four fields does not change the
outcome of storing the members. -/
theorem storeMembers_filter (ms : List (String × Token)) :
    ∀ z : asset.Asset,
      storeMembers (ms.filter (fun kt => equalFold "Name" kt.1 || equalFold "Owner" kt.1 ||
        equalFold "Creator" kt.1 || equalFold "Price" kt.1)) z = storeMembers ms z := by
  induction ms with
  | nil => intro z; rfl
  | cons kt rest ih =>
    intro z
    obtain ⟨key, tok⟩ := kt
    by_cases hk : (equalFold "Name" key || equalFold "Owner" key ||
        equalFold "Creator" key || equalFold "Price" key) = true
    · rw [List.filter_cons_of_pos (by simpa using hk)]
      simp only [storeMembers]
      cases storeMember z key tok with
      | error e => rfl
      | ok b => exact ih b
    · rw [List.filter_cons_of_neg (by simpa using hk)]
      simp only [Bool.or_eq_true, not_or, Bool.not_eq_true] at hk
      obtain ⟨⟨⟨h1, h2⟩, h3⟩, h4⟩ := hk
      simp only [storeMembers, storeMember_no_field z key tok h1 h2 h3 h4]
      exact ih z

/-- A field that no member names keeps the value it had before decoding. -/
theorem storeMembers_other_fields (ms : List (String × Token)) :
    ∀ z a : asset.Asset, storeMembers ms z = .ok a →
      ((∀ kt ∈ ms, equalFold "Name" kt.1 = false) → a.Name = z.Name) ∧
      ((∀ kt ∈ ms, equalFold "Owner" kt.1 = false) → a.Owner = z.Owner) ∧
      ((∀ kt ∈ ms, equalFold "Creator" kt.1 = false) → a.Creator = z.Creator) ∧
      ((∀ kt ∈ ms, equalFold "Price" kt.1 = false) → a.Price = z.Price) := by
  induction ms with
  | nil =>
    intro z a h
    simp [storeMembers] at h
    subst h
    exact ⟨fun _ => rfl, fun _ => rfl, fun _ => rfl, fun _ => rfl⟩
  | cons kt rest ih =>
    intro z a h
    obtain ⟨key, tok⟩ := kt
    simp only [storeMembers] at h
    cases hs : storeMember z key tok with
    | error e => simp [hs] at h
    | ok b =>
      simp only [hs] at h
      obtain ⟨i1, i2, i3, i4⟩ := ih b a h
      obtain ⟨j1, j2, j3, j4⟩ := storeMember_other_fields z b key tok hs
      refine ⟨fun hall => ?_, fun hall => ?_, fun hall => ?_, fun hall => ?_⟩
      · rw [i1 (fun x hx => hall x (List.mem_cons_of_mem _ hx)),
          j1 (hall (key, tok) (List.mem_cons_self _ _))]
      · rw [i2 (fun x hx => hall x (List.mem_cons_of_mem _ hx)),
          j2 (hall (key, tok) (List.mem_cons_self _ _))]
      · rw [i3 (fun x hx => hall x (List.mem_cons_of_mem _ hx)),
          j3 (hall (key, tok) (List.mem_cons_self _ _))]
      · rw [i4 (fun x hx => hall x (List.mem_cons_of_mem _ hx)),
          j4 (hall (key, tok) (List.mem_cons_self _ _))]

/-- The number scanner stops at a separator after the digits of a formatted integer. -/
theorem scanNumber_FormatUint_sep (u : Nat) (c : Char) (r : List Char)
    (hc : isDigit c = false) (h1 : c ≠ '.') (h2 : c ≠ 'e') (h3 : c ≠ 'E') :
    scanNumber ((strconv.FormatUint u).data ++ c :: r) =
      some ((strconv.FormatUint u).data, c :: r) := by
  have hall := FormatUint_all_digits u
  by_cases hu : 1 ≤ u
  · obtain ⟨d, rest, hd, hne⟩ := FormatUint_head u hu
    rw [hd] at hall ⊢
    have hdd : isDigit d = true := hall d (by simp)
    have hrest := digits_append rest c r (fun y hy => hall y (by simp [hy])) hc
    have g1 : d ≠ '-' := by
      intro h; rw [h] at hdd; exact absurd hdd (by decide)
    have g2 : d ≠ '0' := by
      intro h; rw [h] at hne; exact hne (by decide)
    simp [scanNumber, scanInt, scanFrac, scanExp, g1, g2, hdd, hrest, h1, h2, h3]
  · have h0 : u = 0 := by omega
    subst h0
    have : (strconv.FormatUint 0).data = ['0'] := by decide
    rw [this]
    simp [scanNumber, scanInt, scanFrac, scanExp, h1, h2, h3]

/-- The decoder reads a formatted integer back as a number token, up to the separator. -/
theorem value_number_sep (f u : Nat) (c : Char) (r : List Char)
    (hc : isDigit c = false) (h1 : c ≠ '.') (h2 : c ≠ 'e') (h3 : c ≠ 'E') :
    value (f + 1) ((strconv.FormatUint u).data ++ c :: r) =
      some (Token.number (strconv.FormatUint u), c :: r) := by
  have hscan := scanNumber_FormatUint_sep u c r hc h1 h2 h3
  have hall := FormatUint_all_digits u
  cases hd : (strconv.FormatUint u).data with
  | nil => exact absurd hd (strconv.FormatUint_data_ne_nil u)
  | cons d rest =>
    rw [hd] at hscan hall
    have hdd : isDigit d = true := hall d (by simp)
    have hne : ∀ x : Char, isDigit x = false → d ≠ x := by
      intro x hx h; rw [h, hx] at hdd; exact absurd hdd (by decide)
    have g1 := hne '{' (by decide)
    have g2 := hne '[' (by decide)
    have g3 := hne '"' (by decide)
    have g4 := hne 't' (by decide)
    have g5 := hne 'f' (by decide)
    have g6 := hne 'n' (by decide)
    have hstr : strconv.FormatUint u = ⟨d :: rest⟩ := by
      rw [← hd]
    rw [List.cons_append, value]
    rw [List.cons_append] at hscan
    simp [g1, g2, g3, g4, g5, g6, hscan, hstr]

/-- The decoder reads a rendered scalar back as its token, up to the separator. -/
theorem value_scalar (f : Nat) (v : Scalar) (c : Char) (r : List Char)
    (hc : c = ',' ∨ c = '}') :
    value (f + 1) (v.render ++ c :: r) = some (v.token, c :: r) := by
  have hd : isDigit c = false := by rcases hc with h | h <;> subst h <;> decide
  have h1 : c ≠ '.' := by rcases hc with h | h <;> subst h <;> decide
  have h2 : c ≠ 'e' := by rcases hc with h | h <;> subst h <;> decide
  have h3 : c ≠ 'E' := by rcases hc with h | h <;> subst h <;> decide
  cases v with
  | str s =>
    have := value_string f s.data (c :: r)
    simpa [Scalar.render, Scalar.token, encodeString] using this
  | num n => exact value_number_sep f n c r hd h1 h2 h3
  | bool b =>
    cases b <;> simp [Scalar.render, Scalar.token, value, expect]
  | null => simp [Scalar.render, Scalar.token, value, expect]

/-- A rendered scalar does not start with white space. -/
theorem skipSpace_scalar (v : Scalar) (t : List Char) :
    skipSpace (v.render ++ t) = v.render ++ t := by
  cases v with
  | str s => simp [Scalar.render, encodeString, skipSpace, isSpace]
  | num n =>
    cases hd : (strconv.FormatUint n).data with
    | nil => exact absurd hd (strconv.FormatUint_data_ne_nil n)
    | cons x rest =>
      have hx : isDigit x = true := FormatUint_all_digits n x (by simp [hd])
      simp only [Scalar.render, hd, List.cons_append]
      exact skipSpace_cons _ _ (isSpace_digit x hx)
  | bool b => cases b <;> simp [Scalar.render, skipSpace, isSpace]
  | null => simp [Scalar.render, skipSpace, isSpace]

/-- Rendered members start with the quote of the first key. -/
theorem renderMembers_head (m : String × Scalar) (ms : List (String × Scalar)) :
    ∃ t, renderMembers (m :: ms) = '"' :: t := by
  cases ms with
  | nil => exact ⟨_, by simp [renderMembers, renderMember, encodeString]; rfl⟩
  | cons m2 rest => exact ⟨_, by simp [renderMembers, renderMember, encodeString]; rfl⟩

/-- The decoder reads the rendered members of an object back, in order. -/
theorem pairs_renderMembers (ms : List (String × Scalar)) :
    ∀ (m : String × Scalar) (f : Nat),
      pairs (f + ms.length + 2) (renderMembers (m :: ms)) =
        some ((m :: ms).map (fun kv => (kv.1, kv.2.token)), []) := by
  induction ms with
  | nil =>
    intro m f
    have h := pairs_last (f + 1)
      (m.1.data.flatMap encodeRune ++ '"' :: ':' :: (m.2.render ++ ['}'])) m.1.data
      (m.2.render ++ ['}']) ['}'] [] m.2.token
      (unquote_encode _ _)
      (by rw [skipSpace_scalar]; exact value_scalar f m.2 '}' [] (Or.inr rfl))
      (skipSpace_cons '}' _ (by decide))
    simpa [renderMembers, renderMember, encodeString] using h
  | cons m2 rest ih =>
    intro m f
    obtain ⟨t, ht⟩ := renderMembers_head m2 rest
    have hq : isSpace '"' = false := by decide
    have h := pairs_more (f + rest.length + 2)
      (m.1.data.flatMap encodeRune ++ '"' :: ':' ::
        (m.2.render ++ ',' :: renderMembers (m2 :: rest))) m.1.data
      (m.2.render ++ ',' :: renderMembers (m2 :: rest)) (',' :: renderMembers (m2 :: rest))
      (renderMembers (m2 :: rest)) [] m.2.token
      ((m2 :: rest).map (fun kv => (kv.1, kv.2.token)))
      (unquote_encode _ _)
      (by rw [skipSpace_scalar]
          exact value_scalar (f + rest.length + 1) m.2 ',' _ (Or.inl rfl))
      (skipSpace_cons ',' _ (by decide))
      (by rw [ht, skipSpace_cons _ _ hq, ← ht]; exact ih m2 f)
    have e : f + (m2 :: rest).length + 2 = f + rest.length + 2 + 1 := by
      simp only [List.length_cons]; omega
    rw [e]
    simpa [renderMembers, renderMember, encodeString] using h

/-- Rendered members are at least as long as their number. -/
theorem renderMembers_length (ms : List (String × Scalar)) :
    ms.length ≤ (renderMembers ms).length := by
  induction ms with
  | nil => simp
  | cons m rest ih =>
    cases rest with
    | nil => simp [renderMembers]
    | cons m2 rest2 =>
      simp only [renderMembers, List.length_append, List.length_cons] at ih ⊢
      omega

/-- The decoder stores the members of a rendered object, in order, into the zero record. -/
theorem Unmarshal_renderObject (ms : List (String × Scalar)) :
    Unmarshal (renderObject ms) =
      storeMembers (ms.map (fun kv => (kv.1, kv.2.token))) ⟨"", "", "", 0⟩ := by
  have hbr : isSpace '{' = false := by decide
  have hq : isSpace '"' = false := by decide
  have hne : ('"' : Char) ≠ '}' := by decide
  cases ms with
  | nil =>
    simp [Unmarshal, renderObject, renderMembers, skipSpace, isSpace]
  | cons m rest =>
    obtain ⟨t, ht⟩ := renderMembers_head m rest
    have hlen := renderMembers_length (m :: rest)
    obtain ⟨f, hf⟩ : ∃ f, (renderMembers (m :: rest)).length + 1 + 1 = f + rest.length + 2 :=
      ⟨(renderMembers (m :: rest)).length - rest.length, by
        simp only [List.length_cons] at hlen; omega⟩
    have hpairs := pairs_renderMembers rest m f
    rw [← hf, ht] at hpairs
    simp only [List.length_cons] at hpairs
    simp only [Unmarshal, renderObject, ht, skipSpace, hbr, hq, List.length_cons, if_true,
      Bool.false_eq_true, if_false, if_neg hne, hpairs]

/-- A member whose value the named field accepts is stored without error. -/
theorem storeMember_ok_of_kind (z : asset.Asset) (m : String × Scalar)
    (h : fieldKindOk m = true) : ∃ b, storeMember z m.1 m.2.token = .ok b := by
  obtain ⟨key, v⟩ := m
  unfold fieldKindOk at h
  unfold storeMember
  by_cases hN : equalFold "Name" key = true
  · simp only [hN, Bool.true_or, if_true] at h ⊢
    cases v <;> simp [Scalar.token, storeString] at h ⊢
  · by_cases hO : equalFold "Owner" key = true
    · simp only [hO, Bool.true_or, Bool.or_true, if_true] at h
      simp only [hN, hO, if_true, if_false, Bool.false_eq_true]
      cases v <;> simp [Scalar.token, storeString] at h ⊢
    · by_cases hC : equalFold "Creator" key = true
      · simp only [hC, Bool.or_true, if_true] at h
        simp only [hN, hO, hC, if_true, if_false, Bool.false_eq_true]
        cases v <;> simp [Scalar.token, storeString] at h ⊢
      · by_cases hP : equalFold "Price" key = true
        · simp only [hN, hO, hC, hP, Bool.or_self, if_true, if_false, Bool.false_eq_true,
            Bool.or_false] at h
          simp only [hN, hO, hC, hP, if_true, if_false, Bool.false_eq_true]
          cases v with
          | str s => simp at h
          | bool b => simp at h
          | null => simp [Scalar.token, storeUint]
          | num n =>
            have hn : n < 2 ^ 64 := by simpa using h
            have hparse := strconv.ParseUint_FormatUint n 64 hn (Or.inr rfl)
            simp [Scalar.token, storeUint, hparse]
        · simp only [hN, hO, hC, hP, if_false, Bool.false_eq_true]
          exact ⟨z, rfl⟩

/-- Members whose values the named fields accept are stored without error, whichever
fields they name. -/
theorem storeMembers_ok_of_kinds (ms : List (String × Scalar)) :
    (∀ m ∈ ms, fieldKindOk m = true) → ∀ z : asset.Asset,
      ∃ a, storeMembers (ms.map (fun kv => (kv.1, kv.2.token))) z = .ok a := by
  induction ms with
  | nil => intro _ z; exact ⟨z, rfl⟩
  | cons m rest ih =>
    intro h z
    obtain ⟨b, hb⟩ := storeMember_ok_of_kind z m (h m (List.mem_cons_self _ _))
    obtain ⟨a, ha⟩ := ih (fun x hx => h x (List.mem_cons_of_mem _ hx)) b
    exact ⟨a, by simp only [List.map_cons, storeMembers, hb, ha]⟩

/-- Dropping the members that name no field does not change what a rendered object decodes
to. -/
theorem Unmarshal_renderObject_filter (ms : List (String × Scalar)) :
    Unmarshal (renderObject (ms.filter (fun m => namesField m.1))) =
      Unmarshal (renderObject ms) := by
  rw [Unmarshal_renderObject, Unmarshal_renderObject, ← storeMembers_filter
    (ms.map (fun kv => (kv.1, kv.2.token))), List.filter_map]
  rfl

/-- The only error of storing into a `string` field is a type error for that field. -/
theorem storeString_error (field : String) (tok : Token) (e : GoError)
    (h : storeString field tok = .error e) : ∃ v, e = typeError v field "string" := by
  cases tok <;> simp [storeString] at h <;> exact ⟨_, h.symm⟩

/-- The only error of storing into the `uint64` field is a type error for that field. -/
theorem storeUint_error (field : String) (tok : Token) (e : GoError)
    (h : storeUint field tok = .error e) : ∃ v, e = typeError v field "uint64" := by
  cases tok with
  | number lit =>
    simp only [storeUint] at h
    cases hp : strconv.ParseUint lit 64 with
    | ok n => simp [hp] at h
    | error err => simp [hp] at h; exact ⟨_, h.symm⟩
  | null => simp [storeUint] at h
  | bool b => simp [storeUint] at h; exact ⟨_, h.symm⟩
  | string s => simp [storeUint] at h; exact ⟨_, h.symm⟩
  | array => simp [storeUint] at h; exact ⟨_, h.symm⟩
  | object => simp [storeUint] at h; exact ⟨_, h.symm⟩

/-- Storing a member fails only with a type error for the field its key names. -/
theorem storeMember_error (a : asset.Asset) (key : String) (tok : Token) (e : GoError)
    (h : storeMember a key tok = .error e) :
    ∃ v field ty, field ∈ ["Name", "Owner", "Creator", "Price"] ∧
      equalFold field key = true ∧ e = typeError v field ty := by
  unfold storeMember at h
  split_ifs at h with hN hO hC hP
  · cases hs : storeString "Name" tok with
    | ok v => simp [hs] at h
    | error err =>
      simp [hs] at h; subst h
      obtain ⟨v, hv⟩ := storeString_error _ _ _ hs
      exact ⟨v, "Name", "string", by simp, hN, hv⟩
  · cases hs : storeString "Owner" tok with
    | ok v => simp [hs] at h
    | error err =>
      simp [hs] at h; subst h
      obtain ⟨v, hv⟩ := storeString_error _ _ _ hs
      exact ⟨v, "Owner", "string", by simp, hO, hv⟩
  · cases hs : storeString "Creator" tok with
    | ok v => simp [hs] at h
    | error err =>
      simp [hs] at h; subst h
      obtain ⟨v, hv⟩ := storeString_error _ _ _ hs
      exact ⟨v, "Creator", "string", by simp, hC, hv⟩
  · cases hs : storeUint "Price" tok with
    | ok v => simp [hs] at h
    | error err =>
      simp [hs] at h; subst h
      obtain ⟨v, hv⟩ := storeUint_error _ _ _ hs
      exact ⟨v, "Price", "uint64", by simp, hP, hv⟩

/-- Storing the members of an object fails only with a type error for a field that one of
the members names. -/
theorem storeMembers_error (ms : List (String × Token)) :
    ∀ (z : asset.Asset) (e : GoError), storeMembers ms z = .error e →
      ∃ kt ∈ ms, ∃ v field ty, field ∈ ["Name", "Owner", "Creator", "Price"] ∧
        equalFold field kt.1 = true ∧ e = typeError v field ty := by
  induction ms with
  | nil => intro z e h; simp [storeMembers] at h
  | cons kt rest ih =>
    intro z e h
    obtain ⟨key, tok⟩ := kt
    simp only [storeMembers] at h
    cases hs : storeMember z key tok with
    | error err =>
      simp [hs] at h; subst h
      obtain ⟨v, field, ty, hf, hk, he⟩ := storeMember_error z key tok _ hs
      exact ⟨(key, tok), List.mem_cons_self _ _, v, field, ty, hf, hk, he⟩
    | ok b =>
      simp only [hs] at h
      obtain ⟨kt2, hmem, rest2⟩ := ih b e h
      exact ⟨kt2, List.mem_cons_of_mem _ hmem, rest2⟩

/-- Every error of the decoder is a syntax error (the bytes are not one JSON value), a type
error for a value that is neither an object nor `null`, or a type error for a named field:
no error stands for a missing field. -/
theorem Unmarshal_error (data : String) (e : GoError) (h : Unmarshal data = .error e) :
    e = syntaxError ∨
    (∃ kind, e = .errorf ("json: cannot unmarshal " ++ kind ++
      " into Go value of type asset.Asset")) ∨
    (∃ v field ty, field ∈ ["Name", "Owner", "Creator", "Price"] ∧
      e = typeError v field ty) := by
  unfold Unmarshal at h
  split at h
  · left; exact (Except.error.inj h).symm
  · split_ifs at h with hc
    · split at h
      · left; exact (Except.error.inj h).symm
      · split at h
        · left; exact (Except.error.inj h).symm
        · split_ifs at h with hs
          · obtain ⟨kt, -, v, field, ty, hf, -, he⟩ := storeMembers_error _ _ _ h
            exact Or.inr (Or.inr ⟨v, field, ty, hf, he⟩)
          · left; exact (Except.error.inj h).symm
    · split at h
      · left; exact (Except.error.inj h).symm
      · split_ifs at h with hs
        · split at h
          · cases h
          · exact Or.inr (Or.inl ⟨_, (Except.error.inj h).symm⟩)
        · left; exact (Except.error.inj h).symm

end json

/-! ## Listing stops at an entry that does not decode -/

/-- The listing loop stops at the first entry that does not decode, with an error naming
its key. -/
theorem listLoop_fails_on_bad_entry (entries : List (String × String)) : ∀ acc : List asset.Asset,
    (∃ kv ∈ entries, ∃ e, json.Unmarshal kv.2 = .error e) →
    ∃ kv ∈ entries, ∃ e, json.Unmarshal kv.2 = .error e ∧
      asset.listLoop entries acc =
        .error (.errorf ("failed to unmarshal asset '" ++ kv.1 ++ "': " ++ e.Error)) := by
  induction entries with
  | nil => intro acc h; obtain ⟨kv, hkv, -⟩ := h; simp at hkv
  | cons x rest ih =>
    intro acc h
    cases hx : json.Unmarshal x.2 with
    | error e =>
      exact ⟨x, List.mem_cons_self _ _, e, hx, by simp [asset.listLoop, hx]⟩
    | ok a =>
      obtain ⟨kv, hkv, e, he⟩ := h
      have hrest : ∃ kv ∈ rest, ∃ e, json.Unmarshal kv.2 = .error e := by
        rcases List.mem_cons.mp hkv with h1 | h1
        · rw [h1, hx] at he; cases he
        · exact ⟨kv, h1, e, he⟩
      obtain ⟨kv2, hkv2, e2, he2, hl⟩ := ih (acc ++ [a]) hrest
      exact ⟨kv2, List.mem_cons_of_mem _ hkv2, e2, he2, by simp [asset.listLoop, hx, hl]⟩

/-! ## What a purchase leaves alone -/

namespace AssetChaincode

/-- A successful purchase leaves every ledger entry other than the two balance records and
the asset record as it was. -/
theorem buyAsset_frame (tbl : Char → Char) (stub : Stub) (args : List String)
    (hok : (buyAsset tbl stub args).1.Status = shim.OK) :
    ∃ m ast buyer kb ks ka, args = [m] ∧
      asset.Get (strings.ToLower tbl m) stub = .ok ast ∧ getMspID stub = .ok buyer ∧
      shim.CreateCompositeKey balance.FUND_PREFIX [buyer] = .ok kb ∧
      shim.CreateCompositeKey balance.FUND_PREFIX [ast.Owner] = .ok ks ∧
      shim.CreateCompositeKey asset.ASSET_PREFIX [ast.Name] = .ok ka ∧
      ∀ k, k ≠ kb → k ≠ ks → k ≠ ka →
        shim.GetState (buyAsset tbl stub args).2 k = shim.GetState stub k := by
  rcases buyAsset_effect tbl stub args with ⟨-, hfail⟩ |
    ⟨m, ast, buyer, bb, sb, kb, ks, hargs, hga, hid, -, -, -, -, hkb, hks, hrest⟩
  · exact absurd hok hfail
  · rcases hrest with ⟨-, hfail, -⟩ | ⟨ka, bytes, hka, -, -, hs⟩
    · exact absurd hok hfail
    · refine ⟨m, ast, buyer, kb, ks, ka, hargs, hga, hid, hkb, hks, hka, ?_⟩
      intro k h1 h2 h3
      rw [hs]
      simp [shim.GetState, shim.lookup_upsert_ne _ _ _ _ h3, shim.lookup_upsert_ne _ _ _ _ h2,
        shim.lookup_upsert_ne _ _ _ _ h1]

end AssetChaincode

/-! ## Creation, purchase, listing and decoding: settled claims -/

/-- C11: a successful `createAsset(caller, name, price)` stores under the lower-cased name
the record with that Name, with Owner and Creator both the caller and with the parsed
price; every balance, every other asset record and every other ledger entry is as it was
before. -/
theorem createAsset_writes_one_record (tbl : Char → Char) (stub : Stub)
    (m p caller : String)
    (hid : AssetChaincode.getMspID stub = .ok caller)
    (hok : (AssetChaincode.createAsset tbl stub [m, p]).1.Status = shim.OK) :
    ∃ price, strconv.ParseUint p 0 = .ok price ∧
      asset.Get (strings.ToLower tbl m) (AssetChaincode.createAsset tbl stub [m, p]).2 =
        .ok ⟨strings.ToLower tbl m, caller, caller, price⟩ ∧
      (∀ org, balance.Get org (AssetChaincode.createAsset tbl stub [m, p]).2 =
        balance.Get org stub) ∧
      (∀ n, n ≠ strings.ToLower tbl m →
        asset.Get n (AssetChaincode.createAsset tbl stub [m, p]).2 = asset.Get n stub) ∧
      (∀ ka, shim.CreateCompositeKey asset.ASSET_PREFIX [strings.ToLower tbl m] = .ok ka →
        ∀ k, k ≠ ka →
          shim.GetState (AssetChaincode.createAsset tbl stub [m, p]).2 k =
            shim.GetState stub k) := by
  rcases AssetChaincode.createAsset_effect tbl stub [m, p] with ⟨-, hfail⟩ |
    ⟨m2, p2, price, caller2, ka, bytes, hargs, hp, hid2, hka, -, hm, -, hst⟩
  · exact absurd hok hfail
  · obtain ⟨rfl, rfl⟩ : m = m2 ∧ p = p2 := by simpa using hargs
    have hc : caller2 = caller := by
      rw [hid] at hid2; exact (Except.ok.inj hid2).symm
    subst hc
    have hplt := strconv.ParseUint_lt _ _ _ hp
    rw [hst]
    refine ⟨price, hp, ?_, ?_, ?_, ?_⟩
    · exact asset.Get_upsert_record ⟨strings.ToLower tbl m, caller2, caller2, price⟩ ka bytes
        stub.creator stub hka hm hplt
    · intro org
      exact balance.Get_upsert_asset org _ ka bytes stub.creator stub hka
    · intro n hn
      exact asset.Get_upsert_other_name n _ ka bytes stub.creator stub hka hn
    · intro ka2 hka2 k hk
      have : ka2 = ka := by rw [hka] at hka2; exact (Except.ok.inj hka2).symm
      subst this
      simp [shim.GetState, shim.lookup_upsert_ne _ _ _ _ hk]

theorem createAsset_writes_one_record_witness :
    asset.Get "car"
      (AssetChaincode.createAsset id ⟨.ok "A", [("\x00fund\x00A\x00", "10000")]⟩
        ["Car", "500"]).2 = .ok ⟨"car", "A", "A", 500⟩ := by
  obtain ⟨price, hp, h, -⟩ := createAsset_writes_one_record id
    ⟨.ok "A", [("\x00fund\x00A\x00", "10000")]⟩ "Car" "500" "A" (by decide) (by decide)
  have : price = 500 := by
    have h500 : strconv.ParseUint "500" 0 = .ok 500 := by decide
    rw [h500] at hp; exact (Except.ok.inj hp).symm
  subst this
  exact h

/-- C12 at the ledger where the seller holds `2 ^ 64 - 1` and the asset costs 1: the
purchase succeeds and the seller's stored balance afterwards is 0, not its previous value
plus the price. -/
theorem buyAsset_overflow_seller_not_credited :
    asset.Get "car" overflowStub = .ok ⟨"car", "A", "A", 1⟩ ∧
    balance.Get "A" overflowStub = .ok 18446744073709551615 ∧
    (AssetChaincode.buyAsset id overflowStub ["car"]).1.Status = shim.OK ∧
    balance.Get "A" (AssetChaincode.buyAsset id overflowStub ["car"]).2 = .ok 0 ∧
    balance.Get "A" (AssetChaincode.buyAsset id overflowStub ["car"]).2 ≠
      .ok (18446744073709551615 + 1) := by
  decide

/-- C14: when some entry under the asset prefix holds bytes that do not decode, `asset.List`
fails with an error that names the key of an undecodable entry and returns no records, and
`listAsset` fails with that error, whatever the other entries hold and wherever the entry
stands in the scan. -/
theorem list_fails_on_undecodable_entry (stub : Stub)
    (hbad : ∃ kv ∈ stub.state, shim.inPartialRange "\x00asset\x00" kv.1 = true ∧
      ∃ e, json.Unmarshal kv.2 = .error e) :
    ∃ kv ∈ stub.state, ∃ e, shim.inPartialRange "\x00asset\x00" kv.1 = true ∧
      json.Unmarshal kv.2 = .error e ∧
      asset.List stub =
        .error (.errorf ("failed to unmarshal asset '" ++ kv.1 ++ "': " ++ e.Error)) ∧
      AssetChaincode.listAsset stub [] =
        (shim.Error ("failed to retrieve asset list: " ++
          ("failed to unmarshal asset '" ++ kv.1 ++ "': " ++ e.Error)), stub) := by
  have hkey : shim.CreateCompositeKey asset.ASSET_PREFIX [] = .ok "\x00asset\x00" := by decide
  obtain ⟨kv, hkv, hr, e, he⟩ := hbad
  have hex : ∃ kv ∈ stub.state.filter (fun kv => shim.inPartialRange "\x00asset\x00" kv.1),
      ∃ e, json.Unmarshal kv.2 = .error e :=
    ⟨kv, List.mem_filter.mpr ⟨hkv, hr⟩, e, he⟩
  obtain ⟨kv2, hkv2, e2, he2, hl⟩ := listLoop_fails_on_bad_entry _ [] hex
  obtain ⟨hmem, hr2⟩ := List.mem_filter.mp hkv2
  have hlist : asset.List stub =
      .error (.errorf ("failed to unmarshal asset '" ++ kv2.1 ++ "': " ++ e2.Error)) := by
    simp [asset.List, shim.GetStateByPartialCompositeKey, hkey, hl]
  exact ⟨kv2, hmem, e2, hr2, he2, hlist, by simp [AssetChaincode.listAsset, hlist, GoError.Error]⟩

theorem list_fails_on_undecodable_entry_witness :
    asset.List corruptEntryStub =
      .error (.errorf ("failed to unmarshal asset '\x00asset\x00boat\x00': " ++
        "invalid character or unexpected end of JSON input")) := by
  obtain ⟨kv, hmem, e, hr, he, hl, -⟩ := list_fails_on_undecodable_entry corruptEntryStub
    ⟨("\x00asset\x00boat\x00", "oops"), by decide, by decide, json.syntaxError, by decide⟩
  have h1 : json.Unmarshal (carOfA 500) = .ok ⟨"car", "A", "A", 500⟩ := by decide
  have h3 : json.Unmarshal (carOfA 7) = .ok ⟨"car", "A", "A", 7⟩ := by decide
  have h2 : json.Unmarshal "oops" = .error json.syntaxError := by decide
  have h4 : shim.inPartialRange "\x00asset\x00" "\x00fund\x00A\x00" = false := by decide
  simp only [corruptEntryStub, List.mem_cons, List.mem_singleton, List.not_mem_nil,
    or_false] at hmem
  rcases hmem with h | h | h | h <;> subst h
  · rw [h1] at he; cases he
  · rw [h2] at he; cases he; exact hl
  · rw [h3] at he; cases he
  · rw [h4] at hr; cases hr

/-- C15 as stated fails: an object lacking fields decodes without error, the missing fields
keeping their zero values, through `asset.Unmarshal`, `asset.Get` and `asset.List`. -/
theorem unmarshal_missing_fields_counterexample :
    asset.Unmarshal "\x7b\x7d" = .ok ⟨"", "", "", 0⟩ ∧
    asset.Unmarshal "\x7b\"Name\":\"car\",\"Price\":500\x7d" = .ok ⟨"car", "", "", 500⟩ ∧
    asset.Get "car"
      ⟨.ok "A", [("\x00asset\x00car\x00", "\x7b\"Name\":\"car\",\"Price\":500\x7d")]⟩ =
      .ok ⟨"car", "", "", 500⟩ ∧
    asset.List
      ⟨.ok "A", [("\x00asset\x00car\x00", "\x7b\"Name\":\"car\",\"Price\":500\x7d")]⟩ =
      .ok [⟨"car", "", "", 500⟩] := by
  decide

/-- C15 amended: for every encoded object (members holding strings, unsigned integers,
`true`, `false` or `null`, written as `encoding/json` writes them) in which each member
naming `Name`, `Owner` or `Creator` holds a string or `null` and each member naming `Price`
holds an unsigned 64-bit integer or `null`, decoding by `asset.Unmarshal` succeeds whichever
of the four fields are missing, gives the same record as the object without its extra
members, and leaves every field that no member names at its zero value; `asset.Get` of a
name under whose key the object is stored returns that record, and the decoding step of
`asset.List` appends it.  For bytes of any form, every error of `asset.Unmarshal` is a
syntax error, a type error for a value that is neither an object nor `null`, or a type
error for one of the four fields: none is raised for a missing field. -/
theorem decode_ignores_extra_and_missing_fields (ms : List (String × json.Scalar))
    (hkind : ∀ m ∈ ms, json.fieldKindOk m = true) :
    (∃ a, asset.Unmarshal (json.renderObject ms) = .ok a ∧
      asset.Unmarshal (json.renderObject (ms.filter (fun m => json.namesField m.1))) = .ok a ∧
      ((∀ m ∈ ms, json.equalFold "Name" m.1 = false) → a.Name = "") ∧
      ((∀ m ∈ ms, json.equalFold "Owner" m.1 = false) → a.Owner = "") ∧
      ((∀ m ∈ ms, json.equalFold "Creator" m.1 = false) → a.Creator = "") ∧
      ((∀ m ∈ ms, json.equalFold "Price" m.1 = false) → a.Price = 0) ∧
      (∀ (n k : String) (stub : Stub),
        shim.CreateCompositeKey asset.ASSET_PREFIX [n] = .ok k →
        shim.lookup k stub.state = some (json.renderObject ms) → asset.Get n stub = .ok a) ∧
      (∀ (k : String) (rest : List (String × String)) (acc : List asset.Asset),
        asset.listLoop ((k, json.renderObject ms) :: rest) acc =
          asset.listLoop rest (acc ++ [a])) ∧
      (∀ (k : String) (c : Except GoError String),
        shim.inPartialRange "\x00asset\x00" k = true →
        asset.List ⟨c, [(k, json.renderObject ms)]⟩ = .ok [a])) ∧
    (∀ (data : String) (e : GoError), asset.Unmarshal data = .error e →
      ∃ je, e = .errorf ("failed to unmarshal asset: " ++ je.Error) ∧
        (je = json.syntaxError ∨
         (∃ kind, je = .errorf ("json: cannot unmarshal " ++ kind ++
            " into Go value of type asset.Asset")) ∨
         (∃ v field ty, field ∈ ["Name", "Owner", "Creator", "Price"] ∧
            je = json.typeError v field ty))) := by
  refine ⟨?_, fun data e h => ?_⟩
  swap
  · unfold asset.Unmarshal at h
    cases hj : json.Unmarshal data with
    | ok a => simp [hj] at h
    | error je =>
      simp only [hj] at h
      exact ⟨je, (Except.error.inj h).symm, json.Unmarshal_error data je hj⟩
  obtain ⟨a, ha⟩ := json.storeMembers_ok_of_kinds ms hkind ⟨"", "", "", 0⟩
  have hu : json.Unmarshal (json.renderObject ms) = .ok a := by
    rw [json.Unmarshal_renderObject]; exact ha
  have hf : json.Unmarshal (json.renderObject (ms.filter (fun m => json.namesField m.1))) =
      .ok a := by
    rw [json.Unmarshal_renderObject_filter]; exact hu
  obtain ⟨f1, f2, f3, f4⟩ := json.storeMembers_other_fields _ _ _ ha
  have hall : ∀ F : String, (∀ m ∈ ms, json.equalFold F m.1 = false) →
      ∀ kt ∈ ms.map (fun kv => (kv.1, kv.2.token)), json.equalFold F kt.1 = false := by
    intro F h kt hkt
    obtain ⟨m, hm, rfl⟩ := List.mem_map.mp hkt
    exact h m hm
  have hkey : shim.CreateCompositeKey asset.ASSET_PREFIX [] = .ok "\x00asset\x00" := by decide
  refine ⟨a, by simp [asset.Unmarshal, hu], by simp [asset.Unmarshal, hf],
    fun h => f1 (hall _ h), fun h => f2 (hall _ h), fun h => f3 (hall _ h),
    fun h => f4 (hall _ h), ?_, ?_, ?_⟩
  · intro n k stub hk hl
    simp [asset.Get, hk, shim.GetState, hl, asset.Unmarshal, hu]
  · intro k rest acc
    simp [asset.listLoop, hu]
  · intro k c hr
    simp [asset.List, shim.GetStateByPartialCompositeKey, hkey, hr, asset.listLoop, hu]

/-- C15 amended, on an object with two extra members and only the field `name`: it decodes
to the record of the object without the extra members, with `Owner`, `Creator` and `Price`
at their zero values; an extra member holding an array is ignored as well. -/
theorem decode_ignores_extra_and_missing_fields_witness :
    (∃ a, asset.Unmarshal "\x7b\"Colour\":\"red\",\"name\":\"car\",\"Doors\":4\x7d" = .ok a ∧
      asset.Unmarshal "\x7b\"name\":\"car\"\x7d" = .ok a ∧ a.Owner = "" ∧ a.Creator = "" ∧
      a.Price = 0) ∧
    asset.Unmarshal "\x7b\"Doors\":[4,true],\"name\":\"car\"\x7d" = .ok ⟨"car", "", "", 0⟩ := by
  refine ⟨?_, by decide⟩
  obtain ⟨a, h1, h2, -, h4, h5, h6, -⟩ := (decode_ignores_extra_and_missing_fields
    [("Colour", .str "red"), ("name", .str "car"), ("Doors", .num 4)] (by decide)).1
  have e1 : json.renderObject [("Colour", .str "red"), ("name", .str "car"), ("Doors", .num 4)]
      = "\x7b\"Colour\":\"red\",\"name\":\"car\",\"Doors\":4\x7d" := by decide
  have e2 : json.renderObject
      (([("Colour", .str "red"), ("name", .str "car"), ("Doors", .num 4)] :
        List (String × json.Scalar)).filter (fun m => json.namesField m.1))
      = "\x7b\"name\":\"car\"\x7d" := by decide
  rw [e1] at h1
  rw [e2] at h2
  exact ⟨a, h1, h2, h4 (by decide), h5 (by decide), h6 (by decide)⟩

/-- C16: when the asset exists, the caller is not its owner and holds enough funds, but the
owner's balance cannot be read (it is missing or unreadable), `buyAsset` fails with the
seller-balance error and the ledger is unchanged; more generally a `buyAsset` that changes
the ledger has read the asset and both balances successfully first, so every read comes
before the first write. -/
theorem buyAsset_seller_balance_unreadable (tbl : Char → Char) (stub : Stub)
    (name caller : String) (ast : asset.Asset) (bb : Nat) (e : GoError)
    (hget : asset.Get (strings.ToLower tbl name) stub = .ok ast)
    (hid : AssetChaincode.getMspID stub = .ok caller)
    (hown : ast.Owner ≠ caller)
    (hbb : balance.Get caller stub = .ok bb)
    (hcover : ast.Price ≤ bb)
    (hsb : balance.Get ast.Owner stub = .error e) :
    AssetChaincode.buyAsset tbl stub [name] =
      (shim.Error ("failed to get seller balance: " ++ e.Error), stub) ∧
    ∀ args, (AssetChaincode.buyAsset tbl stub args).2 ≠ stub →
      ∃ m a b s, args = [m] ∧ asset.Get (strings.ToLower tbl m) stub = .ok a ∧
        balance.Get caller stub = .ok b ∧ balance.Get a.Owner stub = .ok s := by
  constructor
  · have hnlt : ¬ bb < ast.Price := by omega
    simp [AssetChaincode.buyAsset, hget, hid, hown, hbb, hnlt, hsb]
  · intro args hne
    rcases AssetChaincode.buyAsset_effect tbl stub args with ⟨hsame, -⟩ |
      ⟨m, a, buyer, b, s, kb, ks, hargs, hga, hid2, -, hb, -, hs, -⟩
    · exact absurd hsame hne
    · have hc : buyer = caller := by
        rw [hid] at hid2; exact (Except.ok.inj hid2).symm
      subst hc
      exact ⟨m, a, b, s, hargs, hga, hb, hs⟩

theorem buyAsset_seller_balance_unreadable_witness :
    AssetChaincode.buyAsset id
        ⟨.ok "B", [("\x00asset\x00car\x00", carOfA 500), ("\x00fund\x00B\x00", "10000")]⟩
        ["car"] =
      (shim.Error "failed to get seller balance: fund not exists",
        ⟨.ok "B", [("\x00asset\x00car\x00", carOfA 500), ("\x00fund\x00B\x00", "10000")]⟩) :=
  (buyAsset_seller_balance_unreadable id
    ⟨.ok "B", [("\x00asset\x00car\x00", carOfA 500), ("\x00fund\x00B\x00", "10000")]⟩
    "car" "B" ⟨"car", "A", "A", 500⟩ 10000 .fundNotExist
    (by decide) (by decide) (by decide) (by decide) (by decide) (by decide)).1

/-- C17: `balance.Put(org, v)` for an unsigned 64-bit `v` stores under the balance key of
`org` the decimal text of `v` (digits only, denoting `v`), and `balance.Get(org)` on the
resulting ledger returns `v`. -/
theorem balance_put_get_roundtrip (org : String) (v : Nat) (stub stub1 : Stub)
    (hv : v < 2 ^ 64) (hput : balance.Put org v stub = .ok stub1) :
    ∃ key, shim.CreateCompositeKey balance.FUND_PREFIX [org] = .ok key ∧
      shim.GetState stub1 key = .ok (some (strconv.FormatUint v)) ∧
      strconv.FormatUint v = Nat.repr v ∧
      (∀ c ∈ (strconv.FormatUint v).data, 48 ≤ c.toNat ∧ c.toNat ≤ 57) ∧
      strconv.decimalValue (strconv.FormatUint v).data = v ∧
      balance.Get org stub1 = .ok v := by
  cases hk : shim.CreateCompositeKey balance.FUND_PREFIX [org] with
  | error e => simp [balance.Put, hk] at hput
  | ok key =>
    rw [balance.Put_eq org key v stub hk] at hput
    have hst := (Except.ok.inj hput).symm
    subst hst
    obtain ⟨⟨-, hd, -⟩, hval⟩ :=
      (strconv.ParseUint_ok_iff _ _).mp (strconv.ParseUint_FormatUint v 0 hv (Or.inl rfl))
    exact ⟨key, rfl, by simp [shim.GetState, shim.lookup_upsert_self],
      strconv.FormatUint_eq_repr v, hd, hval,
      balance.Get_upsert_self org key v stub.creator stub.state hv hk⟩

theorem balance_put_get_roundtrip_witness :
    shim.GetState ⟨.ok "A", [("\x00fund\x00A\x00", "9500")]⟩ "\x00fund\x00A\x00" =
      .ok (some "9500") ∧
    balance.Get "A" ⟨.ok "A", [("\x00fund\x00A\x00", "9500")]⟩ = .ok 9500 := by
  obtain ⟨key, hk, h1, -, -, -, h2⟩ := balance_put_get_roundtrip "A" 9500
    ⟨.ok "A", [("\x00fund\x00A\x00", "10000")]⟩ ⟨.ok "A", [("\x00fund\x00A\x00", "9500")]⟩
    (by decide) (by decide)
  have hkey : key = "\x00fund\x00A\x00" := by
    have : shim.CreateCompositeKey balance.FUND_PREFIX ["A"] = .ok "\x00fund\x00A\x00" := by
      decide
    rw [this] at hk; exact (Except.ok.inj hk).symm
  subst hkey
  exact ⟨h1, h2⟩

/-- C18: when the price argument is not the decimal text of an unsigned 64-bit integer,
`createAsset` fails with the invalid-price error built from the parse error and returns the
ledger it was given: the price is parsed before the caller's identity or the ledger is
looked at. -/
theorem createAsset_invalid_price (tbl : Char → Char) (stub : Stub) (name priceArg : String)
    (hbad : ¬ strconv.IsUintDecimal priceArg) :
    ∃ e, strconv.ParseUint priceArg 0 = .error e ∧
      AssetChaincode.createAsset tbl stub [name, priceArg] =
        (shim.Error ("failed to extract price from arg '" ++ priceArg ++ "': " ++
          e.Error priceArg), stub) := by
  obtain ⟨e, he⟩ := strconv.ParseUint_error_of_not_decimal priceArg hbad
  exact ⟨e, he, by simp [AssetChaincode.createAsset, he]⟩

theorem createAsset_invalid_price_witness :
    AssetChaincode.createAsset id scenarioStub ["boat", ""] =
      (shim.Error
        "failed to extract price from arg '': strconv.ParseUint: parsing \"\": invalid syntax",
        scenarioStub) ∧
    AssetChaincode.createAsset id scenarioStub ["boat", "-1"] =
      (shim.Error
        "failed to extract price from arg '-1': strconv.ParseUint: parsing \"-1\": invalid syntax",
        scenarioStub) ∧
    AssetChaincode.createAsset id scenarioStub ["boat", "18446744073709551616"] =
      (shim.Error ("failed to extract price from arg '18446744073709551616': " ++
        "strconv.ParseUint: parsing \"18446744073709551616\": value out of range"),
        scenarioStub) := by
  obtain ⟨e1, he1, h1⟩ := createAsset_invalid_price id scenarioStub "boat" "" (by decide)
  obtain ⟨e2, he2, h2⟩ := createAsset_invalid_price id scenarioStub "boat" "-1" (by decide)
  obtain ⟨e3, he3, h3⟩ :=
    createAsset_invalid_price id scenarioStub "boat" "18446744073709551616" (by decide)
  have g1 : strconv.ParseUint "" 0 = .error .ErrSyntax := by decide
  have g2 : strconv.ParseUint "-1" 0 = .error .ErrSyntax := by decide
  have g3 : strconv.ParseUint "18446744073709551616" 0 = .error .ErrRange := by decide
  rw [g1] at he1; rw [g2] at he2; rw [g3] at he3
  cases he1; cases he2; cases he3
  exact ⟨h1, h2, h3⟩

/-! ## The ledger invariant -/

/-- Writing a balance keeps the ledger invariant. -/
theorem LedgerInv.of_upsert_fund (P : String → Prop) (st : List (String × String))
    (org k v : String) (h : LedgerInv P st)
    (hk : shim.CreateCompositeKey balance.FUND_PREFIX [org] = .ok k) :
    LedgerInv P (shim.upsert k v st) := by
  refine ⟨shim.upsert_keys_nodup k v st h.1, ?_⟩
  intro kv hkv hr
  rcases shim.mem_upsert k v st kv hkv with rfl | hmem
  · have := shim.fund_key_not_in_asset_range org k hk
    simp only [] at hr
    rw [this] at hr; cases hr
  · exact h.2 kv hmem hr

/-- Writing a marshalled record under the key of its own Name keeps the ledger invariant. -/
theorem LedgerInv.of_upsert_asset (P : String → Prop) (st : List (String × String))
    (r : asset.Asset) (ka bytes : String) (h : LedgerInv P st)
    (hka : shim.CreateCompositeKey asset.ASSET_PREFIX [r.Name] = .ok ka)
    (hm : json.Marshal r = .ok bytes) (hp : r.Price < 2 ^ 64) (hP : P r.Name) :
    LedgerInv P (shim.upsert ka bytes st) := by
  refine ⟨shim.upsert_keys_nodup ka bytes st h.1, ?_⟩
  intro kv hkv hr
  rcases shim.mem_upsert ka bytes st kv hkv with rfl | hmem
  · exact ⟨r, json.Unmarshal_Marshal r bytes hp hm, hka, hP⟩
  · exact h.2 kv hmem hr

/-- Under the ledger invariant a record read by name carries that name. -/
theorem LedgerInv.get_name (P : String → Prop) (st : List (String × String))
    (c : Except GoError String) (m : String) (b : asset.Asset) (h : LedgerInv P st)
    (hget : asset.Get m ⟨c, st⟩ = .ok b) : b.Name = m ∧ P b.Name := by
  obtain ⟨k, v, hk, hl, hu⟩ := asset.Get_entry m ⟨c, st⟩ b hget
  have hmem := shim.lookup_mem k v st hl
  obtain ⟨a, ha, hka, hP⟩ := h.2 (k, v) hmem (shim.asset_key_in_asset_range m k hk)
  have hab : a = b := by
    simp only [] at ha
    rw [hu] at ha; exact (Except.ok.inj ha).symm
  subst hab
  exact ⟨shim.CreateCompositeKey_single_inj _ _ _ _ hka hk, hP⟩

/-- Every invocation keeps the ledger invariant, for any property that lower-cased names
have. -/
theorem LedgerInv.after_invoke (tbl : Char → Char) (P : String → Prop)
    (hP : ∀ m, P (strings.ToLower tbl m)) (stub : Stub) (function : String)
    (args : List String) (h : LedgerInv P stub.state) :
    LedgerInv P (AssetChaincode.Invoke tbl stub function args).2.state := by
  rcases AssetChaincode.Invoke_cases tbl stub function args with
    ⟨-, hi⟩ | ⟨-, hi⟩ | ⟨-, hi⟩ | ⟨-, hi⟩
  · rw [hi]
    rcases AssetChaincode.initFund_effect stub args with ⟨hs, -⟩ | ⟨org, k, -, hk, -, -, hs⟩
    · rw [hs]; exact h
    · rw [hs]; exact LedgerInv.of_upsert_fund P _ org k _ h hk
  · rw [hi]
    rcases AssetChaincode.createAsset_effect tbl stub args with ⟨hs, -⟩ |
      ⟨m, p, price, caller, ka, bytes, -, hp, -, hka, -, hm, -, hs⟩
    · rw [hs]; exact h
    · rw [hs]
      exact LedgerInv.of_upsert_asset P _ ⟨strings.ToLower tbl m, caller, caller, price⟩ ka bytes h
        hka hm (strconv.ParseUint_lt _ _ _ hp) (hP m)
  · rw [hi]
    rcases AssetChaincode.buyAsset_effect tbl stub args with ⟨hs, -⟩ |
      ⟨m, ast, buyer, bb, sb, kb, ks, -, hget, -, -, hbb, hle, -, hkb, hks, hrest⟩
    · rw [hs]; exact h
    · have h2 : LedgerInv P (shim.upsert ks (strconv.FormatUint ((sb + ast.Price) % 2 ^ 64))
          (shim.upsert kb (strconv.FormatUint (bb - ast.Price)) stub.state)) :=
        LedgerInv.of_upsert_fund P _ ast.Owner ks _
          (LedgerInv.of_upsert_fund P _ buyer kb _ h hkb) hks
      rcases hrest with ⟨-, -, hs⟩ | ⟨ka, bytes, hka, hm, -, hs⟩
      · rw [hs]; exact h2
      · rw [hs]
        have hlt := balance.Get_lt _ _ _ hbb
        have hname := LedgerInv.get_name P stub.state stub.creator _ ast h hget
        exact LedgerInv.of_upsert_asset P _ ⟨ast.Name, buyer, ast.Creator, ast.Price⟩ ka bytes h2
          hka hm (lt_of_le_of_lt hle hlt) hname.2
  · rw [hi]; exact h

/-- Every reachable ledger satisfies the ledger invariant. -/
theorem Reachable.ledgerInv (tbl : Char → Char) (P : String → Prop)
    (hP : ∀ m, P (strings.ToLower tbl m)) (st : List (String × String))
    (bought : List String) (h : Reachable tbl st bought) : LedgerInv P st := by
  induction h with
  | empty => exact ⟨by simp, by simp⟩
  | invoke st bought creator function args _ ih =>
    exact LedgerInv.after_invoke tbl P hP ⟨creator, st⟩ function args ih

namespace strings

/-- Lower-casing with the identity table (ASCII letters only) is idempotent. -/
theorem lowerRune_id_idem (c : Char) : lowerRune id (lowerRune id c) = lowerRune id c := by
  unfold lowerRune
  by_cases h1 : c.toNat < 128
  · by_cases h2 : 65 ≤ c.toNat ∧ c.toNat ≤ 90
    · have hv : (Char.ofNat (c.toNat + 32)).toNat = c.toNat + 32 := by
        obtain ⟨h65, h90⟩ := h2
        generalize c.toNat = n at h65 h90
        interval_cases n <;> rfl
      have h3 : c.toNat + 32 < 128 := by omega
      have h4 : ¬ (65 ≤ c.toNat + 32 ∧ c.toNat + 32 ≤ 90) := by omega
      rw [if_pos h1, if_pos h2, hv, if_pos h3, if_neg h4]
    · rw [if_pos h1, if_neg h2, if_pos h1, if_neg h2]
  · rw [if_neg h1]
    simp only [id, if_neg h1]

/-- Lower-casing a lower-cased string changes nothing when the case table is idempotent. -/
theorem ToLower_idem (tbl : Char → Char)
    (htbl : ∀ c, lowerRune tbl (lowerRune tbl c) = lowerRune tbl c) (s : String) :
    ToLower tbl (ToLower tbl s) = ToLower tbl s := by
  unfold ToLower
  simp only [List.map_map]
  congr 1
  apply List.map_congr_left
  intro c _
  exact htbl c

end strings

/-! ## Records and balances across an invocation -/

namespace AssetChaincode

/-- An invocation leaves a record as it is, unless it is a successful purchase of that
record, which replaces the owner by the caller; the record a purchase names is assumed to
be stored under the key of its own Name. -/
theorem record_after_invoke (tbl : Char → Char) (stub : Stub)
    (function : String) (args : List String) (n : String) (a : asset.Asset)
    (hwk : ∀ m b, args = [m] → asset.Get (strings.ToLower tbl m) stub = .ok b →
      b.Name = strings.ToLower tbl m)
    (hget : asset.Get n stub = .ok a) :
    asset.Get n (Invoke tbl stub function args).2 = .ok a ∨
    (function = "BuyAsset" ∧
      (Invoke tbl stub function args).1.Status = shim.OK ∧
      ∃ m caller, args = [m] ∧ strings.ToLower tbl m = n ∧
        getMspID stub = .ok caller ∧ a.Owner ≠ caller ∧
        asset.Get n (Invoke tbl stub function args).2 =
          .ok ⟨a.Name, caller, a.Creator, a.Price⟩) := by
  rcases Invoke_cases tbl stub function args with
    ⟨-, hi⟩ | ⟨-, hi⟩ | ⟨hf, hi⟩ | ⟨-, hi⟩
  · left
    rw [hi]
    rcases initFund_effect stub args with ⟨hs, -⟩ | ⟨org, k, -, hk, -, -, hs⟩
    · rw [hs]; exact hget
    · rw [hs, asset.Get_upsert_fund n org k _ stub.creator stub hk]; exact hget
  · left
    rw [hi]
    rcases createAsset_effect tbl stub args with ⟨hs, -⟩ |
      ⟨m, p, price, caller, ka, bytes, -, -, -, hka, hnone, -, -, hs⟩
    · rw [hs]; exact hget
    · have hne : n ≠ strings.ToLower tbl m := by
        intro heq
        obtain ⟨k, v, hk, hl, -⟩ := asset.Get_entry n stub a hget
        rw [heq, hka] at hk
        cases hk
        rw [hnone] at hl; cases hl
      rw [hs, asset.Get_upsert_other_name n _ ka bytes stub.creator stub hka hne]
      exact hget
  · rw [hi]
    rcases buyAsset_effect tbl stub args with ⟨hs, -⟩ |
      ⟨m, ast, buyer, bb, sb, kb, ks, hargs, hga, hid, hown, hbb, hle, -, hkb, hks, hrest⟩
    · left; rw [hs]; exact hget
    · have hfunds : asset.Get n ⟨stub.creator,
          shim.upsert ks (strconv.FormatUint ((sb + ast.Price) % 2 ^ 64))
            (shim.upsert kb (strconv.FormatUint (bb - ast.Price)) stub.state)⟩ = .ok a := by
        rw [asset.Get_upsert_fund n ast.Owner ks _ stub.creator
          ⟨stub.creator, shim.upsert kb (strconv.FormatUint (bb - ast.Price)) stub.state⟩ hks,
          asset.Get_upsert_fund n buyer kb _ stub.creator stub hkb]
        exact hget
      rcases hrest with ⟨-, -, hs⟩ | ⟨ka, bytes, hka, hm, hresp, hs⟩
      · left; rw [hs]; exact hfunds
      · have hname := hwk m ast hargs hga
        by_cases hn : n = ast.Name
        · right
          have hna : strings.ToLower tbl m = n := by rw [hn, hname]
          have haa : ast = a := by
            rw [hna, hget] at hga; exact (Except.ok.inj hga).symm
          subst haa
          have hlt := balance.Get_lt _ _ _ hbb
          refine ⟨hf, by rw [hresp]; rfl, m, buyer, hargs, hna, hid, hown, ?_⟩
          rw [hs, hn]
          exact asset.Get_upsert_record ⟨ast.Name, buyer, ast.Creator, ast.Price⟩ ka bytes
            stub.creator ⟨stub.creator, _⟩ hka hm (lt_of_le_of_lt hle hlt)
        · left
          rw [hs]
          rw [asset.Get_upsert_other_name n ast.Name ka bytes stub.creator
            ⟨stub.creator, shim.upsert ks (strconv.FormatUint ((sb + ast.Price) % 2 ^ 64))
              (shim.upsert kb (strconv.FormatUint (bb - ast.Price)) stub.state)⟩ hka hn]
          exact hfunds
  · left; rw [hi]; exact hget

/-- No operation removes a balance record. -/
theorem balance_after_invoke (tbl : Char → Char) (stub : Stub) (function : String)
    (args : List String) (org : String) (v : Nat) (h : balance.Get org stub = .ok v) :
    ∃ w, balance.Get org (Invoke tbl stub function args).2 = .ok w := by
  have h10 : balance.INITIAL_FUND < 2 ^ 64 := by decide
  rcases Invoke_cases tbl stub function args with
    ⟨-, hi⟩ | ⟨-, hi⟩ | ⟨-, hi⟩ | ⟨-, hi⟩
  · rw [hi]
    rcases initFund_effect stub args with ⟨hs, -⟩ | ⟨o, k, -, hk, -, -, hs⟩
    · rw [hs]; exact ⟨v, h⟩
    · rw [hs]; exact balance.Get_ok_upsert_fund org o k _ v stub.creator stub hk h10 h
  · rw [hi]
    rcases createAsset_effect tbl stub args with ⟨hs, -⟩ |
      ⟨m, p, price, caller, ka, bytes, -, -, -, hka, -, -, -, hs⟩
    · rw [hs]; exact ⟨v, h⟩
    · rw [hs, balance.Get_upsert_asset org _ ka bytes stub.creator stub hka]; exact ⟨v, h⟩
  · rw [hi]
    rcases buyAsset_effect tbl stub args with ⟨hs, -⟩ |
      ⟨m, ast, buyer, bb, sb, kb, ks, -, -, -, -, hbb, -, -, hkb, hks, hrest⟩
    · rw [hs]; exact ⟨v, h⟩
    · have hlt := balance.Get_lt _ _ _ hbb
      obtain ⟨w1, hw1⟩ := balance.Get_ok_upsert_fund org buyer kb (bb - ast.Price) v
        stub.creator stub hkb (by omega) h
      obtain ⟨w2, hw2⟩ := balance.Get_ok_upsert_fund org ast.Owner ks
        ((sb + ast.Price) % 2 ^ 64) w1 stub.creator
        ⟨stub.creator, shim.upsert kb (strconv.FormatUint (bb - ast.Price)) stub.state⟩ hks
        (Nat.mod_lt _ (by norm_num)) hw1
      rcases hrest with ⟨-, -, hs⟩ | ⟨ka, bytes, hka, -, -, hs⟩
      · rw [hs]; exact ⟨w2, hw2⟩
      · rw [hs, balance.Get_upsert_asset org _ ka bytes stub.creator ⟨stub.creator, _⟩ hka]
        exact ⟨w2, hw2⟩
  · rw [hi]; exact ⟨v, h⟩

end AssetChaincode

namespace AssetChaincode

/-- Only `InitFund` and `BuyAsset` change what a balance lookup returns. -/
theorem balance_changed_by (tbl : Char → Char) (stub : Stub) (function : String)
    (args : List String) (org : String)
    (h : balance.Get org (Invoke tbl stub function args).2 ≠ balance.Get org stub) :
    function = "InitFund" ∨ function = "BuyAsset" := by
  by_contra hcon
  simp only [not_or] at hcon
  obtain ⟨h1, h2⟩ := hcon
  apply h
  unfold Invoke
  rw [if_neg h1]
  split_ifs with hg hc hl
  · rw [getBalance_effect]
  · rcases createAsset_effect tbl stub args with ⟨hs, -⟩ |
      ⟨m, p, price, caller, ka, bytes, -, -, -, hka, -, -, -, hs⟩
    · rw [hs]
    · rw [hs, balance.Get_upsert_asset org _ ka bytes stub.creator stub hka]
  · rw [listAsset_effect]
  · rfl

/-- After an invocation, a record stored under its own name whose owner had a balance is
still stored, and its owner, the old one or the buyer, has a balance. -/
theorem owner_funded_after_invoke (tbl : Char → Char) (stub : Stub) (function : String)
    (args : List String) (n : String) (a : asset.Asset) (v : Nat)
    (hwk : ∀ m b, asset.Get m stub = .ok b → b.Name = m)
    (hget : asset.Get n stub = .ok a) (hbal : balance.Get a.Owner stub = .ok v) :
    ∃ a1 v1, asset.Get n (Invoke tbl stub function args).2 = .ok a1 ∧
      balance.Get a1.Owner (Invoke tbl stub function args).2 = .ok v1 := by
  rcases record_after_invoke tbl stub function args n a (fun m b _ h => hwk _ b h) hget with
    hsame |
    ⟨hf, hok, m, caller, hargs, -, hid, -, hnew⟩
  · obtain ⟨w, hw⟩ := balance_after_invoke tbl stub function args a.Owner v hbal
    exact ⟨a, w, hsame, hw⟩
  · have hinv : Invoke tbl stub function args = buyAsset tbl stub [m] := by
      subst hf; subst hargs; simp [Invoke]
    rw [hinv] at hok
    obtain ⟨ast, bb, sb, ka, -, -, -, hbb, -, -⟩ := buyAsset_ok_inv tbl stub m caller hid hok
    obtain ⟨w, hw⟩ := balance_after_invoke tbl stub function args caller bb hbb
    exact ⟨_, w, hnew, hw⟩

end AssetChaincode

/-- Along every reachable history, each asset bought so far is stored and its owner has a
balance. -/
theorem Reachable.bought_owner_funded (tbl : Char → Char) (st : List (String × String))
    (bought : List String) (h : Reachable tbl st bought) :
    ∀ n ∈ bought, ∀ c, ∃ a v, asset.Get n ⟨c, st⟩ = .ok a ∧
      balance.Get a.Owner ⟨c, st⟩ = .ok v := by
  induction h with
  | empty => intro n hn; simp at hn
  | invoke st bought creator function args hr ih =>
    have hwk : ∀ m b, asset.Get m ⟨creator, st⟩ = .ok b → b.Name = m := fun m b hb =>
      (LedgerInv.get_name (fun _ => True) st creator m b
        (Reachable.ledgerInv tbl (fun _ => True) (fun _ => trivial) st bought hr) hb).1
    have hold : ∀ n ∈ bought, ∀ c, ∃ a v,
        asset.Get n ⟨c, (AssetChaincode.Invoke tbl ⟨creator, st⟩ function args).2.state⟩ =
          .ok a ∧
        balance.Get a.Owner
          ⟨c, (AssetChaincode.Invoke tbl ⟨creator, st⟩ function args).2.state⟩ = .ok v := by
      intro n hn c
      obtain ⟨a, v, ha, hv⟩ := ih n hn creator
      exact AssetChaincode.owner_funded_after_invoke tbl ⟨creator, st⟩ function args n a v
        hwk ha hv
    intro n hn c
    unfold purchased at hn
    split_ifs at hn with hcond
    · obtain ⟨hf, hok⟩ := hcond
      cases args with
      | nil => exact hold n hn c
      | cons m rest =>
        cases rest with
        | cons m2 rest2 => exact hold n hn c
        | nil =>
          rcases List.mem_cons.mp hn with hnew | hmem
          · have hinv : AssetChaincode.Invoke tbl ⟨creator, st⟩ function [m] =
                AssetChaincode.buyAsset tbl ⟨creator, st⟩ [m] := by
              subst hf; simp [AssetChaincode.Invoke]
            rw [hinv] at hok
            rcases AssetChaincode.buyAsset_effect tbl ⟨creator, st⟩ [m] with ⟨-, hfail⟩ |
              ⟨m2, ast, buyer, bb, sb, kb, ks, hargs, hga, -, -, -, -, hsb, -⟩
            · exact absurd hok hfail
            · obtain rfl : m = m2 := by simpa using hargs
              rw [hnew]
              exact AssetChaincode.owner_funded_after_invoke tbl ⟨creator, st⟩ function [m]
                _ ast sb hwk hga hsb
          · exact hold n hmem c
    · exact hold n hn c

/-! ## Records across operations and reachable ledgers: settled claims -/

/-- C13 as stated fails: on a ledger where the record stored under the key of `car` carries
the Name `boat`, a successful `BuyAsset` of `car` by `B` rewrites the record `boat`, its
Creator and Price included. -/
theorem asset_record_changes_only_owner_counterexample :
    asset.Get "boat" misKeyedStub = .ok ⟨"boat", "Z", "Z", 999⟩ ∧
    (AssetChaincode.Invoke id misKeyedStub "BuyAsset" ["car"]).1.Status = shim.OK ∧
    asset.Get "boat" (AssetChaincode.Invoke id misKeyedStub "BuyAsset" ["car"]).2 =
      .ok ⟨"boat", "B", "A", 5⟩ := by
  decide

/-- C13 amended: for every asset record present in the ledger and any invocation of the
chaincode (`InitFund`, `GetBalance`, `CreateAsset`, `ListAsset`, `BuyAsset` or an unknown
function, successful or not), provided the record that the invocation's argument names is
stored under the key of its own Name (as every record of a reachable ledger is), either the
record read back afterwards is the same record, or the invocation is a successful `BuyAsset`
of that asset by a caller other than its owner and the record afterwards has the same Name,
Creator and Price and the caller as Owner. -/
theorem asset_record_changes_only_owner (tbl : Char → Char) (stub : Stub)
    (function : String) (args : List String) (n : String) (a : asset.Asset)
    (hwk : ∀ m b, args = [m] → asset.Get (strings.ToLower tbl m) stub = .ok b →
      b.Name = strings.ToLower tbl m)
    (hget : asset.Get n stub = .ok a) :
    asset.Get n (AssetChaincode.Invoke tbl stub function args).2 = .ok a ∨
    (function = "BuyAsset" ∧
      (AssetChaincode.Invoke tbl stub function args).1.Status = shim.OK ∧
      ∃ m caller, args = [m] ∧ strings.ToLower tbl m = n ∧
        AssetChaincode.getMspID stub = .ok caller ∧ a.Owner ≠ caller ∧
        asset.Get n (AssetChaincode.Invoke tbl stub function args).2 =
          .ok ⟨a.Name, caller, a.Creator, a.Price⟩) :=
  AssetChaincode.record_after_invoke tbl stub function args n a hwk hget

/-- C13 amended on the scenario ledger: `InitFund` by `B` leaves the record `car` as it is,
`BuyAsset` of `Car` by `B` changes its Owner to `B` and nothing else. -/
theorem asset_record_changes_only_owner_witness :
    asset.Get "car" scenarioStub = .ok ⟨"car", "A", "A", 500⟩ ∧
    asset.Get "car" (AssetChaincode.Invoke id scenarioStub "InitFund" []).2 =
      .ok ⟨"car", "A", "A", 500⟩ ∧
    asset.Get "car" (AssetChaincode.Invoke id scenarioStub "BuyAsset" ["Car"]).2 =
      .ok ⟨"car", "B", "A", 500⟩ := by
  have hinv : LedgerInv (fun _ => True) scenarioStub.state := by
    refine ⟨by decide, ?_⟩
    intro kv hkv hr
    simp only [scenarioStub, List.mem_cons, List.mem_singleton, List.not_mem_nil,
      or_false] at hkv
    rcases hkv with h | h | h <;> subst h
    · exact absurd hr (by decide)
    · exact ⟨⟨"car", "A", "A", 500⟩, by decide, by decide, trivial⟩
    · exact absurd hr (by decide)
  have hwk : ∀ m b, asset.Get m scenarioStub = .ok b → b.Name = m := fun m b hb =>
    (LedgerInv.get_name (fun _ => True) scenarioStub.state scenarioStub.creator m b hinv hb).1
  have hget : asset.Get "car" scenarioStub = .ok ⟨"car", "A", "A", 500⟩ := by decide
  refine ⟨hget, ?_, ?_⟩
  · rcases asset_record_changes_only_owner id scenarioStub "InitFund" [] "car"
      ⟨"car", "A", "A", 500⟩ (fun m b _ h => hwk _ b h) hget with h | ⟨hf, -⟩
    · exact h
    · exact absurd hf (by decide)
  · rcases asset_record_changes_only_owner id scenarioStub "BuyAsset" ["Car"] "car"
      ⟨"car", "A", "A", 500⟩ (fun m b _ h => hwk _ b h) hget with
      h | ⟨-, -, m, caller, -, -, hid, -, h⟩
    · exact absurd h (by decide)
    · have hc : caller = "B" := by
        have hB : AssetChaincode.getMspID scenarioStub = .ok "B" := by decide
        rw [hB] at hid; exact (Except.ok.inj hid).symm
      subst hc
      exact h

/-- C19: in every ledger reachable from the empty ledger (the case table being idempotent,
as lower-casing is), no key occurs twice, each entry under the asset prefix decodes to a
record stored under the key built from its own Name, that Name is unchanged by
lower-casing, and two asset entries whose names are equal after lower-casing are the same
entry. -/
theorem reachable_records_keyed_by_lowercase_name (tbl : Char → Char)
    (htbl : ∀ c, strings.lowerRune tbl (strings.lowerRune tbl c) = strings.lowerRune tbl c)
    (st : List (String × String)) (bought : List String) (h : Reachable tbl st bought) :
    (st.map Prod.fst).Nodup ∧
    (∀ kv ∈ st, shim.inPartialRange "\x00asset\x00" kv.1 = true →
      ∃ a, asset.Unmarshal kv.2 = .ok a ∧
        shim.CreateCompositeKey asset.ASSET_PREFIX [a.Name] = .ok kv.1 ∧
        strings.ToLower tbl a.Name = a.Name) ∧
    (∀ kv1 ∈ st, ∀ kv2 ∈ st, shim.inPartialRange "\x00asset\x00" kv1.1 = true →
      shim.inPartialRange "\x00asset\x00" kv2.1 = true →
      ∀ a1 a2, asset.Unmarshal kv1.2 = .ok a1 → asset.Unmarshal kv2.2 = .ok a2 →
        strings.ToLower tbl a1.Name = strings.ToLower tbl a2.Name → kv1 = kv2) := by
  have hinv := Reachable.ledgerInv tbl (fun n => strings.ToLower tbl n = n)
    (fun m => strings.ToLower_idem tbl htbl m) st bought h
  have hdec : ∀ kv ∈ st, shim.inPartialRange "\x00asset\x00" kv.1 = true →
      ∃ a, asset.Unmarshal kv.2 = .ok a ∧
        shim.CreateCompositeKey asset.ASSET_PREFIX [a.Name] = .ok kv.1 ∧
        strings.ToLower tbl a.Name = a.Name := by
    intro kv hkv hr
    obtain ⟨a, ha, hk, hl⟩ := hinv.2 kv hkv hr
    exact ⟨a, by simp [asset.Unmarshal, ha], hk, hl⟩
  refine ⟨hinv.1, hdec, ?_⟩
  intro kv1 h1 kv2 h2 hr1 hr2 a1 a2 hu1 hu2 hn
  obtain ⟨b1, hb1, hk1, hl1⟩ := hdec kv1 h1 hr1
  obtain ⟨b2, hb2, hk2, hl2⟩ := hdec kv2 h2 hr2
  have e1 : b1 = a1 := by rw [hu1] at hb1; exact (Except.ok.inj hb1).symm
  have e2 : b2 = a2 := by rw [hu2] at hb2; exact (Except.ok.inj hb2).symm
  subst e1; subst e2
  rw [hl1, hl2] at hn
  rw [hn] at hk1
  have hkey : kv1.1 = kv2.1 := by
    rw [hk2] at hk1; exact (Except.ok.inj hk1).symm
  obtain ⟨k1, v1⟩ := kv1
  obtain ⟨k2, v2⟩ := kv2
  simp only [] at hkey
  subst hkey
  rw [shim.value_unique_of_nodup st hinv.1 k1 v1 v2 h1 h2]

theorem reachable_records_keyed_by_lowercase_name_witness :
    asset.Unmarshal (carOfA 500) = .ok ⟨"car", "A", "A", 500⟩ ∧
    ∃ a, asset.Unmarshal (carOfA 500) = .ok a ∧
      shim.CreateCompositeKey asset.ASSET_PREFIX [a.Name] = .ok "\x00asset\x00car\x00" ∧
      strings.ToLower id a.Name = a.Name := by
  have hstep : (AssetChaincode.Invoke id ⟨.ok "A", []⟩ "CreateAsset" ["Car", "500"]).2.state =
      [("\x00asset\x00car\x00", carOfA 500)] := by decide
  have hreach := Reachable.invoke [] [] (.ok "A") "CreateAsset" ["Car", "500"]
    (Reachable.empty : Reachable id [] [])
  rw [hstep] at hreach
  exact ⟨by decide,
    (reachable_records_keyed_by_lowercase_name id strings.lowerRune_id_idem
      [("\x00asset\x00car\x00", carOfA 500)] _ hreach).2.1
      ("\x00asset\x00car\x00", carOfA 500) (List.mem_singleton.mpr rfl) (by decide)⟩

/-- C20: in every ledger reachable from the empty ledger, every asset that was the object of
a successful `BuyAsset` on the way is stored and its Owner has a readable balance; no
invocation removes a balance, and only `InitFund` and `BuyAsset` change one. -/
theorem bought_asset_owner_has_balance (tbl : Char → Char) (st : List (String × String))
    (bought : List String) (h : Reachable tbl st bought) :
    (∀ n ∈ bought, ∀ c, ∃ a v, asset.Get n ⟨c, st⟩ = .ok a ∧
      balance.Get a.Owner ⟨c, st⟩ = .ok v) ∧
    (∀ org c function args v, balance.Get org ⟨c, st⟩ = .ok v →
      ∃ w, balance.Get org (AssetChaincode.Invoke tbl ⟨c, st⟩ function args).2 = .ok w) ∧
    (∀ org c function args,
      balance.Get org (AssetChaincode.Invoke tbl ⟨c, st⟩ function args).2 ≠
        balance.Get org ⟨c, st⟩ →
      function = "InitFund" ∨ function = "BuyAsset") :=
  ⟨Reachable.bought_owner_funded tbl st bought h,
   fun org c function args v hv =>
     AssetChaincode.balance_after_invoke tbl ⟨c, st⟩ function args org v hv,
   fun org c function args hne =>
     AssetChaincode.balance_changed_by tbl ⟨c, st⟩ function args org hne⟩

theorem bought_asset_owner_has_balance_witness :
    ∃ a v, asset.Get "car" scenarioSoldStub = .ok a ∧
      balance.Get a.Owner scenarioSoldStub = .ok v := by
  have e1 : (AssetChaincode.Invoke id ⟨.ok "A", []⟩ "InitFund" []).2.state =
      [("\x00fund\x00A\x00", "10000")] := by decide
  have p1 : purchased id ⟨.ok "A", []⟩ "InitFund" [] [] = [] := by decide
  have e2 : (AssetChaincode.Invoke id ⟨.ok "A", [("\x00fund\x00A\x00", "10000")]⟩
      "CreateAsset" ["Car", "500"]).2.state =
      [("\x00fund\x00A\x00", "10000"), ("\x00asset\x00car\x00", carOfA 500)] := by decide
  have p2 : purchased id ⟨.ok "A", [("\x00fund\x00A\x00", "10000")]⟩
      "CreateAsset" ["Car", "500"] [] = [] := by decide
  have e3 : (AssetChaincode.Invoke id
      ⟨.ok "B", [("\x00fund\x00A\x00", "10000"), ("\x00asset\x00car\x00", carOfA 500)]⟩
      "InitFund" []).2.state = scenarioStub.state := by decide
  have p3 : purchased id
      ⟨.ok "B", [("\x00fund\x00A\x00", "10000"), ("\x00asset\x00car\x00", carOfA 500)]⟩
      "InitFund" [] [] = [] := by decide
  have e4 : (AssetChaincode.Invoke id ⟨.ok "B", scenarioStub.state⟩
      "BuyAsset" ["Car"]).2.state = scenarioSoldStub.state := by decide
  have p4 : purchased id ⟨.ok "B", scenarioStub.state⟩ "BuyAsset" ["Car"] [] = ["car"] := by
    decide
  have r1 := Reachable.invoke [] [] (.ok "A") "InitFund" [] (Reachable.empty : Reachable id [] [])
  rw [e1, p1] at r1
  have r2 := Reachable.invoke _ _ (.ok "A") "CreateAsset" ["Car", "500"] r1
  rw [e2, p2] at r2
  have r3 := Reachable.invoke _ _ (.ok "B") "InitFund" [] r2
  rw [e3, p3] at r3
  have r4 := Reachable.invoke _ _ (.ok "B") "BuyAsset" ["Car"] r3
  rw [e4, p4] at r4
  exact (bought_asset_owner_has_balance id scenarioSoldStub.state ["car"] r4).1 "car"
    (List.mem_singleton.mpr rfl) (.ok "A")
